import Mathlib

/-!
raylib-line-triangulator: a shallow embedding of `line_triangulator.h`.

The C code works on `float`, on `int` and on two heap buffers (`points`, `strip`).

* `float` is embedded through a record `FloatOps α` of the float operations, which every
  function takes, so the memory and control-flow theorems hold for every implementation
  of the arithmetic.  It has two instances.  `exactOps` is exact arithmetic over an
  ordered field extended with the IEEE special values `+inf`, `-inf` and `NaN` (no
  rounding, no overflow, an unsigned zero): the geometric theorems are stated on it.
  `f32Ops` is IEEE 754 binary32, every operation rounded to nearest with ties to even:
  it shows what rounding and overflow do to the geometric statements.
* `int` is embedded as `Int`.
* A buffer is a `List`; its length is the allocated capacity.  A `strip` cell is an
  `Option`: `none` is a cell that was never written (indeterminate after `malloc`).
  Reading or writing outside a buffer, or reading a never-written cell, is undefined
  behaviour in C and makes the embedded function return `none`.
-/

namespace LineTriangulator

/-! Data model -/

/-- Vector2 of `raylib.h`: a pair of `float` coordinates. -/
structure Vector2 (α : Type) where
  x : α
  y : α
deriving DecidableEq, Repr

/-- The `float` operations `line_triangulator.h` uses, as a record of functions.
`lt a b` is the C comparison `a < b` (`a > b` is `lt b a`); `zero`, `one`, `two` are the
literals `0`, `1`, `2.0f` and `eps` is `EPSILON` (`0.00001f`). -/
structure FloatOps (α : Type) where
  add : α → α → α
  sub : α → α → α
  mul : α → α → α
  div : α → α → α
  neg : α → α
  sqrt : α → α
  lt : α → α → Bool
  zero : α
  one : α
  two : α
  eps : α

/-- Exact values extended with the IEEE special values: a finite value of the field `F`,
plus infinity, minus infinity, or NaN. -/
inductive Fl (F : Type) where
  | fin (v : F)
  | pinf
  | ninf
  | nan
deriving DecidableEq, Repr

namespace Fl

variable {F : Type} [LinearOrderedField F]

/-- Unary minus. -/
def neg : Fl F → Fl F
  | fin a => fin (-a)
  | pinf => ninf
  | ninf => pinf
  | nan => nan

/-- IEEE addition without rounding: `inf + (-inf)` is NaN. -/
def add : Fl F → Fl F → Fl F
  | fin a, fin b => fin (a + b)
  | fin _, pinf => pinf
  | fin _, ninf => ninf
  | pinf, fin _ => pinf
  | ninf, fin _ => ninf
  | pinf, pinf => pinf
  | ninf, ninf => ninf
  | pinf, ninf => nan
  | ninf, pinf => nan
  | nan, _ => nan
  | _, nan => nan

/-- IEEE subtraction without rounding. -/
def sub (a b : Fl F) : Fl F := add a (neg b)

/-- The product of the finite value `c` with an infinity (`positive` tells which one):
NaN for `c = 0`, else the infinity whose sign is the product of the signs. -/
def scaleInf (c : F) (positive : Bool) : Fl F :=
  if c = 0 then nan else if decide (0 < c) = positive then pinf else ninf

/-- IEEE multiplication without rounding: `0 * inf` is NaN. -/
def mul : Fl F → Fl F → Fl F
  | fin a, fin b => fin (a * b)
  | fin a, pinf => scaleInf a true
  | fin a, ninf => scaleInf a false
  | pinf, fin b => scaleInf b true
  | ninf, fin b => scaleInf b false
  | pinf, pinf => pinf
  | ninf, ninf => pinf
  | pinf, ninf => ninf
  | ninf, pinf => ninf
  | nan, _ => nan
  | _, nan => nan

/-- IEEE division without rounding: a nonzero finite value divided by zero is an
infinity, `0 / 0` and `inf / inf` are NaN, a finite value divided by an infinity is 0.
The zero divisor is taken as `+0`. -/
def div : Fl F → Fl F → Fl F
  | fin a, fin b =>
      if b = 0 then (if 0 < a then pinf else if a < 0 then ninf else nan) else fin (a / b)
  | fin _, pinf => fin 0
  | fin _, ninf => fin 0
  | pinf, fin b => if b < 0 then ninf else pinf
  | ninf, fin b => if b < 0 then pinf else ninf
  | pinf, pinf => nan
  | ninf, ninf => nan
  | pinf, ninf => nan
  | ninf, pinf => nan
  | nan, _ => nan
  | _, nan => nan

/-- The function `sqrtf`, given the square root `sq` of the field: NaN on negative values. -/
def sqrt (sq : F → F) : Fl F → Fl F
  | fin a => if a < 0 then nan else fin (sq a)
  | pinf => pinf
  | ninf => nan
  | nan => nan

/-- The comparison `a < b`: false as soon as one side is NaN. -/
def lt : Fl F → Fl F → Bool
  | fin a, fin b => decide (a < b)
  | fin _, pinf => true
  | ninf, fin _ => true
  | ninf, pinf => true
  | _, _ => false

/-- The comparison `a <= b`: false as soon as one side is NaN. -/
def le : Fl F → Fl F → Bool
  | fin a, fin b => decide (a ≤ b)
  | nan, _ => false
  | _, nan => false
  | ninf, _ => true
  | _, pinf => true
  | _, _ => false

end Fl

/-- Exact arithmetic with the IEEE special values over the ordered field `F`, whose square
root is `sq`.  `EPSILON` is `1/100000`. -/
def exactOps {F : Type} [LinearOrderedField F] (sq : F → F) : FloatOps (Fl F) where
  add := Fl.add
  sub := Fl.sub
  mul := Fl.mul
  div := Fl.div
  neg := Fl.neg
  sqrt := Fl.sqrt sq
  lt := Fl.lt
  zero := Fl.fin 0
  one := Fl.fin 1
  two := Fl.fin 2
  eps := Fl.fin (1 / 100000)

section Code

variable {α : Type} (ops : FloatOps α)

/-! raymath.h (external dependency) -/

/-- Modelled from the spec: `Vector2Add` of raymath.h (§6, "a 2D vector-math utility
providing subtract, add, scale, and magnitude"), the componentwise sum. -/
def Vector2Add (v1 v2 : Vector2 α) : Vector2 α :=
  ⟨ops.add v1.x v2.x, ops.add v1.y v2.y⟩

/-- Modelled from the spec: `Vector2Subtract` of raymath.h, the componentwise difference. -/
def Vector2Subtract (v1 v2 : Vector2 α) : Vector2 α :=
  ⟨ops.sub v1.x v2.x, ops.sub v1.y v2.y⟩

/-- Modelled from the spec: `Vector2Scale` of raymath.h, both components times `scale`. -/
def Vector2Scale (v : Vector2 α) (scale : α) : Vector2 α :=
  ⟨ops.mul v.x scale, ops.mul v.y scale⟩

/-- Modelled from the spec: `Vector2Length` of raymath.h, `sqrtf(x*x + y*y)`. -/
def Vector2Length (v : Vector2 α) : α :=
  ops.sqrt (ops.add (ops.mul v.x v.x) (ops.mul v.y v.y))

/-! Utils math -/

/-- CrossProduct: `a.x*b.y - b.x*a.y`. -/
def CrossProduct (a b : Vector2 α) : α :=
  ops.sub (ops.mul a.x b.y) (ops.mul b.x a.y)

/-- DoLinesIntersect: both pairs of endpoints are split by the other segment's line
(`^` on the results of `> 0` is `xor`). -/
def DoLinesIntersect (a1 a2 b1 b2 : Vector2 α) : Bool :=
  let a := Vector2Subtract ops a2 a1
  let b := Vector2Subtract ops b2 b1
  (xor (ops.lt ops.zero (CrossProduct ops a (Vector2Subtract ops b1 a1)))
       (ops.lt ops.zero (CrossProduct ops a (Vector2Subtract ops b2 a1)))) &&
  (xor (ops.lt ops.zero (CrossProduct ops b (Vector2Subtract ops a1 b1)))
       (ops.lt ops.zero (CrossProduct ops b (Vector2Subtract ops a2 b1))))

/-- FindPerpendiculars: the values stored through the out-parameters, as the pair
`(right, left)` in the order of the C parameter list. -/
def FindPerpendiculars (center dir : Vector2 α) (perp_len : α) : Vector2 α × Vector2 α :=
  let vec := Vector2Subtract ops dir center
  let scale := ops.div perp_len (Vector2Length ops vec)
  let left := Vector2Add ops center ⟨ops.mul (ops.neg vec.y) scale, ops.mul vec.x scale⟩
  let right := Vector2Add ops center ⟨ops.mul vec.y scale, ops.mul (ops.neg vec.x) scale⟩
  (right, left)

/-! "low-level" functions -/

/-- The C conversion of a `bool` to `int` (as in `numPoints + loop`, `offset + reverseOrder`). -/
def boolToInt (b : Bool) : Int := if b then 1 else 0

/-- GetStripLength: the number of strip points needed to triangulate a line. -/
def GetStripLength (numPoints : Int) (loop : Bool) : Int :=
  if numPoints > 2 then
    2 * (numPoints + boolToInt loop)
  else if numPoints = 2 then
    4
  else
    0

/-- The buffer `strip` points to: one cell per allocated element, `none` while the cell
has never been written. -/
abbrev Strip (α : Type) := List (Option (Vector2 α))

/-- The read `points[i]`: `none` outside the buffer. -/
def readPoint (points : List (Vector2 α)) (i : Int) : Option (Vector2 α) :=
  if 0 ≤ i then points[i.toNat]? else none

/-- The read `strip[i]`: `none` outside the buffer and on a never-written cell. -/
def readStrip (strip : Strip α) (i : Int) : Option (Vector2 α) :=
  if 0 ≤ i then (strip[i.toNat]?).join else none

/-- The write `strip[i] = v`: `none` outside the buffer. -/
def writeStrip (strip : Strip α) (i : Int) (v : Vector2 α) : Option (Strip α) :=
  if 0 ≤ i ∧ i.toNat < strip.length then some (strip.set i.toNat (some v)) else none

/-- The local `slopeDiff` of the main loop of TriangulateLine (line 142):
`a.y/a.x - b.y/b.x`. -/
def slopeDiff (a b : Vector2 α) : α :=
  ops.sub (ops.div a.y a.x) (ops.div b.y b.x)

/-- The test of line 144, `-EPSILON < slopeDiff && slopeDiff < EPSILON`: true when the
near-parallel branch is taken, false when the angle-bisector branch is taken. -/
def nearParallel (a b : Vector2 α) : Bool :=
  ops.lt (ops.neg ops.eps) (slopeDiff ops a b) && ops.lt (slopeDiff ops a b) ops.eps

/-- The vector `s` of the main loop of TriangulateLine (lines 137-166): the perpendicular
of `b` when the slopes of `a` and `b` differ by less than `EPSILON`, else the bisector of
the angle `AOB`, scaled for the (halved) `thickness`. -/
def joinVector (thickness : α) (A O B : Vector2 α) : Vector2 α :=
  let a := Vector2Subtract ops A O
  let b := Vector2Subtract ops B O
  let len_b := Vector2Length ops b
  if nearParallel ops a b then
    let s_scale := ops.div thickness len_b
    ⟨ops.mul (ops.neg b.y) s_scale, ops.mul b.x s_scale⟩
  else
    let sides_len_ratio := ops.div (Vector2Length ops a) len_b
    let AB := Vector2Subtract ops B A
    let AX := Vector2Scale ops AB (ops.div sides_len_ratio (ops.add sides_len_ratio ops.one))
    let s := Vector2Add ops a AX
    let len_s := Vector2Length ops s
    let cos_b_s := ops.div (ops.div (ops.add (ops.mul b.x s.x) (ops.mul b.y s.y)) len_b) len_s
    let sin_b_s := ops.sqrt (ops.sub ops.one (ops.mul cos_b_s cos_b_s))
    let s_scale := ops.div (ops.div thickness sin_b_s) len_s
    Vector2Scale ops s s_scale

/-- One iteration of the main loop of TriangulateLine (lines 135-181) at index `i`, on the
loop state `(A, O, strip)`; `thickness` is already halved.  The `&&` and `||` of
`reverseOrder` short-circuit: `strip[offset-2]` is read only for `i != 0` and
`points[numPoints-1]` only for `i == 0`. -/
def loopBody (points : List (Vector2 α)) (numPoints : Int) (thickness : α) (i : Int)
    (A O : Vector2 α) (strip : Strip α) : Option (Vector2 α × Vector2 α × Strip α) := do
  let B ← readPoint points ((i + 1).tmod numPoints)
  let b := Vector2Subtract ops B O
  let s := joinVector ops thickness A O B
  let p1 := Vector2Add ops O s
  let p2 := Vector2Subtract ops O s
  let offset := 2 * i
  let reverseOrder ←
    if i ≠ 0 then
      (readStrip strip (offset - 2)).map (fun q => DoLinesIntersect ops A O q p1)
    else
      (readPoint points (numPoints - 1)).map
        (fun last => ops.lt ops.zero (CrossProduct ops b (Vector2Subtract ops last O)))
  let strip ← writeStrip strip (offset + boolToInt reverseOrder) p1
  let strip ← writeStrip strip (offset + boolToInt (!reverseOrder)) p2
  pure (O, B, strip)

/-- The main loop `for (int i = ...; i < numPoints - !loop; i++)`: `n` iterations from
index `i` on. -/
def mainLoop (points : List (Vector2 α)) (numPoints : Int) (thickness : α) :
    Nat → Int → Vector2 α → Vector2 α → Strip α → Option (Vector2 α × Vector2 α × Strip α)
  | 0, _, A, O, strip => some (A, O, strip)
  | n + 1, i, A, O, strip =>
      (loopBody ops points numPoints thickness i A O strip).bind
        (fun st => mainLoop points numPoints thickness n (i + 1) st.1 st.2.1 st.2.2)

/-- TriangulateLine: the content of the buffer `strip` after the call, `none` when the call
has undefined behaviour.  `points` and `strip` are the whole allocated buffers. -/
def TriangulateLine (points : List (Vector2 α)) (numPoints : Int) (thickness : α)
    (loop : Bool) (strip : Strip α) : Option (Strip α) :=
  if numPoints ≠ 2 ∧ numPoints < 2 then
    some strip
  else do
    let loop := if numPoints = 2 then false else loop
    let thickness := ops.div thickness ops.two
    let (A, O, strip) ←
      if loop then do
        let A ← readPoint points (numPoints - 1)
        let O ← readPoint points 0
        pure (A, O, strip)
      else do
        let A ← readPoint points 0
        let O ← readPoint points 1
        let (right, left) := FindPerpendiculars ops A O thickness
        let strip ← writeStrip strip 1 left
        let strip ← writeStrip strip 0 right
        pure (A, O, strip)
    let first := boolToInt (!loop)
    let (A, O, strip) ←
      mainLoop ops points numPoints thickness (numPoints - first - first).toNat first A O strip
    let offset := GetStripLength numPoints loop - 2
    if loop then do
      let v0 ← readStrip strip 0
      let strip ← writeStrip strip (offset + 0) v0
      let v1 ← readStrip strip 1
      writeStrip strip (offset + 1) v1
    else do
      let c ← readPoint points (numPoints - 1)
      let d ← readPoint points (numPoints - 2)
      let (p1, p2) := FindPerpendiculars ops c d thickness
      let q ← readStrip strip (offset - 2)
      let reverseOrder := DoLinesIntersect ops A O q p1
      let strip ← writeStrip strip (offset + boolToInt reverseOrder) p1
      writeStrip strip (offset + boolToInt (!reverseOrder)) p2

/-- The two vertices of one output pair in strip order: what the writes
`strip[offset + reverseOrder] = p1; strip[offset + !reverseOrder] = p2` leave in the slots
`offset`, `offset + 1`. -/
def orderedPair {α : Type} (reverseOrder : Bool) (p1 p2 : Vector2 α) : List (Vector2 α) :=
  if reverseOrder then [p2, p1] else [p1, p2]

/-! "high-level" functions -/

/-- The struct TriLine; `points` and `strip` are the buffers the two pointers refer to
(`NULL` is the empty buffer), so `strip.length` is the allocated capacity of `strip`. -/
structure TriLine (α : Type) where
  points : List (Vector2 α)
  numPoints : Int
  thickness : α
  loop : Bool
  strip : Strip α
  stripLen : Int

/-- Modelled from the spec: `RL_MALLOC` of raylib (§6, the "heap allocate" hook), a fresh
buffer of `n` elements, none of them written. -/
def RL_MALLOC (α : Type) (n : Nat) : Strip α := List.replicate n none

/-- UpdateTriLine: the TriLine after the call, `none` when the call has undefined
behaviour. -/
def UpdateTriLine (triline : TriLine α) : Option (TriLine α) :=
  let prevStripLen := triline.stripLen
  let stripLen := GetStripLength triline.numPoints triline.loop
  let strip :=
    if stripLen > prevStripLen then RL_MALLOC α stripLen.toNat else triline.strip
  if stripLen ≠ 0 then
    (TriangulateLine ops triline.points triline.numPoints triline.thickness triline.loop
      strip).map (fun out => { triline with strip := out, stripLen := stripLen })
  else
    some { triline with strip := strip, stripLen := stripLen }

end Code

/-- A sample TriLine over exact rational arithmetic: the open right-angle bend
(0,0), (10,0), (10,10) of thickness 4, never updated (`strip = NULL`, `stripLen = 0`). -/
def sampleLine : TriLine (Fl ℚ) where
  points := [⟨Fl.fin 0, Fl.fin 0⟩, ⟨Fl.fin 10, Fl.fin 0⟩, ⟨Fl.fin 10, Fl.fin 10⟩]
  numPoints := 3
  thickness := Fl.fin 4
  loop := false
  strip := []
  stripLen := 0

/-- The ten points (0,0), (10,10), (20,0), (30,10), ... of a zigzag, over exact rational
arithmetic. -/
def tenPoints : List (Vector2 (Fl ℚ)) :=
  [⟨Fl.fin 0, Fl.fin 0⟩, ⟨Fl.fin 10, Fl.fin 10⟩, ⟨Fl.fin 20, Fl.fin 0⟩,
   ⟨Fl.fin 30, Fl.fin 10⟩, ⟨Fl.fin 40, Fl.fin 0⟩, ⟨Fl.fin 50, Fl.fin 10⟩,
   ⟨Fl.fin 60, Fl.fin 0⟩, ⟨Fl.fin 70, Fl.fin 10⟩, ⟨Fl.fin 80, Fl.fin 0⟩,
   ⟨Fl.fin 90, Fl.fin 10⟩]

/-- The zero-initialised TriLine of `demo.c` (`TriLine triline = { 0 }`: `strip = NULL`,
`stripLen = 0`, `numPoints = 0`) with a `points` buffer holding `tenPoints` and
thickness 16. -/
def freshLine : TriLine (Fl ℚ) where
  points := tenPoints
  numPoints := 0
  thickness := Fl.fin 16
  loop := false
  strip := []
  stripLen := 0

/-- The vector with the finite coordinates `x`, `y`. -/
def finVec {F : Type} (x y : F) : Vector2 (Fl F) := ⟨Fl.fin x, Fl.fin y⟩

/-- The half-width normal of the segment from `(x0, y0)` to `(x1, y1)` as C5 words it:
`n = (t/2) * (-d.y, d.x) / |d|` with `d = P1 - P0` (`sq` is the square root). -/
def segmentNormal {F : Type} [LinearOrderedField F] (sq : F → F) (x0 y0 x1 y1 t : F) : F × F :=
  ((t / 2) * (-(y1 - y0)) / sq ((x1 - x0) * (x1 - x0) + (y1 - y0) * (y1 - y0)),
   (t / 2) * (x1 - x0) / sq ((x1 - x0) * (x1 - x0) + (y1 - y0) * (y1 - y0)))

/-- The join pair of the middle point `O` of the open line `A, O, B` in strip order
(`strip[2]`, `strip[3]`): the candidates `O + s` and `O - s`, reversed when the segment from
`strip[0]` to `O + s` intersects the raw segment `A-O`.  `thickness` is already halved. -/
def threeOpenJoin {α : Type} (ops : FloatOps α) (A O B : Vector2 α) (thickness : α) :
    List (Vector2 α) :=
  orderedPair
    (DoLinesIntersect ops A O (FindPerpendiculars ops A O thickness).1
      (Vector2Add ops O (joinVector ops thickness A O B)))
    (Vector2Add ops O (joinVector ops thickness A O B))
    (Vector2Subtract ops O (joinVector ops thickness A O B))

/-- The perpendicular distance of the point `(x, y)` from the line through `(px, py)` and
`(qx, qy)`: `|cross(Q - P, X - P)| / |Q - P|` (`sq` is the square root). -/
def perpDist {F : Type} [LinearOrderedField F] (sq : F → F) (px py qx qy x y : F) : F :=
  |(qx - px) * (y - py) - (x - px) * (qy - py)|
    / sq ((qx - px) * (qx - px) + (qy - py) * (qy - py))

section StructureDefs
variable {α : Type} (ops : FloatOps α)

/-- The output pair of the visited vertex `j` in `canon`, as the main loop of
TriangulateLine computes it: with `A`, `O`, `B` the points before, at and after index `j`
(indices modulo `N`), the candidates are `p1 = O + s` and `p2 = O - s` for the join vector
`s`; `p1` takes the higher slot `2j+1` exactly when `reverseOrder` holds, which for `j = 0`
is `CrossProduct(b, last - O) > 0` (here `A` is the last point) and for `j >= 1` is
`DoLinesIntersect(A, O, canon[2j-2], p1)`.  `thickness` is already halved. -/
def JoinAt (points : List (Vector2 α)) (N : Nat) (thickness : α) (canon : List (Vector2 α))
    (j : Nat) : Prop :=
  ∃ A O B : Vector2 α, points[(j + N - 1) % N]? = some A ∧ points[j % N]? = some O ∧
    points[(j + 1) % N]? = some B ∧
    ∃ reverseOrder : Bool,
      (if j = 0 then
        reverseOrder = ops.lt ops.zero
          (CrossProduct ops (Vector2Subtract ops B O) (Vector2Subtract ops A O))
       else ∃ q, canon[2 * j - 2]? = some q ∧
        reverseOrder = DoLinesIntersect ops A O q
          (Vector2Add ops O (joinVector ops thickness A O B))) ∧
      canon[2 * j]? = some (if reverseOrder then
          Vector2Subtract ops O (joinVector ops thickness A O B)
        else Vector2Add ops O (joinVector ops thickness A O B)) ∧
      canon[2 * j + 1]? = some (if reverseOrder then
          Vector2Add ops O (joinVector ops thickness A O B)
        else Vector2Subtract ops O (joinVector ops thickness A O B))

/-- The output pair of the cap at the last point of an open line in `canon`: with
`A`, `O` the last two points, `(p1, p2)` the `(right, left)` perpendiculars at `O` towards
`A`, `p1` takes the higher slot exactly when `DoLinesIntersect(A, O, canon[2N-4], p1)`.
`thickness` is already halved. -/
def CapAt (points : List (Vector2 α)) (N : Nat) (thickness : α) (canon : List (Vector2 α)) :
    Prop :=
  ∃ A O q : Vector2 α, points[N - 2]? = some A ∧ points[N - 1]? = some O ∧
    canon[2 * N - 4]? = some q ∧
    canon[2 * N - 2]? = some
      (if DoLinesIntersect ops A O q (FindPerpendiculars ops O A thickness).1 then
        (FindPerpendiculars ops O A thickness).2 else (FindPerpendiculars ops O A thickness).1) ∧
    canon[2 * N - 1]? = some
      (if DoLinesIntersect ops A O q (FindPerpendiculars ops O A thickness).1 then
        (FindPerpendiculars ops O A thickness).1 else (FindPerpendiculars ops O A thickness).2)

end StructureDefs

section Driver

variable {α : Type} (ops : FloatOps α)

/-- The caller's step between updates: store new values in the user fields `numPoints` and
`loop`, then call UpdateTriLine (as `demo.c` does once per changed frame). -/
def updateWith (triline : TriLine α) (e : Int × Bool) : Option (TriLine α) :=
  UpdateTriLine ops { triline with numPoints := e.1, loop := e.2 }

/-- A sequence of UpdateTriLine calls with the given `(numPoints, loop)` settings. -/
def runUpdates : TriLine α → List (Int × Bool) → Option (TriLine α)
  | triline, [] => some triline
  | triline, e :: es => (updateWith ops triline e).bind (fun t => runUpdates t es)

end Driver

section Demo

/-! demo.c -/

/-- The `float` operations of `demo.c`: those of `line_triangulator.h` (`flt`), the
conversion of an `int` to `float` (`ofInt`), the value of a decimal literal such as `0.83f`
(`lit`, applied to the literal read as a fraction) and the comparison `a >= b` (`ge`). -/
structure DemoOps (α : Type) where
  flt : FloatOps α
  ofInt : Int → α
  lit : ℚ → α
  ge : α → α → Bool

/-- Exact arithmetic for `demo.c`: integers and literals are converted without rounding. -/
def exactDemo {F : Type} [LinearOrderedField F] (sq : F → F) : DemoOps (Fl F) where
  flt := exactOps sq
  ofInt := fun n => Fl.fin (n : F)
  lit := fun q => Fl.fin (q : F)
  ge := fun a b => Fl.le b a

variable {α : Type} (dm : DemoOps α)

/-- The write `points[i] = v`: `none` outside the buffer. -/
def writePoint (points : List (Vector2 α)) (i : Int) (v : Vector2 α) :
    Option (List (Vector2 α)) :=
  if 0 ≤ i ∧ i.toNat < points.length then some (points.set i.toNat v) else none

/-- Modelled from the spec: `realloc` of the C library (§6, the "heap allocate" hooks, and
§3, "the allocated capacity of `points` grows"): a buffer of `n` elements that keeps the
old elements that fit; `fill` stands for whatever the allocator leaves in a new cell. -/
def realloc (points : List (Vector2 α)) (n : Nat) (fill : Vector2 α) : List (Vector2 α) :=
  (points ++ List.replicate n fill).take n

/-- LoadDefaultLine (`demo.c`, lines 31-43): six points around the centre of a
`width` x `height` pane; `none` when `points` holds fewer than six elements.  A literal
`-0.403f` is the negation of `0.403f`, which is exact, so it is read as the fraction
`-403/1000`. -/
def LoadDefaultLine (triline : TriLine α) (width height : α) : Option (TriLine α) := do
  let ops := dm.flt
  let xOffset := ops.div width ops.two
  let yOffset := ops.div height ops.two
  let scale := ops.mul (dm.lit (1 / 2))
    (if ops.lt (ops.div width height) (dm.lit (83 / 100)) then width else height)
  let pt : ℚ → ℚ → Vector2 α := fun cx cy =>
    ⟨ops.add xOffset (ops.mul scale (dm.lit cx)), ops.add yOffset (ops.mul scale (dm.lit cy))⟩
  let points ← writePoint triline.points 0 (pt (-403 / 1000) (-355 / 1000))
  let points ← writePoint points 1 (pt (-500 / 1000) (161 / 1000))
  let points ← writePoint points 2 (pt (-226 / 1000) (421 / 1000))
  let points ← writePoint points 3 (pt (290 / 1000) (338 / 1000))
  let points ← writePoint points 4 (pt (500 / 1000) (-57 / 1000))
  let points ← writePoint points 5 (pt (97 / 1000) (-420 / 1000))
  pure { triline with points := points, numPoints := 6 }

/-- The variables of `main` in `demo.c` that the event processing reads and writes. -/
structure DemoState (α : Type) where
  screenWidth : Int
  screenHeight : Int
  halfScreen : Int
  numPointsAllocated : Int
  updTriLine : Bool
  triline : TriLine α

/-- What the raylib queries return during one frame: the modifier keys held
(`shift`, `ctrl`), `IsWindowResized` with `GetScreenWidth`, `GetScreenHeight`,
`IsKeyPressed` for R, C, L, Z, `IsKeyDown` for the Down and Up arrows,
`IsMouseButtonPressed(MOUSE_LEFT_BUTTON)` and `GetMousePosition`; `fill` is what
`realloc` leaves in new cells. -/
structure FrameInput (α : Type) where
  shift : Bool
  ctrl : Bool
  resized : Bool
  width : Int
  height : Int
  keyR : Bool
  keyC : Bool
  keyL : Bool
  keyDown : Bool
  keyUp : Bool
  keyZ : Bool
  mouseLeft : Bool
  mousePos : Vector2 α
  fill : Vector2 α

/-- The start of `main` (lines 47-65): a 1000 x 600 window, a `points` buffer of 64
elements (`heap` is what `malloc` leaves in them), `loop = true`, `thickness = 16.0f` and
the default line loaded for the left pane. -/
def initDemo (heap : Vector2 α) : Option (DemoState α) :=
  (LoadDefaultLine dm
      { points := List.replicate 64 heap, numPoints := 0, thickness := dm.lit 16,
        loop := true, strip := [], stripLen := 0 }
      (dm.ofInt (Int.tdiv 1000 2)) (dm.ofInt 600)).map
    (fun t =>
      { screenWidth := 1000, screenHeight := 600, halfScreen := Int.tdiv 1000 2,
        numPointsAllocated := 64, updTriLine := true, triline := t })

/-- Lines 81-85: on a resize the window size is read again and `halfScreen` recomputed
(`/` on `int` truncates). -/
def resizeStep (d : DemoState α) (inp : FrameInput α) : DemoState α :=
  if inp.resized then
    { d with screenWidth := inp.width, screenHeight := inp.height,
             halfScreen := Int.tdiv inp.width 2 }
  else d

/-- The step `0.4f + shift*0.8f` of a thickness change. -/
def thicknessStep (shift : Bool) : α :=
  dm.flt.add (dm.lit (4 / 10)) (dm.flt.mul (dm.ofInt (boolToInt shift)) (dm.lit (8 / 10)))

/-- Lines 87-120: the `if` / `else if` chain on the keys. -/
def keyChain (d : DemoState α) (inp : FrameInput α) : Option (DemoState α) :=
  if inp.shift && inp.keyR then
    some { d with triline := { d.triline with thickness := dm.lit 16 }, updTriLine := true }
  else if inp.keyR then
    (LoadDefaultLine dm d.triline (dm.ofInt d.halfScreen) (dm.ofInt d.screenHeight)).map
      (fun t => { d with triline := t, updTriLine := true })
  else if inp.keyC then
    some { d with triline := { d.triline with numPoints := 0 }, updTriLine := true }
  else if inp.keyL then
    some { d with triline := { d.triline with loop := !d.triline.loop }, updTriLine := true }
  else if inp.keyDown then
    some { d with
      triline := { d.triline with
        thickness := dm.flt.sub d.triline.thickness (thicknessStep dm inp.shift) },
      updTriLine := true }
  else if inp.keyUp then
    some { d with
      triline := { d.triline with
        thickness := dm.flt.add d.triline.thickness (thicknessStep dm inp.shift) },
      updTriLine := true }
  else if inp.ctrl && inp.keyZ && decide (d.triline.numPoints ≠ 0) then
    some { d with
      triline := { d.triline with numPoints := d.triline.numPoints - 1 },
      updTriLine := true }
  else
    some d

/-- Lines 127-130: the click position in left-pane coordinates. -/
def remapClick (halfScreen : Int) (pos : Vector2 α) : Vector2 α :=
  if dm.ge pos.x (dm.ofInt halfScreen) then
    { pos with x := dm.flt.sub pos.x (dm.ofInt halfScreen) }
  else pos

/-- Lines 123-133, the body of `if (IsMouseButtonPressed(MOUSE_LEFT_BUTTON))`: grow the
`points` buffer by 16 elements when it is full, then store the remapped click at index
`numPoints` and increment `numPoints`; `none` when the store is outside the buffer. -/
def addPoint (d : DemoState α) (pos fill : Vector2 α) : Option (DemoState α) := do
  let full := decide (d.triline.numPoints = d.numPointsAllocated)
  let numPointsAllocated := if full then d.numPointsAllocated + 16 else d.numPointsAllocated
  let points :=
    if full then realloc d.triline.points numPointsAllocated.toNat fill else d.triline.points
  let points ← writePoint points d.triline.numPoints (remapClick dm d.halfScreen pos)
  pure { d with
    numPointsAllocated := numPointsAllocated,
    triline := { d.triline with points := points, numPoints := d.triline.numPoints + 1 },
    updTriLine := true }

/-- Lines 73-134, "Process events": the resize, the key chain, then the mouse click. -/
def processEvents (d : DemoState α) (inp : FrameInput α) : Option (DemoState α) := do
  let d := resizeStep d inp
  let d ← keyChain dm d inp
  if inp.mouseLeft then addPoint dm d inp.mousePos inp.fill else pure d

/-- One iteration of the main loop without the drawing (lines 73-140): the events, then
UpdateTriLine when `updTriLine` is set. -/
def demoFrame (d : DemoState α) (inp : FrameInput α) : Option (DemoState α) := do
  let d ← processEvents dm d inp
  if d.updTriLine then
    (UpdateTriLine dm.flt d.triline).map (fun t => { d with triline := t })
  else pure d

/-- The main loop on a sequence of frames. -/
def runFrames : DemoState α → List (FrameInput α) → Option (DemoState α)
  | d, [] => some d
  | d, inp :: rest => (demoFrame dm d inp).bind (fun d1 => runFrames d1 rest)

/-- The state invariant of the demo: `0 <= numPoints <= numPointsAllocated`, the `points`
buffer holds `numPointsAllocated >= 64` elements and the `strip` buffer holds `stripLen`
cells. -/
def DemoInv (d : DemoState α) : Prop :=
  0 ≤ d.triline.numPoints ∧ d.triline.numPoints ≤ d.numPointsAllocated ∧
    (d.triline.points.length : Int) = d.numPointsAllocated ∧ 64 ≤ d.numPointsAllocated ∧
    d.triline.stripLen ≤ d.triline.strip.length

/-- A frame in which nothing happens but a left click at `pos`. -/
def clickFrame (pos fill : Vector2 α) : FrameInput α where
  shift := false
  ctrl := false
  resized := false
  width := 0
  height := 0
  keyR := false
  keyC := false
  keyL := false
  keyDown := false
  keyUp := false
  keyZ := false
  mouseLeft := true
  mousePos := pos
  fill := fill

/-- A frame in which nothing happens but a press of the key C (clear the line). -/
def clearFrame (pos fill : Vector2 α) : FrameInput α where
  shift := false
  ctrl := false
  resized := false
  width := 0
  height := 0
  keyR := false
  keyC := true
  keyL := false
  keyDown := false
  keyUp := false
  keyZ := false
  mouseLeft := false
  mousePos := pos
  fill := fill

/-- The ordered list of the key actions as §4.4 words it, each with its condition: the
first entry whose condition holds is the action of the frame. -/
def keyActions (inp : FrameInput α) :
    List ((DemoState α → Bool) × (DemoState α → Option (DemoState α))) :=
  [ (fun _ => inp.shift && inp.keyR, fun d =>
      some { d with triline := { d.triline with thickness := dm.lit 16 }, updTriLine := true }),
    (fun _ => inp.keyR, fun d =>
      (LoadDefaultLine dm d.triline (dm.ofInt d.halfScreen) (dm.ofInt d.screenHeight)).map
        (fun t => { d with triline := t, updTriLine := true })),
    (fun _ => inp.keyC, fun d =>
      some { d with triline := { d.triline with numPoints := 0 }, updTriLine := true }),
    (fun _ => inp.keyL, fun d =>
      some { d with triline := { d.triline with loop := !d.triline.loop },
                    updTriLine := true }),
    (fun _ => inp.keyDown, fun d =>
      some { d with
        triline := { d.triline with
          thickness := dm.flt.sub d.triline.thickness (thicknessStep dm inp.shift) },
        updTriLine := true }),
    (fun _ => inp.keyUp, fun d =>
      some { d with
        triline := { d.triline with
          thickness := dm.flt.add d.triline.thickness (thicknessStep dm inp.shift) },
        updTriLine := true }),
    (fun d => inp.ctrl && inp.keyZ && decide (d.triline.numPoints ≠ 0), fun d =>
      some { d with
        triline := { d.triline with numPoints := d.triline.numPoints - 1 },
        updTriLine := true }) ]

/-- The first action of an ordered list whose condition holds on the state, or no action. -/
def firstMatch :
    List ((DemoState α → Bool) × (DemoState α → Option (DemoState α))) → DemoState α →
      Option (DemoState α)
  | [], d => some d
  | (cond, act) :: rest, d => if cond d then act d else firstMatch rest d

end Demo

/-- A demo state over exact rational arithmetic: the 1000 x 600 window, an empty line in a
`points` buffer of 64 elements, `loop = true`, `thickness = 16`. -/
def sampleDemo : DemoState (Fl ℚ) where
  screenWidth := 1000
  screenHeight := 600
  halfScreen := 500
  numPointsAllocated := 64
  updTriLine := true
  triline :=
    { points := List.replicate 64 ⟨Fl.fin 0, Fl.fin 0⟩, numPoints := 0, thickness := Fl.fin 16,
      loop := true, strip := [], stripLen := 0 }

/-- A frame in which the key L is pressed while the Up arrow is held. -/
def toggleUpFrame : FrameInput (Fl ℚ) where
  shift := false
  ctrl := false
  resized := false
  width := 0
  height := 0
  keyR := false
  keyC := false
  keyL := true
  keyDown := false
  keyUp := true
  keyZ := false
  mouseLeft := false
  mousePos := ⟨Fl.fin 0, Fl.fin 0⟩
  fill := ⟨Fl.fin 0, Fl.fin 0⟩

/-! IEEE 754 binary32 -/

/-- An IEEE 754 binary32 value (the C type `float`): a finite value
`(-1)^sign * m * 2^e`, kept in the canonical form with `m` odd, or `m = 0` and `e = 0` for
the signed zeros; an infinity; or NaN. -/
inductive F32 where
  | fin (sign : Bool) (m : Nat) (e : Int)
  | inf (sign : Bool)
  | nan
deriving DecidableEq, Repr

namespace F32

/-- The number of binary digits of `n`, counted with at most `fuel` halvings. -/
def bits : Nat → Nat → Nat
  | 0, _ => 0
  | fuel + 1, n => if n = 0 then 0 else bits fuel (n / 2) + 1

/-- The number of binary digits of `n` (0 for 0): `n` halvings are enough. -/
def size (n : Nat) : Nat := bits n n

/-- The number of trailing zero bits of `m`, counted with at most `fuel` halvings. -/
def zeros : Nat → Nat → Nat
  | 0, _ => 0
  | fuel + 1, m => if m % 2 = 0 then zeros fuel (m / 2) + 1 else 0

/-- The exponent of the largest power of two that divides `m > 0`. -/
def twoVal (m : Nat) : Nat := zeros m m

/-- The canonical form of `(-1)^sign * m * 2^e`. -/
def canon (sign : Bool) (m : Nat) (e : Int) : F32 :=
  if m = 0 then fin sign 0 0 else fin sign (m / 2 ^ twoVal m) (e + twoVal m)

/-- Rounding to binary32, to nearest with ties to even: the value of the exact result
`(-1)^sign * (n / d) * 2^s` (`d > 0`).  The significand has 24 bits, the least exponent of
a unit in the last place is `-149` (subnormals), and a rounded magnitude of `2^128` or more
is an infinity. -/
def round (sign : Bool) (n d : Nat) (s : Int) : F32 :=
  if n = 0 then fin sign 0 0 else
    let N := n * 2 ^ s.toNat
    let D := d * 2 ^ (-s).toNat
    let e0 : Int := (size N : Int) - (size D : Int)
    let E : Int := if D * 2 ^ e0.toNat ≤ N * 2 ^ (-e0).toNat then e0 else e0 - 1
    let q : Int := max (E - 23) (-149)
    let N1 := N * 2 ^ (-q).toNat
    let D1 := D * 2 ^ q.toNat
    let k := N1 / D1
    let r := N1 % D1
    let k := if D1 < 2 * r ∨ (2 * r = D1 ∧ k % 2 = 1) then k + 1 else k
    if 104 < q ∨ (q = 104 ∧ 2 ^ 24 ≤ k) then inf sign else canon sign k q

/-- The integer `(-1)^sign * m * 2^(e - e0)`, for `e0 <= e`. -/
def scaled (sign : Bool) (m : Nat) (e e0 : Int) : Int :=
  (if sign then -1 else 1) * ((m * 2 ^ (e - e0).toNat : Nat) : Int)

/-- Unary minus: the sign bit is flipped. -/
def neg : F32 → F32
  | fin s m e => fin (!s) m e
  | inf s => inf (!s)
  | nan => nan

/-- Addition: the exact sum rounded; `x + (-x)` is `+0`, `(-0) + (-0)` is `-0`, and
`inf + (-inf)` is NaN. -/
def add : F32 → F32 → F32
  | fin s1 m1 e1, fin s2 m2 e2 =>
      let z := scaled s1 m1 e1 (min e1 e2) + scaled s2 m2 e2 (min e1 e2)
      if z = 0 then fin (s1 && s2) 0 0 else round (decide (z < 0)) z.natAbs 1 (min e1 e2)
  | fin _ _ _, inf s => inf s
  | inf s, fin _ _ _ => inf s
  | inf s1, inf s2 => if s1 = s2 then inf s1 else nan
  | nan, _ => nan
  | _, nan => nan

/-- Subtraction: `a + (-b)`. -/
def sub (a b : F32) : F32 := add a (neg b)

/-- Multiplication: the exact product rounded; the sign is the xor of the signs and
`0 * inf` is NaN. -/
def mul : F32 → F32 → F32
  | fin s1 m1 e1, fin s2 m2 e2 => round (xor s1 s2) (m1 * m2) 1 (e1 + e2)
  | fin s1 m1 _, inf s2 => if m1 = 0 then nan else inf (xor s1 s2)
  | inf s1, fin s2 m2 _ => if m2 = 0 then nan else inf (xor s1 s2)
  | inf s1, inf s2 => inf (xor s1 s2)
  | nan, _ => nan
  | _, nan => nan

/-- Division: the exact quotient rounded; a nonzero value divided by a zero is an infinity,
`0 / 0` and `inf / inf` are NaN; the sign is the xor of the signs. -/
def div : F32 → F32 → F32
  | fin s1 m1 e1, fin s2 m2 e2 =>
      if m2 = 0 then (if m1 = 0 then nan else inf (xor s1 s2))
      else round (xor s1 s2) m1 m2 (e1 - e2)
  | fin s1 _ _, inf s2 => fin (xor s1 s2) 0 0
  | inf s1, fin s2 _ _ => inf (xor s1 s2)
  | inf _, inf _ => nan
  | nan, _ => nan
  | _, nan => nan

/-- The integer square root of `n`, digit by digit from bit `b - 1` down: the largest `r`
with `r * r <= n`, for `n < 4^b`. -/
def isqrt (n : Nat) : Nat → Nat → Nat
  | 0, r => r
  | b + 1, r => if (r + 2 ^ b) * (r + 2 ^ b) ≤ n then isqrt n b (r + 2 ^ b) else isqrt n b r

/-- The function `sqrtf`, correctly rounded: the argument `m * 2^e` is written
`N * 2^(2j)` with `N >= 2^64`, so that the integer square root `r` of `N` has more than
26 bits and `r`, or `r + 1/2` when `N` is not a square, rounds as the exact root does.
`sqrtf(-0)` is `-0` and the root of a negative value is NaN. -/
def sqrt : F32 → F32
  | fin s m e =>
      if m = 0 then fin s 0 0
      else if s then nan
      else
        let N := (if e % 2 = 0 then m else 2 * m) * 2 ^ 64
        let j : Int := (if e % 2 = 0 then e else e - 1) / 2 - 32
        let r := isqrt N (size N / 2 + 1) 0
        round false (2 * r + (if r * r = N then 0 else 1)) 2 j
  | inf s => if s then nan else inf false
  | nan => nan

/-- The comparison `a < b`: false as soon as one side is NaN; the two zeros are equal. -/
def lt : F32 → F32 → Bool
  | fin s1 m1 e1, fin s2 m2 e2 =>
      decide (scaled s1 m1 e1 (min e1 e2) < scaled s2 m2 e2 (min e1 e2))
  | fin _ _ _, inf s => !s
  | inf s, fin _ _ _ => s
  | inf s1, inf s2 => s1 && !s2
  | _, _ => false

/-- The value of the decimal literal `n/d` with an `f` suffix (`lit 1 100000` is
`0.00001f`): the nearest binary32 value. -/
def lit (n d : Nat) : F32 := round false n d 0

/-- The conversion of the `int` value `z` to `float`. -/
def ofInt (z : Int) : F32 := round (decide (z < 0)) z.natAbs 1 0

end F32

/-- The arithmetic of the C type `float` as IEEE 754 binary32: every operation is the
exact operation rounded to nearest, ties to even, with signed zeros, subnormals,
infinities and NaN. -/
def f32Ops : FloatOps F32 where
  add := F32.add
  sub := F32.sub
  mul := F32.mul
  div := F32.div
  neg := F32.neg
  sqrt := F32.sqrt
  lt := F32.lt
  zero := F32.fin false 0 0
  one := F32.fin false 1 0
  two := F32.fin false 1 1
  eps := F32.lit 1 100000

/-- Three points with binary32 coordinates, written as the decimal literals
`(317.31726f, 87.27095f)`, `(761.5833f, 415.913f)`, `(371.55917f, 205.98267f)`. -/
def tinyA : Vector2 F32 := ⟨F32.lit 31731726 100000, F32.lit 8727095 100000⟩

/-- The second of the three points: `(761.5833f, 415.913f)`. -/
def tinyO : Vector2 F32 := ⟨F32.lit 7615833 10000, F32.lit 415913 1000⟩

/-- The third of the three points: `(371.55917f, 205.98267f)`. -/
def tinyB : Vector2 F32 := ⟨F32.lit 37155917 100000, F32.lit 20598267 100000⟩

section Memory

variable {α : Type}

theorem readPoint_natCast (points : List (Vector2 α)) (j : Nat) :
    readPoint points (j : Int) = points[j]? := by
  simp [readPoint]

theorem readPoint_of_lt (points : List (Vector2 α)) (i : Int) (h0 : 0 ≤ i)
    (h1 : i < points.length) : ∃ v, readPoint points i = some v := by
  obtain ⟨j, rfl⟩ := Int.eq_ofNat_of_zero_le h0
  have hj : j < points.length := by omega
  exact ⟨points[j], by simp [readPoint, List.getElem?_eq_getElem hj]⟩

theorem readStrip_frame (front : List (Vector2 α)) (rest : Strip α) (j : Nat)
    (h : j < front.length) :
    readStrip (front.map some ++ rest) (j : Int) = front[j]? := by
  have h2 : j < (front.map some).length := by simpa using h
  simp [readStrip, List.getElem?_append_left h2, List.getElem?_eq_getElem h]

theorem writeStrip_frame0 (front : List (Vector2 α)) (c : Option (Vector2 α))
    (rest : Strip α) (v : Vector2 α) :
    writeStrip (front.map some ++ c :: rest) (front.length : Int) v
      = some ((front ++ [v]).map some ++ rest) := by
  simp [writeStrip, List.set_append_right]

theorem writeStrip_frame1 (front : List (Vector2 α)) (c0 c1 : Option (Vector2 α))
    (rest : Strip α) (v : Vector2 α) :
    writeStrip (front.map some ++ c0 :: c1 :: rest) ((front.length : Int) + 1) v
      = some (front.map some ++ c0 :: some v :: rest) := by
  have h : ((front.length : Int) + 1).toNat = front.length + 1 := by omega
  have h0 : (0 : Int) ≤ (front.length : Int) + 1 := by omega
  simp [writeStrip, h, h0, List.set_append_right]

end Memory

section LoopBody

variable {α : Type} (ops : FloatOps α)

theorem orderedPair_length (r : Bool) (p1 p2 : Vector2 α) :
    (orderedPair r p1 p2).length = 2 := by
  cases r <;> rfl

theorem bind_bind_some {β γ δ : Type} (w1 : Option β) (w2 : β → Option γ) (f : γ → δ)
    (out : γ) (h : w1.bind w2 = some out) :
    (w1.bind fun s => (w2 s).bind fun t => some (f t)) = some (f out) := by
  obtain ⟨s1, h1, h2⟩ := Option.bind_eq_some.mp h
  simp [h1, h2]

theorem write_pair (front : List (Vector2 α)) (c0 c1 : Option (Vector2 α)) (rest : Strip α)
    (offset : Int) (hfront : (front.length : Int) = offset) (r : Bool) (p1 p2 : Vector2 α) :
    (writeStrip (front.map some ++ c0 :: c1 :: rest) (offset + boolToInt r) p1).bind
        (fun s => writeStrip s (offset + boolToInt (!r)) p2)
      = some ((front ++ orderedPair r p1 p2).map some ++ rest) := by
  subst hfront
  cases r
  · have h := writeStrip_frame0 front c0 (c1 :: rest) p1
    have h2 := writeStrip_frame0 (front ++ [p1]) c1 rest p2
    simp only [boolToInt, orderedPair, Bool.not_false, if_true, Bool.false_eq_true, if_false,
      add_zero, h, Option.some_bind]
    simpa using h2
  · have h := writeStrip_frame1 front c0 c1 rest p1
    have h2 := writeStrip_frame0 front c0 (some p1 :: rest) p2
    simp only [boolToInt, orderedPair, Bool.not_true, if_true, Bool.false_eq_true, if_false,
      add_zero, h, Option.some_bind, h2]
    simp

theorem loopBody_frame (points : List (Vector2 α)) (numPoints : Int) (thickness : α) (k : Nat)
    (A O B : Vector2 α) (front : List (Vector2 α)) (hfront : front.length = 2 * k)
    (hB : readPoint points (((k : Int) + 1).tmod numPoints) = some B)
    (hlast : k = 0 → ∃ last, readPoint points (numPoints - 1) = some last) :
    ∃ pair : List (Vector2 α), pair.length = 2 ∧ ∀ c0 c1 rest,
      loopBody ops points numPoints thickness (k : Int) A O (front.map some ++ c0 :: c1 :: rest)
        = some (O, B, (front ++ pair).map some ++ rest) := by
  have hoff : (front.length : Int) = 2 * (k : Int) := by omega
  by_cases hk : k = 0
  · obtain ⟨last, hl⟩ := hlast hk
    subst hk
    refine ⟨orderedPair (ops.lt ops.zero (CrossProduct ops (Vector2Subtract ops B O)
      (Vector2Subtract ops last O))) (Vector2Add ops O (joinVector ops thickness A O B))
      (Vector2Subtract ops O (joinVector ops thickness A O B)), orderedPair_length _ _ _, ?_⟩
    intro c0 c1 rest
    have hw := fun r p1 p2 => write_pair front c0 c1 rest (2 * ((0 : Nat) : Int)) hoff r p1 p2
    simp only [Nat.cast_zero, mul_zero, zero_add] at hw hB
    simp only [loopBody, Nat.cast_zero, mul_zero, zero_add, hB, hl, Option.bind_eq_bind,
      Option.some_bind, ne_eq, not_true_eq_false, if_false, Option.map_some', Option.pure_def]
    exact bind_bind_some _ _ (fun s => (O, B, s)) _ (hw _ _ _)
  · have hq : 2 * k - 2 < front.length := by omega
    refine ⟨orderedPair (DoLinesIntersect ops A O (front.get ⟨2 * k - 2, hq⟩)
      (Vector2Add ops O (joinVector ops thickness A O B)))
      (Vector2Add ops O (joinVector ops thickness A O B))
      (Vector2Subtract ops O (joinVector ops thickness A O B)), orderedPair_length _ _ _, ?_⟩
    intro c0 c1 rest
    have hw := fun r p1 p2 => write_pair front c0 c1 rest (2 * (k : Int)) hoff r p1 p2
    have hidx : 2 * (k : Int) - 2 = ((2 * k - 2 : Nat) : Int) := by omega
    have hr := readStrip_frame front (c0 :: c1 :: rest) (2 * k - 2) hq
    rw [← hidx, List.getElem?_eq_getElem hq] at hr
    have hk2 : ¬ ((k : Int) = 0) := by omega
    simp only [loopBody, hB, Option.bind_eq_bind, Option.some_bind, ne_eq, hk2,
      not_false_eq_true, if_true, hr, Option.map_some', Option.pure_def, List.get_eq_getElem]
    exact bind_bind_some _ _ (fun s => (O, B, s)) _ (hw _ _ _)

end LoopBody

section MainLoop

variable {α : Type} (ops : FloatOps α)

theorem readPoint_tmod (points : List (Vector2 α)) (numPoints : Int) (hn : 0 < numPoints)
    (hlen : numPoints ≤ points.length) (k : Nat) :
    ∃ B, readPoint points (((k : Int) + 1).tmod numPoints) = some B := by
  have h0 : (0 : Int) ≤ (k : Int) + 1 := by omega
  rw [Int.tmod_eq_emod h0 (le_of_lt hn)]
  have h1 := Int.emod_nonneg ((k : Int) + 1) (ne_of_gt hn)
  have h2 := Int.emod_lt_of_pos ((k : Int) + 1) hn
  exact readPoint_of_lt points _ h1 (lt_of_lt_of_le h2 hlen)

theorem mainLoop_frame (points : List (Vector2 α)) (numPoints : Int) (thickness : α)
    (hn : 0 < numPoints) (hlen : numPoints ≤ points.length) (m : Nat) :
    ∀ (k : Nat) (A O : Vector2 α) (front : List (Vector2 α)), front.length = 2 * k →
      ∃ (out : List (Vector2 α)) (A2 O2 : Vector2 α), out.length = 2 * m ∧
        ∀ (mid rest : Strip α), mid.length = 2 * m →
          mainLoop ops points numPoints thickness m (k : Int) A O
              (front.map some ++ (mid ++ rest))
            = some (A2, O2, (front ++ out).map some ++ rest) := by
  induction m with
  | zero =>
    intro k A O front _
    refine ⟨[], A, O, rfl, ?_⟩
    intro mid rest hmid
    have : mid = [] := List.eq_nil_of_length_eq_zero (by simpa using hmid)
    subst this
    simp [mainLoop]
  | succ m ih =>
    intro k A O front hfront
    obtain ⟨B, hB⟩ := readPoint_tmod points numPoints hn hlen k
    have hlast : k = 0 → ∃ last, readPoint points (numPoints - 1) = some last :=
      fun _ => readPoint_of_lt points _ (by omega) (by omega)
    obtain ⟨pair, hpair, hbody⟩ :=
      loopBody_frame ops points numPoints thickness k A O B front hfront hB hlast
    obtain ⟨out, A2, O2, hout, hloop⟩ :=
      ih (k + 1) O B (front ++ pair) (by simp [hfront, hpair]; ring)
    refine ⟨pair ++ out, A2, O2, by simp [hpair, hout]; ring, ?_⟩
    intro mid rest hmid
    match mid, hmid with
    | c0 :: c1 :: mid2, hmid =>
      have hmid2 : mid2.length = 2 * m := by simp at hmid; omega
      have h := hloop mid2 rest hmid2
      simp only [mainLoop, List.cons_append, hbody, Option.some_bind]
      rw [Nat.cast_add, Nat.cast_one] at h
      rw [h, List.append_assoc]

end MainLoop

section LoopCase

variable {α : Type} (ops : FloatOps α)

theorem split_last_two (l : Strip α) (m : Nat) (h : l.length = 2 * m + 2) :
    ∃ (mid : Strip α) (d0 d1 : Option (Vector2 α)), mid.length = 2 * m ∧ l = mid ++ [d0, d1] := by
  refine ⟨l.take (2 * m), (l.drop (2 * m)).head?.join, (l.drop (2 * m)).tail.head?.join, ?_, ?_⟩
  · simp [h]
  · have hd : (l.drop (2 * m)).length = 2 := by simp [h]
    match hdrop : l.drop (2 * m), hd with
    | [d0, d1], _ =>
      have := List.take_append_drop (2 * m) l
      rw [hdrop] at this
      simpa using this.symm

theorem TriangulateLine_loop_frame (points : List (Vector2 α)) (N : Nat) (thickness : α)
    (hn : 3 ≤ N) (hlen : N ≤ points.length) :
    ∃ (out : List (Vector2 α)) (v0 v1 : Vector2 α), out.length = 2 * N ∧
      out[0]? = some v0 ∧ out[1]? = some v1 ∧
      ∀ (mid rest : Strip α), mid.length = 2 * N + 2 →
        TriangulateLine ops points (N : Int) thickness true (mid ++ rest)
          = some ((out ++ [v0, v1]).map some ++ rest) := by
  obtain ⟨A, hA⟩ := readPoint_of_lt points ((N : Int) - 1) (by omega) (by omega)
  obtain ⟨O, hO⟩ := readPoint_of_lt points 0 (by omega) (by omega)
  obtain ⟨out, A2, O2, hout, hloop⟩ :=
    mainLoop_frame ops points (N : Int) (ops.div thickness ops.two) (by omega) (by omega) N 0 A O
      [] rfl
  have h0 : 0 < out.length := by omega
  have h1 : 1 < out.length := by omega
  refine ⟨out, out[0], out[1], hout, List.getElem?_eq_getElem h0, List.getElem?_eq_getElem h1, ?_⟩
  intro mid rest hmid
  obtain ⟨mid2, d0, d1, hmid2, rfl⟩ := split_last_two mid N hmid
  have hl := hloop mid2 (d0 :: d1 :: rest) hmid2
  simp only [List.map_nil, List.nil_append, Nat.cast_zero] at hl
  have hN2 : ¬ ((N : Int) = 2) := by omega
  have hN3 : ¬ ((N : Int) ≠ 2 ∧ (N : Int) < 2) := by omega
  have hL : GetStripLength (N : Int) true - 2 = (out.length : Int) := by
    simp only [GetStripLength, boolToInt]
    rw [if_pos (by omega)]
    simp only [if_true]
    omega
  have hr0 := readStrip_frame out (d0 :: d1 :: rest) 0 h0
  have hw0 := writeStrip_frame0 out d0 (d1 :: rest) out[0]
  have hr1 := readStrip_frame (out ++ [out[0]]) (d1 :: rest) 1 (by simp; omega)
  have hw1 := writeStrip_frame0 (out ++ [out[0]]) d1 rest out[1]
  rw [List.getElem?_eq_getElem h0] at hr0
  rw [List.getElem?_append_left h1, List.getElem?_eq_getElem h1] at hr1
  simp only [List.length_append, List.length_singleton, Nat.cast_add, Nat.cast_one] at hw1
  simp only [Nat.cast_zero, Nat.cast_one] at hr0 hr1
  simp only [TriangulateLine, hN3, if_false, hN2, if_true, hA, hO, Option.bind_eq_bind,
    Option.some_bind, Option.pure_def, boolToInt, Bool.not_true, Bool.false_eq_true, sub_zero,
    Int.toNat_ofNat, List.append_assoc, List.cons_append, List.nil_append, hl, hL, add_zero, hr0,
    hw0, hr1, hw1]

end LoopCase

section OpenCase

variable {α : Type} (ops : FloatOps α)

theorem TriangulateLine_open_frame (points : List (Vector2 α)) (N : Nat) (thickness : α)
    (loop : Bool) (hn : 2 ≤ N) (hlen : N ≤ points.length) (hloop : N = 2 ∨ loop = false) :
    ∃ (canon : List (Vector2 α)), canon.length = 2 * N ∧
      ∀ (mid rest : Strip α), mid.length = 2 * N →
        TriangulateLine ops points (N : Int) thickness loop (mid ++ rest)
          = some (canon.map some ++ rest) := by
  obtain ⟨A, hA⟩ := readPoint_of_lt points 0 (by omega) (by omega)
  obtain ⟨O, hO⟩ := readPoint_of_lt points 1 (by omega) (by omega)
  obtain ⟨c, hc⟩ := readPoint_of_lt points ((N : Int) - 1) (by omega) (by omega)
  obtain ⟨d, hd⟩ := readPoint_of_lt points ((N : Int) - 2) (by omega) (by omega)
  have heff : (if (N : Int) = 2 then false else loop) = false := by
    rcases hloop with h | h
    · simp [h]
    · simp [h]
  obtain ⟨fr, fl, hfp⟩ : ∃ fr fl,
    FindPerpendiculars ops A O (ops.div thickness ops.two) = (fr, fl) := ⟨_, _, rfl⟩
  obtain ⟨p1, p2, hfq⟩ : ∃ p1 p2,
    FindPerpendiculars ops c d (ops.div thickness ops.two) = (p1, p2) := ⟨_, _, rfl⟩
  obtain ⟨out, A2, O2, hout, hmain⟩ :=
    mainLoop_frame ops points (N : Int) (ops.div thickness ops.two) (by omega) (by omega) (N - 2) 1
      A O [fr, fl] rfl
  have hlen2 : ([fr, fl] ++ out).length = 2 * N - 2 := by
    rw [List.length_append, hout]; simp; omega
  have hq : 2 * N - 4 < ([fr, fl] ++ out).length := by omega
  refine ⟨[fr, fl] ++ out ++
      orderedPair (DoLinesIntersect ops A2 O2 (([fr, fl] ++ out).get ⟨2 * N - 4, hq⟩) p1) p1 p2,
    ?_, ?_⟩
  · rw [List.length_append, orderedPair_length]; omega
  intro mid rest hmid
  match mid, hmid with
  | [], hmid => simp at hmid; omega
  | [_], hmid => simp at hmid; omega
  | c0 :: c1 :: mid1, hmid =>
    have hmid1 : mid1.length = 2 * (N - 2) + 2 := by simp at hmid; omega
    obtain ⟨mid2, d0, d1, hmid2, rfl⟩ := split_last_two mid1 (N - 2) hmid1
    have hl := hmain mid2 (d0 :: d1 :: rest) hmid2
    have hN3 : ¬ ((N : Int) ≠ 2 ∧ (N : Int) < 2) := by omega
    have hL : GetStripLength (N : Int) false - 2 = 2 * (N : Int) - 2 := by
      unfold GetStripLength boolToInt
      by_cases h : (N : Int) > 2
      · rw [if_pos h]; simp
      · have h2 : (N : Int) = 2 := by omega
        rw [if_neg h, if_pos h2]; omega
    have hw1 := writeStrip_frame1 [] c0 c1 (mid2 ++ d0 :: d1 :: rest) fl
    have hw0 := writeStrip_frame0 [] c0 (some fl :: (mid2 ++ d0 :: d1 :: rest)) fr
    simp only [List.length_nil, Nat.cast_zero, zero_add, List.map_nil, List.nil_append,
      List.map_append, List.map_cons] at hw1 hw0
    have hcnt : ((N : Int) - 1 - 1).toNat = N - 2 := by omega
    have hr := readStrip_frame ([fr, fl] ++ out) (d0 :: d1 :: rest) (2 * N - 4) hq
    have hidx : ((2 * N - 4 : Nat) : Int) = 2 * (N : Int) - 2 - 2 := by omega
    rw [hidx, List.getElem?_eq_getElem hq] at hr
    have hwp := write_pair ([fr, fl] ++ out) d0 d1 rest (2 * (N : Int) - 2)
      (by rw [hlen2]; omega) (DoLinesIntersect ops A2 O2 (([fr, fl] ++ out).get ⟨2 * N - 4, hq⟩) p1)
      p1 p2
    simp only [Nat.cast_one] at hl
    simp only [List.get_eq_getElem] at hwp ⊢
    simp only [TriangulateLine, hN3, if_false, heff, hA, hO, hc, hd, Option.bind_eq_bind,
      Option.some_bind, Option.pure_def, boolToInt, Bool.not_false, if_true,
      List.cons_append, List.append_assoc, List.nil_append, hfp, hfq, hw1, hw0, hcnt,
      Bool.false_eq_true, hL]
    simp only [List.map_cons, List.map_nil, List.cons_append, List.nil_append,
      List.append_assoc, List.singleton_append, List.map_append] at hl hr hwp ⊢
    simp only [hl, Option.some_bind, hr]
    simp only [boolToInt] at hwp
    exact hwp

end OpenCase

section FrameProperty

variable {α : Type} (ops : FloatOps α)

theorem GetStripLength_of_two_le (numPoints : Int) (loop : Bool) (hn : 2 ≤ numPoints) :
    GetStripLength numPoints loop
      = if numPoints = 2 ∨ loop = false then 2 * numPoints else 2 * numPoints + 2 := by
  unfold GetStripLength boolToInt
  by_cases h : numPoints > 2
  · have h2 : ¬ numPoints = 2 := by omega
    cases loop
    · simp [h, h2]
    · simp [h, h2]; omega
  · have h2 : numPoints = 2 := by omega
    simp [h2]

/-- The frame property of TriangulateLine: for `numPoints >= 2` points in the buffer there
is one list `canon` of `GetStripLength numPoints loop` vertices such that, whatever the
first `GetStripLength` cells held and whatever follows them, the call succeeds, leaves
`canon` in these cells and does not touch the rest.  For a loop of three or more points
`canon` ends with its first two vertices. -/
theorem TriangulateLine_frame (points : List (Vector2 α)) (numPoints : Int) (thickness : α)
    (loop : Bool) (hn : 2 ≤ numPoints) (hlen : numPoints ≤ points.length) :
    ∃ canon : List (Vector2 α), (canon.length : Int) = GetStripLength numPoints loop ∧
      (loop = true → 3 ≤ numPoints → ∃ v0 v1, canon[0]? = some v0 ∧ canon[1]? = some v1 ∧
        canon[canon.length - 2]? = some v0 ∧ canon[canon.length - 1]? = some v1) ∧
      ∀ (mid rest : Strip α), mid.length = canon.length →
        TriangulateLine ops points numPoints thickness loop (mid ++ rest)
          = some (canon.map some ++ rest) := by
  obtain ⟨N, rfl⟩ := Int.eq_ofNat_of_zero_le (by omega : (0 : Int) ≤ numPoints)
  have hN : 2 ≤ N := by omega
  have hlenN : N ≤ points.length := by omega
  rw [GetStripLength_of_two_le _ _ hn]
  by_cases hopen : N = 2 ∨ loop = false
  · obtain ⟨canon, hc, hrun⟩ :=
      TriangulateLine_open_frame ops points N thickness loop hN hlenN hopen
    have hopen2 : (N : Int) = 2 ∨ loop = false := by
      rcases hopen with h | h
      · exact Or.inl (by omega)
      · exact Or.inr h
    refine ⟨canon, by rw [if_pos hopen2, hc]; push_cast; ring, ?_, ?_⟩
    · intro hl h3
      rcases hopen with h | h
      · omega
      · rw [hl] at h; exact absurd h (by decide)
    · intro mid rest hmid
      exact hrun mid rest (by omega)
  · have hl : loop = true := by
      cases loop
      · exact absurd (Or.inr rfl) hopen
      · rfl
    have h3 : 3 ≤ N := by omega
    subst hl
    obtain ⟨out, v0, v1, hout, h0, h1, hrun⟩ :=
      TriangulateLine_loop_frame ops points N thickness h3 hlenN
    have hopen2 : ¬ ((N : Int) = 2 ∨ true = false) := by
      intro h
      rcases h with h | h
      · omega
      · exact absurd h (by decide)
    have hcl : (out ++ [v0, v1]).length = 2 * N + 2 := by simp [hout]
    refine ⟨out ++ [v0, v1], by rw [if_neg hopen2, hcl]; push_cast; ring, ?_, ?_⟩
    · intro _ _
      refine ⟨v0, v1, ?_, ?_, ?_, ?_⟩
      · rw [List.getElem?_append_left (by omega)]; exact h0
      · rw [List.getElem?_append_left (by omega)]; exact h1
      · rw [hcl, List.getElem?_append_right (by omega)]
        have : 2 * N + 2 - 2 - out.length = 0 := by omega
        rw [this]; rfl
      · rw [hcl, List.getElem?_append_right (by omega)]
        have : 2 * N + 2 - 1 - out.length = 1 := by omega
        rw [this]; rfl
    · intro mid rest hmid
      exact hrun mid rest (by omega)

end FrameProperty

section Update

variable {α : Type} (ops : FloatOps α)

theorem GetStripLength_of_lt_two (numPoints : Int) (loop : Bool) (hn : numPoints < 2) :
    GetStripLength numPoints loop = 0 := by
  unfold GetStripLength
  rw [if_neg (by omega), if_neg (by omega)]

theorem GetStripLength_nonneg (numPoints : Int) (loop : Bool) :
    0 ≤ GetStripLength numPoints loop := by
  by_cases hn : 2 ≤ numPoints
  · rw [GetStripLength_of_two_le _ _ hn]; split_ifs <;> omega
  · rw [GetStripLength_of_lt_two _ _ (by omega)]

theorem TriangulateLine_of_lt_two (points : List (Vector2 α)) (numPoints : Int) (thickness : α)
    (loop : Bool) (strip : Strip α) (hn : numPoints < 2) :
    TriangulateLine ops points numPoints thickness loop strip = some strip := by
  unfold TriangulateLine
  rw [if_pos ⟨by omega, hn⟩]

theorem TriangulateLine_fresh (points : List (Vector2 α)) (numPoints : Int) (thickness : α)
    (loop : Bool) (canon : List (Vector2 α))
    (hc : (canon.length : Int) = GetStripLength numPoints loop)
    (hrun : ∀ (mid rest : Strip α), mid.length = canon.length →
      TriangulateLine ops points numPoints thickness loop (mid ++ rest)
        = some (canon.map some ++ rest)) :
    TriangulateLine ops points numPoints thickness loop
        (RL_MALLOC α (GetStripLength numPoints loop).toNat) = some (canon.map some) := by
  have h := hrun (RL_MALLOC α (GetStripLength numPoints loop).toNat) []
    (by simp [RL_MALLOC, ← hc])
  simpa using h

/-- What UpdateTriLine returns on a TriLine whose buffers hold `numPoints` points and
`stripLen` strip cells, for `numPoints >= 2`. -/
theorem UpdateTriLine_of_two_le (triline : TriLine α) (hn : 2 ≤ triline.numPoints)
    (hpts : triline.numPoints ≤ triline.points.length)
    (hcap : triline.stripLen ≤ triline.strip.length) :
    ∃ canon : List (Vector2 α),
      (canon.length : Int) = GetStripLength triline.numPoints triline.loop ∧
      TriangulateLine ops triline.points triline.numPoints triline.thickness triline.loop
        (RL_MALLOC α (GetStripLength triline.numPoints triline.loop).toNat)
          = some (canon.map some) ∧
      UpdateTriLine ops triline = some { triline with
        strip := canon.map some ++
          (if GetStripLength triline.numPoints triline.loop > triline.stripLen then []
            else triline.strip.drop canon.length)
        stripLen := GetStripLength triline.numPoints triline.loop } := by
  obtain ⟨canon, hc, -, hrun⟩ := TriangulateLine_frame ops triline.points triline.numPoints
    triline.thickness triline.loop hn hpts
  refine ⟨canon, hc, TriangulateLine_fresh ops _ _ _ _ canon hc hrun, ?_⟩
  have hL : GetStripLength triline.numPoints triline.loop ≠ 0 := by
    rw [GetStripLength_of_two_le _ _ hn]; split_ifs <;> omega
  unfold UpdateTriLine
  simp only [hL, ne_eq, not_false_eq_true, if_true]
  by_cases hgrow : GetStripLength triline.numPoints triline.loop > triline.stripLen
  · have h := hrun (RL_MALLOC α (GetStripLength triline.numPoints triline.loop).toNat) []
      (by simp [RL_MALLOC, ← hc])
    simp only [hgrow, if_true, List.append_nil] at h ⊢
    rw [h]; rfl
  · have hsplit : triline.strip
        = triline.strip.take canon.length ++ triline.strip.drop canon.length :=
      (List.take_append_drop _ _).symm
    have h := hrun (triline.strip.take canon.length) (triline.strip.drop canon.length)
      (by rw [List.length_take]; omega)
    rw [← hsplit] at h
    simp only [hgrow, if_false, h]; rfl

/-- What UpdateTriLine returns for `numPoints < 2`. -/
theorem UpdateTriLine_of_lt_two (triline : TriLine α) (hn : triline.numPoints < 2) :
    UpdateTriLine ops triline = some { triline with
      strip := if 0 > triline.stripLen then RL_MALLOC α 0 else triline.strip
      stripLen := 0 } := by
  unfold UpdateTriLine
  simp [GetStripLength_of_lt_two _ _ hn]

end Update

section BufferClaims

variable {α : Type} (ops : FloatOps α)

/-- C1: for `numPoints >= 2` and a `points` buffer of exactly `numPoints` elements,
TriangulateLine on a fresh strip buffer of exactly `GetStripLength numPoints loop`
never-written cells has no out-of-bounds access and no read of a never-written cell (it
returns), and on return every cell of the buffer is written: the result is `canon.map some`
for a list `canon` of `GetStripLength` vertices.  On a larger buffer, whatever it held, the
same vertices fill the first `GetStripLength` cells and every later cell is left as it was. -/
theorem TriangulateLine_fills_exact_buffer (points : List (Vector2 α)) (numPoints : Int)
    (thickness : α) (loop : Bool) (hn : 2 ≤ numPoints)
    (hpts : (points.length : Int) = numPoints) :
    ∃ canon : List (Vector2 α), (canon.length : Int) = GetStripLength numPoints loop ∧
      TriangulateLine ops points numPoints thickness loop
        (RL_MALLOC α (GetStripLength numPoints loop).toNat) = some (canon.map some) ∧
      ∀ (mid rest : Strip α), (mid.length : Int) = GetStripLength numPoints loop →
        TriangulateLine ops points numPoints thickness loop (mid ++ rest)
          = some (canon.map some ++ rest) := by
  obtain ⟨canon, hc, -, hrun⟩ :=
    TriangulateLine_frame ops points numPoints thickness loop hn (by omega)
  exact ⟨canon, hc, TriangulateLine_fresh ops _ _ _ _ canon hc hrun,
    fun mid rest hmid => hrun mid rest (by omega)⟩

/-- Witness of C1: the two-point line (0,0)-(10,0) of thickness 4. -/
theorem TriangulateLine_fills_exact_buffer_witness :
    ∃ canon : List (Vector2 (Fl ℚ)), (canon.length : Int) = GetStripLength 2 false ∧
      TriangulateLine (exactOps Rat.sqrt) [⟨Fl.fin 0, Fl.fin 0⟩, ⟨Fl.fin 10, Fl.fin 0⟩] 2
        (Fl.fin 4) false (RL_MALLOC (Fl ℚ) (GetStripLength 2 false).toNat)
          = some (canon.map some) ∧
      ∀ (mid rest : Strip (Fl ℚ)), (mid.length : Int) = GetStripLength 2 false →
        TriangulateLine (exactOps Rat.sqrt) [⟨Fl.fin 0, Fl.fin 0⟩, ⟨Fl.fin 10, Fl.fin 0⟩] 2
          (Fl.fin 4) false (mid ++ rest) = some (canon.map some ++ rest) :=
  TriangulateLine_fills_exact_buffer (exactOps Rat.sqrt)
    [⟨Fl.fin 0, Fl.fin 0⟩, ⟨Fl.fin 10, Fl.fin 0⟩] 2 (Fl.fin 4) false (by decide) (by decide)

/-- C2: GetStripLength is `2*(numPoints + (loop ? 1 : 0))` for `numPoints > 2`, 4 for
`numPoints == 2` whatever `loop` is, and 0 otherwise; with the eight values of the spec. -/
theorem GetStripLength_spec (numPoints : Int) (loop : Bool) :
    GetStripLength numPoints loop
        = (if numPoints > 2 then 2 * (numPoints + (if loop then 1 else 0))
           else if numPoints = 2 then 4 else 0) ∧
      GetStripLength 2 true = 4 ∧ GetStripLength 2 false = 4 ∧
      GetStripLength 0 false = 0 ∧ GetStripLength 1 true = 0 ∧
      GetStripLength 3 false = 6 ∧ GetStripLength 3 true = 8 ∧
      GetStripLength 5 false = 10 ∧ GetStripLength 5 true = 12 := by
  refine ⟨rfl, ?_, ?_, ?_, ?_, ?_, ?_, ?_, ?_⟩ <;> decide

/-- C3: on a TriLine whose `points` buffer holds `numPoints` elements and whose `strip`
buffer holds `stripLen` cells, UpdateTriLine returns; afterwards `stripLen` is
`GetStripLength numPoints loop`, the first `stripLen` cells of `strip` are the vertices
TriangulateLine writes for `(points, numPoints, thickness, loop)` into a fresh buffer, and
`points`, `numPoints`, `thickness` and `loop` are unchanged. -/
theorem UpdateTriLine_result (triline : TriLine α)
    (hpts : triline.numPoints ≤ triline.points.length)
    (hcap : triline.stripLen ≤ triline.strip.length) :
    ∃ updated : TriLine α, UpdateTriLine ops triline = some updated ∧
      updated.stripLen = GetStripLength triline.numPoints triline.loop ∧
      TriangulateLine ops triline.points triline.numPoints triline.thickness triline.loop
        (RL_MALLOC α updated.stripLen.toNat)
          = some (updated.strip.take updated.stripLen.toNat) ∧
      updated.points = triline.points ∧ updated.numPoints = triline.numPoints ∧
      updated.thickness = triline.thickness ∧ updated.loop = triline.loop := by
  by_cases hn : 2 ≤ triline.numPoints
  · obtain ⟨canon, hc, hfresh, hupd⟩ := UpdateTriLine_of_two_le ops triline hn hpts hcap
    refine ⟨_, hupd, rfl, ?_, rfl, rfl, rfl, rfl⟩
    have hlen : (GetStripLength triline.numPoints triline.loop).toNat
        = (canon.map some).length := by
      rw [List.length_map]; omega
    simp only [hfresh]
    simp only [hlen, List.take_left']
  · have hlt : triline.numPoints < 2 := by omega
    refine ⟨_, UpdateTriLine_of_lt_two ops triline hlt, ?_, ?_, rfl, rfl, rfl, rfl⟩
    · exact (GetStripLength_of_lt_two _ _ hlt).symm
    · simp [TriangulateLine_of_lt_two ops _ _ _ _ _ hlt, RL_MALLOC]

end BufferClaims

section UpdateClaims

variable {α : Type} (ops : FloatOps α)

/-- Witness of C3: the first update of `sampleLine`. -/
theorem UpdateTriLine_result_witness :
    ∃ updated : TriLine (Fl ℚ), UpdateTriLine (exactOps Rat.sqrt) sampleLine = some updated ∧
      updated.stripLen = GetStripLength sampleLine.numPoints sampleLine.loop ∧
      TriangulateLine (exactOps Rat.sqrt) sampleLine.points sampleLine.numPoints
        sampleLine.thickness sampleLine.loop (RL_MALLOC (Fl ℚ) updated.stripLen.toNat)
          = some (updated.strip.take updated.stripLen.toNat) ∧
      updated.points = sampleLine.points ∧ updated.numPoints = sampleLine.numPoints ∧
      updated.thickness = sampleLine.thickness ∧ updated.loop = sampleLine.loop :=
  UpdateTriLine_result (exactOps Rat.sqrt) sampleLine (by decide) (by decide)

/-- C7: for `numPoints >= 3` points and `loop = true`, on every buffer of at least
`L = GetStripLength numPoints true` cells TriangulateLine returns and the last two strip
vertices are the first two: `strip[L-2] = strip[0]` and `strip[L-1] = strip[1]`. -/
theorem TriangulateLine_loop_closes (points : List (Vector2 α)) (numPoints : Int)
    (thickness : α) (strip : Strip α) (hn : 3 ≤ numPoints)
    (hpts : numPoints ≤ points.length)
    (hcap : GetStripLength numPoints true ≤ strip.length) :
    ∃ (out : Strip α) (v0 v1 : Vector2 α),
      TriangulateLine ops points numPoints thickness true strip = some out ∧
      out[0]? = some (some v0) ∧ out[1]? = some (some v1) ∧
      out[(GetStripLength numPoints true - 2).toNat]? = some (some v0) ∧
      out[(GetStripLength numPoints true - 1).toNat]? = some (some v1) := by
  obtain ⟨canon, hc, hclose, hrun⟩ :=
    TriangulateLine_frame ops points numPoints thickness true (by omega) hpts
  obtain ⟨v0, v1, h0, h1, h2, h3⟩ := hclose rfl hn
  have hL : GetStripLength numPoints true = 2 * numPoints + 2 := by
    rw [GetStripLength_of_two_le _ _ (by omega), if_neg]
    intro h
    rcases h with h | h
    · omega
    · exact absurd h (by decide)
  have hcl : 8 ≤ canon.length := by omega
  have h := hrun (strip.take canon.length) (strip.drop canon.length)
    (by rw [List.length_take]; omega)
  rw [List.take_append_drop] at h
  have hi2 : (GetStripLength numPoints true - 2).toNat = canon.length - 2 := by omega
  have hi1 : (GetStripLength numPoints true - 1).toNat = canon.length - 1 := by omega
  have hget : ∀ (j : Nat) (v : Vector2 α), canon[j]? = some v →
      (canon.map some ++ strip.drop canon.length)[j]? = some (some v) := by
    intro j v hj
    have hlt : j < canon.length := by
      by_contra hge
      rw [List.getElem?_eq_none (by omega)] at hj
      exact absurd hj (by simp)
    rw [List.getElem?_append_left (by simpa using hlt), List.getElem?_map, hj]
    rfl
  exact ⟨_, v0, v1, h, hget 0 v0 h0, hget 1 v1 h1, by rw [hi2]; exact hget _ v0 h2,
    by rw [hi1]; exact hget _ v1 h3⟩

/-- Witness of C7: the closed triangle (0,0), (10,0), (10,10) on a fresh buffer of 8 cells. -/
theorem TriangulateLine_loop_closes_witness :
    ∃ (out : Strip (Fl ℚ)) (v0 v1 : Vector2 (Fl ℚ)),
      TriangulateLine (exactOps Rat.sqrt)
        [⟨Fl.fin 0, Fl.fin 0⟩, ⟨Fl.fin 10, Fl.fin 0⟩, ⟨Fl.fin 10, Fl.fin 10⟩] 3 (Fl.fin 4)
        true (RL_MALLOC (Fl ℚ) 8) = some out ∧
      out[0]? = some (some v0) ∧ out[1]? = some (some v1) ∧
      out[(GetStripLength 3 true - 2).toNat]? = some (some v0) ∧
      out[(GetStripLength 3 true - 1).toNat]? = some (some v1) :=
  TriangulateLine_loop_closes (exactOps Rat.sqrt)
    [⟨Fl.fin 0, Fl.fin 0⟩, ⟨Fl.fin 10, Fl.fin 0⟩, ⟨Fl.fin 10, Fl.fin 10⟩] 3 (Fl.fin 4)
    (RL_MALLOC (Fl ℚ) 8) (by decide) (by decide) (by decide)

/-- C8: for `numPoints < 2` TriangulateLine returns the strip buffer as it was, whatever
the `points` buffer is (the empty buffer included, so no element of `points` is read);
GetStripLength is 0; and UpdateTriLine only sets `stripLen` to 0 (and replaces the buffer by
a zero-size allocation when the previous `stripLen` was negative), without a triangulation. -/
theorem TriangulateLine_guard (points : List (Vector2 α)) (numPoints : Int) (thickness : α)
    (loop : Bool) (strip : Strip α) (prevStripLen : Int) (hn : numPoints < 2) :
    TriangulateLine ops points numPoints thickness loop strip = some strip ∧
      TriangulateLine ops [] numPoints thickness loop strip = some strip ∧
      GetStripLength numPoints loop = 0 ∧
      UpdateTriLine ops ⟨points, numPoints, thickness, loop, strip, prevStripLen⟩
        = some ⟨points, numPoints, thickness, loop,
            if 0 > prevStripLen then RL_MALLOC α 0 else strip, 0⟩ :=
  ⟨TriangulateLine_of_lt_two ops points numPoints thickness loop strip hn,
    TriangulateLine_of_lt_two ops [] numPoints thickness loop strip hn,
    GetStripLength_of_lt_two numPoints loop hn,
    UpdateTriLine_of_lt_two ops ⟨points, numPoints, thickness, loop, strip, prevStripLen⟩ hn⟩

/-- Witness of C8: one point, a stale buffer of two cells. -/
theorem TriangulateLine_guard_witness :
    TriangulateLine (exactOps Rat.sqrt) [⟨Fl.fin 0, Fl.fin 0⟩] 1 (Fl.fin 4) true
        [none, some ⟨Fl.fin 1, Fl.fin 1⟩] = some [none, some ⟨Fl.fin 1, Fl.fin 1⟩] ∧
      TriangulateLine (exactOps Rat.sqrt) [] 1 (Fl.fin 4) true
        [none, some ⟨Fl.fin 1, Fl.fin 1⟩] = some [none, some ⟨Fl.fin 1, Fl.fin 1⟩] ∧
      GetStripLength 1 true = 0 ∧
      UpdateTriLine (exactOps Rat.sqrt)
        ⟨[⟨Fl.fin 0, Fl.fin 0⟩], 1, Fl.fin 4, true, [none, some ⟨Fl.fin 1, Fl.fin 1⟩], 2⟩
        = some ⟨[⟨Fl.fin 0, Fl.fin 0⟩], 1, Fl.fin 4, true,
            if 0 > (2 : Int) then RL_MALLOC (Fl ℚ) 0 else [none, some ⟨Fl.fin 1, Fl.fin 1⟩], 0⟩ :=
  TriangulateLine_guard (exactOps Rat.sqrt) [⟨Fl.fin 0, Fl.fin 0⟩] 1 (Fl.fin 4) true
    [none, some ⟨Fl.fin 1, Fl.fin 1⟩] 2 (by decide)

/-- C9: on a TriLine whose buffers hold `numPoints` points and `stripLen` strip cells,
UpdateTriLine returns a state `once` on which a second UpdateTriLine returns `once` again
(same `stripLen`, same strip contents); and every other TriLine with the same `points`,
`numPoints`, `thickness` and `loop`, whatever its strip buffer holds, is updated to the
same `stripLen` and the same first `stripLen` strip cells. -/
theorem UpdateTriLine_idempotent (triline : TriLine α)
    (hpts : triline.numPoints ≤ triline.points.length)
    (hcap : triline.stripLen ≤ triline.strip.length) :
    ∃ once : TriLine α, UpdateTriLine ops triline = some once ∧
      UpdateTriLine ops once = some once ∧
      ∀ (otherStrip : Strip α) (otherLen : Int), otherLen ≤ otherStrip.length →
        ∃ o : TriLine α,
          UpdateTriLine ops { triline with strip := otherStrip, stripLen := otherLen } = some o ∧
          o.stripLen = once.stripLen ∧
          o.strip.take o.stripLen.toNat = once.strip.take once.stripLen.toNat := by
  obtain ⟨pts, n, th, lp, st, sl⟩ := triline
  simp only at hpts hcap
  by_cases hn : 2 ≤ n
  · obtain ⟨canon, hc, hfresh, hupd⟩ :=
      UpdateTriLine_of_two_le ops ⟨pts, n, th, lp, st, sl⟩ hn hpts hcap
    simp only at hc hfresh hupd
    have hsame : ∀ (st2 : Strip α) (sl2 : Int), sl2 ≤ st2.length →
        UpdateTriLine ops ⟨pts, n, th, lp, st2, sl2⟩ = some ⟨pts, n, th, lp,
          canon.map some ++ (if GetStripLength n lp > sl2 then [] else st2.drop canon.length),
          GetStripLength n lp⟩ := by
      intro st2 sl2 h5
      obtain ⟨canon2, hc2, hfresh2, hupd2⟩ :=
        UpdateTriLine_of_two_le ops ⟨pts, n, th, lp, st2, sl2⟩ hn hpts h5
      simp only at hc2 hfresh2 hupd2
      have heq : canon2 = canon := by
        have := hfresh.symm.trans hfresh2
        exact ((List.map_injective_iff.mpr (Option.some_injective _)) (Option.some.inj this)).symm
      rw [heq] at hupd2
      exact hupd2
    have hlenc : (GetStripLength n lp).toNat = (canon.map some).length := by
      rw [List.length_map]; omega
    have hdrop : ∀ (R : Strip α), List.drop canon.length (canon.map some ++ R) = R := by
      intro R
      exact @List.drop_left' _ (canon.map some) R canon.length (by simp)
    refine ⟨_, hupd, ?_, ?_⟩
    · rw [hsame _ _ (by rw [List.length_append, List.length_map]; omega)]
      simp only [gt_iff_lt, lt_self_iff_false, if_false, hdrop]
    · intro otherStrip otherLen hother
      refine ⟨_, hsame otherStrip otherLen hother, rfl, ?_⟩
      simp only [hlenc, List.take_left']
  · have hlt : n < 2 := by omega
    refine ⟨_, UpdateTriLine_of_lt_two ops ⟨pts, n, th, lp, st, sl⟩ hlt, ?_, ?_⟩
    · rw [UpdateTriLine_of_lt_two ops ⟨pts, n, th, lp, _, 0⟩ hlt]
      simp
    · intro otherStrip otherLen _
      refine ⟨_, UpdateTriLine_of_lt_two ops ⟨pts, n, th, lp, otherStrip, otherLen⟩ hlt, rfl, ?_⟩
      simp

/-- Witness of C9: two updates of `sampleLine`. -/
theorem UpdateTriLine_idempotent_witness :
    ∃ once : TriLine (Fl ℚ), UpdateTriLine (exactOps Rat.sqrt) sampleLine = some once ∧
      UpdateTriLine (exactOps Rat.sqrt) once = some once ∧
      ∀ (otherStrip : Strip (Fl ℚ)) (otherLen : Int), otherLen ≤ otherStrip.length →
        ∃ o : TriLine (Fl ℚ),
          UpdateTriLine (exactOps Rat.sqrt)
            { sampleLine with strip := otherStrip, stripLen := otherLen } = some o ∧
          o.stripLen = once.stripLen ∧
          o.strip.take o.stripLen.toNat = once.strip.take once.stripLen.toNat :=
  UpdateTriLine_idempotent (exactOps Rat.sqrt) sampleLine (by decide) (by decide)

end UpdateClaims

section Capacity

variable {α : Type} (ops : FloatOps α)

/-- One UpdateTriLine call on a TriLine whose buffers hold `numPoints` points and `stripLen`
strip cells: it returns, keeps the user fields, sets `stripLen` to the requirement and
leaves a buffer of the old capacity, or of exactly the requirement when the requirement
exceeds the previous `stripLen`. -/
theorem UpdateTriLine_capacity (triline : TriLine α)
    (hpts : triline.numPoints ≤ triline.points.length)
    (hcap : triline.stripLen ≤ triline.strip.length) :
    ∃ updated : TriLine α, UpdateTriLine ops triline = some updated ∧
      updated.points = triline.points ∧
      updated.stripLen = GetStripLength triline.numPoints triline.loop ∧
      updated.strip.length
        = (if GetStripLength triline.numPoints triline.loop > triline.stripLen then
            (GetStripLength triline.numPoints triline.loop).toNat
          else triline.strip.length) := by
  by_cases hn : 2 ≤ triline.numPoints
  · obtain ⟨canon, hc, -, hupd⟩ := UpdateTriLine_of_two_le ops triline hn hpts hcap
    refine ⟨_, hupd, rfl, rfl, ?_⟩
    simp only [List.length_append, List.length_map]
    split_ifs with hgrow
    · simp only [List.length_nil]; omega
    · rw [List.length_drop]; omega
  · have hlt : triline.numPoints < 2 := by omega
    refine ⟨_, UpdateTriLine_of_lt_two ops triline hlt, rfl,
      (GetStripLength_of_lt_two _ _ hlt).symm, ?_⟩
    rw [GetStripLength_of_lt_two _ _ hlt]
    split_ifs <;> simp [RL_MALLOC]

theorem runUpdates_valid (es : List (Int × Bool)) :
    ∀ (start : TriLine α), start.stripLen ≤ start.strip.length →
      (∀ x ∈ es, x.1 ≤ start.points.length) →
      ∃ reached : TriLine α, runUpdates ops start es = some reached ∧
        reached.points = start.points ∧ reached.stripLen ≤ reached.strip.length := by
  induction es with
  | nil => intro start hcap _; exact ⟨start, rfl, rfl, hcap⟩
  | cons e es ih =>
    intro start hcap hes
    obtain ⟨t1, h1, hp1, hl1, hc1⟩ := UpdateTriLine_capacity ops
      { start with numPoints := e.1, loop := e.2 } (hes e (List.mem_cons_self _ _)) hcap
    have hv1 : t1.stripLen ≤ t1.strip.length := by
      rw [hl1, hc1]
      have := GetStripLength_nonneg e.1 e.2
      simp only
      split_ifs with hgrow
      · omega
      · simp only [gt_iff_lt, not_lt] at hgrow; omega
    obtain ⟨t2, h2, hp2, hv2⟩ := ih t1 hv1 (fun x hx => by
      rw [hp1]; exact hes x (List.mem_cons_of_mem _ hx))
    refine ⟨t2, ?_, hp2.trans hp1, hv2⟩
    simp only [runUpdates, updateWith, h1, Option.some_bind, h2]

theorem runUpdates_snoc (es : List (Int × Bool)) (e : Int × Bool) :
    ∀ (start : TriLine α), runUpdates ops start (es ++ [e])
      = (runUpdates ops start es).bind (fun t => updateWith ops t e) := by
  induction es with
  | nil =>
    intro start
    simp only [List.nil_append, runUpdates, Option.some_bind]
    cases updateWith ops start e <;> rfl
  | cons x es ih =>
    intro start
    cases h : updateWith ops start x with
    | none => simp only [List.cons_append, runUpdates, h, Option.none_bind]
    | some t =>
      simp only [List.cons_append, runUpdates, h, Option.some_bind]
      exact ih t

/-- C10 (as amended): after any sequence of updates from a TriLine whose strip buffer holds
`stripLen` cells, one more update (with any `numPoints` the `points` buffer holds and any
`loop`) returns, sets `stripLen` to the requirement `GetStripLength numPoints loop`, and
leaves the capacity of `strip` unchanged when the requirement does not exceed the previous
`stripLen`; otherwise the buffer is replaced by one of exactly the requirement.  The
capacity is at least `stripLen` afterwards. -/
theorem strip_capacity_rule (start : TriLine α) (es : List (Int × Bool)) (e : Int × Bool)
    (hcap : start.stripLen ≤ start.strip.length)
    (hes : ∀ x ∈ es, x.1 ≤ start.points.length) (he : e.1 ≤ start.points.length) :
    ∃ before after : TriLine α, runUpdates ops start es = some before ∧
      runUpdates ops start (es ++ [e]) = some after ∧
      after.stripLen = GetStripLength e.1 e.2 ∧
      after.strip.length
        = (if GetStripLength e.1 e.2 > before.stripLen then (GetStripLength e.1 e.2).toNat
           else before.strip.length) ∧
      after.stripLen ≤ after.strip.length := by
  obtain ⟨before, hb, hp, hv⟩ := runUpdates_valid ops es start hcap hes
  obtain ⟨after, ha, -, hl, hc⟩ := UpdateTriLine_capacity ops
    { before with numPoints := e.1, loop := e.2 } (by rw [hp]; exact he) hv
  refine ⟨before, after, hb, ?_, hl, hc, ?_⟩
  · rw [runUpdates_snoc, hb]; exact ha
  · rw [hl, hc]
    have := GetStripLength_nonneg e.1 e.2
    simp only
    split_ifs with hgrow
    · omega
    · simp only [gt_iff_lt, not_lt] at hgrow; omega

/-- Witness of C10 (as amended): `freshLine` updated as a 10-point open line, then as a
2-point line. -/
theorem strip_capacity_rule_witness :
    ∃ before after : TriLine (Fl ℚ),
      runUpdates (exactOps Rat.sqrt) freshLine [(10, false)] = some before ∧
      runUpdates (exactOps Rat.sqrt) freshLine ([(10, false)] ++ [(2, false)]) = some after ∧
      after.stripLen = GetStripLength 2 false ∧
      after.strip.length
        = (if GetStripLength 2 false > before.stripLen then (GetStripLength 2 false).toNat
           else before.strip.length) ∧
      after.stripLen ≤ after.strip.length :=
  strip_capacity_rule (exactOps Rat.sqrt) freshLine [(10, false)] (2, false) (by decide)
    (by decide) (by decide)

/-- C10 (counterexample): from the zero-initialised `freshLine`, updating as a 10-point open
line, then a 2-point line, then a 5-point open line gives `stripLen` 20, 4, 10 and strip
capacities 20, 20, 10: the third update reduces the capacity (and the strip length of a
10-point open line is 20, not 18). -/
theorem strip_capacity_decreases :
    ∃ t1 t2 t3 : TriLine (Fl ℚ),
      runUpdates (exactOps Rat.sqrt) freshLine [(10, false)] = some t1 ∧
      runUpdates (exactOps Rat.sqrt) freshLine [(10, false), (2, false)] = some t2 ∧
      runUpdates (exactOps Rat.sqrt) freshLine [(10, false), (2, false), (5, false)]
        = some t3 ∧
      t1.stripLen = 20 ∧ t1.strip.length = 20 ∧
      t2.stripLen = 4 ∧ t2.strip.length = 20 ∧
      t3.stripLen = 10 ∧ t3.strip.length = 10 ∧ t3.strip.length < t2.strip.length := by
  obtain ⟨t1, h1, hp1, hl1, hc1⟩ := UpdateTriLine_capacity (exactOps Rat.sqrt)
    { freshLine with numPoints := 10, loop := false } (by decide) (by decide)
  have p1 : t1.points = tenPoints := hp1
  have e1 : t1.stripLen = 20 := by rw [hl1]; decide
  have c1 : t1.strip.length = 20 := by rw [hc1]; decide
  obtain ⟨t2, h2, hp2, hl2, hc2⟩ := UpdateTriLine_capacity (exactOps Rat.sqrt)
    { t1 with numPoints := 2, loop := false }
    (show (2 : Int) ≤ (t1.points.length : Int) by rw [p1]; decide)
    (show t1.stripLen ≤ (t1.strip.length : Int) by rw [e1, c1]; decide)
  have p2 : t2.points = tenPoints := hp2.trans p1
  have e2 : t2.stripLen = 4 := hl2.trans (show GetStripLength 2 false = 4 by decide)
  have c2 : t2.strip.length = 20 := by
    rw [hc2]
    show (if GetStripLength 2 false > t1.stripLen then (GetStripLength 2 false).toNat
      else t1.strip.length) = 20
    rw [e1, c1]; decide
  obtain ⟨t3, h3, -, hl3, hc3⟩ := UpdateTriLine_capacity (exactOps Rat.sqrt)
    { t2 with numPoints := 5, loop := false }
    (show (5 : Int) ≤ (t2.points.length : Int) by rw [p2]; decide)
    (show t2.stripLen ≤ (t2.strip.length : Int) by rw [e2, c2]; decide)
  have e3 : t3.stripLen = 10 := hl3.trans (show GetStripLength 5 false = 10 by decide)
  have c3 : t3.strip.length = 10 := by
    rw [hc3]
    show (if GetStripLength 5 false > t2.stripLen then (GetStripLength 5 false).toNat
      else t2.strip.length) = 10
    rw [e2, c2]; decide
  refine ⟨t1, t2, t3, ?_, ?_, ?_, e1, c1, e2, c2, e3, c3, by rw [c3, c2]; decide⟩
  · simp only [runUpdates, updateWith, h1, Option.some_bind]
  · simp only [runUpdates, updateWith, h1, h2, Option.some_bind]
  · simp only [runUpdates, updateWith, h1, h2, h3, Option.some_bind]

end Capacity

section Exact

variable {F : Type} [LinearOrderedField F] (sq : F → F)

@[simp] theorem exactOps_add (a b : F) :
    (exactOps sq).add (Fl.fin a) (Fl.fin b) = Fl.fin (a + b) := rfl

@[simp] theorem exactOps_sub (a b : F) :
    (exactOps sq).sub (Fl.fin a) (Fl.fin b) = Fl.fin (a - b) := by
  show Fl.fin (a + -b) = Fl.fin (a - b)
  rw [sub_eq_add_neg]

@[simp] theorem exactOps_mul (a b : F) :
    (exactOps sq).mul (Fl.fin a) (Fl.fin b) = Fl.fin (a * b) := rfl

@[simp] theorem exactOps_neg (a : F) : (exactOps sq).neg (Fl.fin a) = Fl.fin (-a) := rfl

theorem exactOps_div (a b : F) (hb : b ≠ 0) :
    (exactOps sq).div (Fl.fin a) (Fl.fin b) = Fl.fin (a / b) := by
  show Fl.div (Fl.fin a) (Fl.fin b) = _
  simp [Fl.div, hb]

theorem exactOps_sqrt (a : F) (ha : 0 ≤ a) :
    (exactOps sq).sqrt (Fl.fin a) = Fl.fin (sq a) := by
  show Fl.sqrt sq (Fl.fin a) = _
  simp [Fl.sqrt, not_lt.mpr ha]

@[simp] theorem exactOps_lt (a b : F) :
    (exactOps sq).lt (Fl.fin a) (Fl.fin b) = decide (a < b) := rfl

@[simp] theorem exactOps_zero : (exactOps sq).zero = Fl.fin 0 := rfl

@[simp] theorem exactOps_one : (exactOps sq).one = Fl.fin 1 := rfl

@[simp] theorem exactOps_two : (exactOps sq).two = Fl.fin 2 := rfl

@[simp] theorem exactOps_eps : (exactOps sq).eps = Fl.fin (1 / 100000) := rfl

@[simp] theorem Vector2Add_finVec (a b c d : F) :
    Vector2Add (exactOps sq) (finVec a b) (finVec c d) = finVec (a + c) (b + d) := rfl

@[simp] theorem Vector2Subtract_finVec (a b c d : F) :
    Vector2Subtract (exactOps sq) (finVec a b) (finVec c d) = finVec (a - c) (b - d) := by
  simp [Vector2Subtract, finVec]

@[simp] theorem Vector2Scale_finVec (a b c : F) :
    Vector2Scale (exactOps sq) (finVec a b) (Fl.fin c) = finVec (a * c) (b * c) := rfl

@[simp] theorem CrossProduct_finVec (a b c d : F) :
    CrossProduct (exactOps sq) (finVec a b) (finVec c d) = Fl.fin (a * d - c * b) := by
  simp [CrossProduct, finVec]

theorem Vector2Length_finVec (a b : F) :
    Vector2Length (exactOps sq) (finVec a b) = Fl.fin (sq (a * a + b * b)) := by
  simp only [Vector2Length, finVec, exactOps_mul, exactOps_add]
  exact exactOps_sqrt sq _ (add_nonneg (mul_self_nonneg a) (mul_self_nonneg b))

/-- DoLinesIntersect on finite points, as a Boolean expression on the coordinates. -/
theorem DoLinesIntersect_finVec (a1x a1y a2x a2y b1x b1y b2x b2y : F) :
    DoLinesIntersect (exactOps sq) (finVec a1x a1y) (finVec a2x a2y) (finVec b1x b1y)
        (finVec b2x b2y)
      = ((xor (decide (0 < (a2x - a1x) * (b1y - a1y) - (b1x - a1x) * (a2y - a1y)))
              (decide (0 < (a2x - a1x) * (b2y - a1y) - (b2x - a1x) * (a2y - a1y)))) &&
         (xor (decide (0 < (b2x - b1x) * (a1y - b1y) - (a1x - b1x) * (b2y - b1y)))
              (decide (0 < (b2x - b1x) * (a2y - b1y) - (a2x - b1x) * (b2y - b1y))))) := by
  simp [DoLinesIntersect]

/-- FindPerpendiculars on finite points `center != dir`, with the length `len` of
`dir - center`. -/
theorem FindPerpendiculars_finVec (cx cy dx dy p len : F)
    (hlen : sq ((dx - cx) * (dx - cx) + (dy - cy) * (dy - cy)) = len) (hne : len ≠ 0) :
    FindPerpendiculars (exactOps sq) (finVec cx cy) (finVec dx dy) (Fl.fin p)
      = (finVec (cx + (dy - cy) * (p / len)) (cy + (cx - dx) * (p / len)),
         finVec (cx + (cy - dy) * (p / len)) (cy + (dx - cx) * (p / len))) := by
  simp only [FindPerpendiculars, Vector2Subtract_finVec, Vector2Length_finVec, hlen,
    exactOps_div sq p len hne]
  simp [finVec, Vector2Add]

end Exact

section TwoPoints

theorem sq_dist_pos (x0 y0 x1 y1 : ℝ) (hd : x0 ≠ x1 ∨ y0 ≠ y1) :
    0 < (x1 - x0) * (x1 - x0) + (y1 - y0) * (y1 - y0) := by
  rcases hd with h | h
  · have h1 : x1 - x0 ≠ 0 := sub_ne_zero.mpr (Ne.symm h)
    have := mul_self_pos.mpr h1
    have := mul_self_nonneg (y1 - y0)
    linarith
  · have h1 : y1 - y0 ≠ 0 := sub_ne_zero.mpr (Ne.symm h)
    have := mul_self_pos.mpr h1
    have := mul_self_nonneg (x1 - x0)
    linarith

/-- The far cap of a segment crosses over: the segment from the `right` of the start cap to
the `right` of the far cap intersects the raw segment, so that cap is written reversed. -/
theorem endCap_reverseOrder (x0 y0 x1 y1 s : ℝ) (hd : x0 ≠ x1 ∨ y0 ≠ y1) (hs : s ≠ 0) :
    DoLinesIntersect (exactOps Real.sqrt) (finVec x0 y0) (finVec x1 y1)
      (finVec (x0 + (y1 - y0) * s) (y0 + (x0 - x1) * s))
      (finVec (x1 + (y0 - y1) * s) (y1 + (x1 - x0) * s)) = true := by
  have hK := sq_dist_pos x0 y0 x1 y1 hd
  have h1 : (x1 - x0) * (y0 + (x0 - x1) * s - y0) - (x0 + (y1 - y0) * s - x0) * (y1 - y0)
      = -(s * ((x1 - x0) * (x1 - x0) + (y1 - y0) * (y1 - y0))) := by ring
  have h2 : (x1 - x0) * (y1 + (x1 - x0) * s - y0) - (x1 + (y0 - y1) * s - x0) * (y1 - y0)
      = s * ((x1 - x0) * (x1 - x0) + (y1 - y0) * (y1 - y0)) := by ring
  have h3 : (x1 + (y0 - y1) * s - (x0 + (y1 - y0) * s)) * (y0 - (y0 + (x0 - x1) * s))
      - (x0 - (x0 + (y1 - y0) * s)) * (y1 + (x1 - x0) * s - (y0 + (x0 - x1) * s))
      = s * ((x1 - x0) * (x1 - x0) + (y1 - y0) * (y1 - y0)) := by ring
  have h4 : (x1 + (y0 - y1) * s - (x0 + (y1 - y0) * s)) * (y1 - (y0 + (x0 - x1) * s))
      - (x1 - (x0 + (y1 - y0) * s)) * (y1 + (x1 - x0) * s - (y0 + (x0 - x1) * s))
      = -(s * ((x1 - x0) * (x1 - x0) + (y1 - y0) * (y1 - y0))) := by ring
  rw [DoLinesIntersect_finVec, h1, h2, h3, h4]
  rcases lt_or_gt_of_ne hs with hneg | hpos
  · have hm : s * ((x1 - x0) * (x1 - x0) + (y1 - y0) * (y1 - y0)) < 0 :=
      mul_neg_of_neg_of_pos hneg hK
    simp [hm, not_lt.mpr (le_of_lt hm)]
  · have hm : 0 < s * ((x1 - x0) * (x1 - x0) + (y1 - y0) * (y1 - y0)) := mul_pos hpos hK
    simp [hm, not_lt.mpr (le_of_lt hm)]

/-- C5 (as amended): in exact real arithmetic, for two distinct points `P0 = (x0, y0)`,
`P1 = (x1, y1)`, a nonzero thickness `t` and either value of `loop`, TriangulateLine with
`numPoints = 2` fills a buffer of four cells,
whatever it held, with `[P0 - n, P0 + n, P1 - n, P1 + n]`, where `n` is
`segmentNormal`, that is `(t/2) * (-d.y, d.x) / |d|` for `d = P1 - P0`.  The vector `n` is
orthogonal to `d`, has length `|t|/2` (`n.n = (t/2)^2`), and `CrossProduct(d, n)` is
`(t/2)*|d|`, which is not zero: the odd-indexed vertices `P + n` are strictly on one side
of the segment and the even-indexed vertices `P - n` strictly on the other. -/
theorem TriangulateLine_two_points (x0 y0 x1 y1 t : ℝ) (hd : x0 ≠ x1 ∨ y0 ≠ y1) (ht : t ≠ 0)
    (loop : Bool) (c0 c1 c2 c3 : Option (Vector2 (Fl ℝ))) :
    TriangulateLine (exactOps Real.sqrt) [finVec x0 y0, finVec x1 y1] 2 (Fl.fin t) loop
        [c0, c1, c2, c3]
      = some [some (finVec (x0 - (segmentNormal Real.sqrt x0 y0 x1 y1 t).1)
                (y0 - (segmentNormal Real.sqrt x0 y0 x1 y1 t).2)),
              some (finVec (x0 + (segmentNormal Real.sqrt x0 y0 x1 y1 t).1)
                (y0 + (segmentNormal Real.sqrt x0 y0 x1 y1 t).2)),
              some (finVec (x1 - (segmentNormal Real.sqrt x0 y0 x1 y1 t).1)
                (y1 - (segmentNormal Real.sqrt x0 y0 x1 y1 t).2)),
              some (finVec (x1 + (segmentNormal Real.sqrt x0 y0 x1 y1 t).1)
                (y1 + (segmentNormal Real.sqrt x0 y0 x1 y1 t).2))] ∧
      (segmentNormal Real.sqrt x0 y0 x1 y1 t).1 * (x1 - x0)
        + (segmentNormal Real.sqrt x0 y0 x1 y1 t).2 * (y1 - y0) = 0 ∧
      (segmentNormal Real.sqrt x0 y0 x1 y1 t).1 * (segmentNormal Real.sqrt x0 y0 x1 y1 t).1
        + (segmentNormal Real.sqrt x0 y0 x1 y1 t).2 * (segmentNormal Real.sqrt x0 y0 x1 y1 t).2
        = (t / 2) * (t / 2) ∧
      (x1 - x0) * (segmentNormal Real.sqrt x0 y0 x1 y1 t).2
        - (segmentNormal Real.sqrt x0 y0 x1 y1 t).1 * (y1 - y0)
        = (t / 2) * Real.sqrt ((x1 - x0) * (x1 - x0) + (y1 - y0) * (y1 - y0)) ∧
      (t / 2) * Real.sqrt ((x1 - x0) * (x1 - x0) + (y1 - y0) * (y1 - y0)) ≠ 0 := by
  have hpos := sq_dist_pos x0 y0 x1 y1 hd
  have hLpos := Real.sqrt_pos.mpr hpos
  have hL : Real.sqrt ((x1 - x0) * (x1 - x0) + (y1 - y0) * (y1 - y0)) ≠ 0 := hLpos.ne'
  have hLL := Real.mul_self_sqrt (le_of_lt hpos)
  refine ⟨?_, ?_, ?_, ?_, mul_ne_zero (div_ne_zero ht two_ne_zero) hL⟩
  · have hfp1 := FindPerpendiculars_finVec Real.sqrt x0 y0 x1 y1 (t / 2) _ rfl hL
    have hfp2 := FindPerpendiculars_finVec Real.sqrt x1 y1 x0 y0 (t / 2)
      (Real.sqrt ((x1 - x0) * (x1 - x0) + (y1 - y0) * (y1 - y0))) (by congr 1; ring) hL
    have hdiv : (exactOps Real.sqrt).div (Fl.fin t) (Fl.fin 2) = Fl.fin (t / 2) :=
      exactOps_div _ _ _ two_ne_zero
    have hs0 : t / 2 / Real.sqrt ((x1 - x0) * (x1 - x0) + (y1 - y0) * (y1 - y0)) ≠ 0 :=
      div_ne_zero (div_ne_zero ht two_ne_zero) hL
    have hn1 : (segmentNormal Real.sqrt x0 y0 x1 y1 t).1
        = (y0 - y1) * (t / 2 / Real.sqrt ((x1 - x0) * (x1 - x0) + (y1 - y0) * (y1 - y0))) := by
      simp only [segmentNormal]; ring
    have hn2 : (segmentNormal Real.sqrt x0 y0 x1 y1 t).2
        = (x1 - x0) * (t / 2 / Real.sqrt ((x1 - x0) * (x1 - x0) + (y1 - y0) * (y1 - y0))) := by
      simp only [segmentNormal]; ring
    rw [hn1, hn2]
    generalize t / 2 / Real.sqrt ((x1 - x0) * (x1 - x0) + (y1 - y0) * (y1 - y0)) = s
      at hfp1 hfp2 hs0
    have hdl := endCap_reverseOrder x0 y0 x1 y1 s hd hs0
    simp [TriangulateLine, readPoint, writeStrip, readStrip, mainLoop, hdiv, hfp1, hfp2,
      GetStripLength, boolToInt, hdl]
    constructor <;> simp only [finVec, Vector2.mk.injEq, Fl.fin.injEq] <;> constructor <;> ring
  · simp only [segmentNormal]; field_simp; ring
  · simp only [segmentNormal]; field_simp; linear_combination (-4 * t * t) * hLL
  · simp only [segmentNormal]; field_simp; linear_combination (-2 * t) * hLL

end TwoPoints

section Vertical

theorem sqrt_hundred : Real.sqrt 100 = 10 := by
  rw [show (100 : ℝ) = 10 ^ 2 by norm_num]
  exact Real.sqrt_sq (by norm_num)

theorem tmod_two_three : Int.tmod 2 3 = 2 := by decide

/-- C6 (the code at the failing input): the vertical straight line (0,0), (0,10), (0,20),
open, thickness 4.  Both slopes are infinite (`-10/0 = -inf`, `10/0 = +inf`), so `slopeDiff`
is `-inf`, the parallel branch is not taken, the bisector `s` is the zero vector and
`0/0` makes both join points `strip[2]`, `strip[3]` NaN. -/
theorem TriangulateLine_vertical_line :
    TriangulateLine (exactOps Real.sqrt) [finVec 0 0, finVec 0 10, finVec 0 20] 3 (Fl.fin 4)
        false (RL_MALLOC (Fl ℝ) 6)
      = some [some (finVec 2 0), some (finVec (-2) 0), some ⟨Fl.nan, Fl.nan⟩,
          some ⟨Fl.nan, Fl.nan⟩, some (finVec (-2) 20), some (finVec 2 20)] := by
  have hdiv : (exactOps Real.sqrt).div (Fl.fin 4) (Fl.fin 2) = Fl.fin 2 := by
    norm_num [exactOps, Fl.div]
  have hfp1 : FindPerpendiculars (exactOps Real.sqrt) (finVec 0 0) (finVec 0 10) (Fl.fin 2)
      = (finVec 2 0, finVec (-2) 0) := by
    norm_num [FindPerpendiculars, Vector2Subtract, Vector2Add, Vector2Length, finVec, exactOps,
      Fl.div, Fl.sub, Fl.add, Fl.neg, Fl.mul, Fl.sqrt, sqrt_hundred]
  have hfp2 : FindPerpendiculars (exactOps Real.sqrt) (finVec 0 20) (finVec 0 10) (Fl.fin 2)
      = (finVec (-2) 20, finVec 2 20) := by
    norm_num [FindPerpendiculars, Vector2Subtract, Vector2Add, Vector2Length, finVec, exactOps,
      Fl.div, Fl.sub, Fl.add, Fl.neg, Fl.mul, Fl.sqrt, sqrt_hundred]
  have hj : joinVector (exactOps Real.sqrt) (Fl.fin 2) (finVec 0 0) (finVec 0 10) (finVec 0 20)
      = ⟨Fl.nan, Fl.nan⟩ := by
    norm_num [joinVector, nearParallel, slopeDiff, Vector2Subtract, Vector2Add, Vector2Scale,
      Vector2Length, finVec, exactOps, Fl.div, Fl.sub, Fl.add, Fl.neg, Fl.lt, Fl.mul, Fl.sqrt, sqrt_hundred,
      Fl.scaleInf]
  have hadd : Vector2Add (exactOps Real.sqrt) (finVec 0 10) ⟨Fl.nan, Fl.nan⟩
      = ⟨Fl.nan, Fl.nan⟩ := by
    simp [Vector2Add, finVec, exactOps, Fl.add]
  have hsub : Vector2Subtract (exactOps Real.sqrt) (finVec 0 10) ⟨Fl.nan, Fl.nan⟩
      = ⟨Fl.nan, Fl.nan⟩ := by
    simp [Vector2Subtract, finVec, exactOps, Fl.sub, Fl.add, Fl.neg]
  have hd1 : DoLinesIntersect (exactOps Real.sqrt) (finVec 0 0) (finVec 0 10) (finVec 2 0)
      ⟨Fl.nan, Fl.nan⟩ = false := by
    norm_num [DoLinesIntersect, CrossProduct, Vector2Subtract, finVec, exactOps, Fl.sub, Fl.add,
      Fl.neg, Fl.mul, Fl.lt, Fl.scaleInf]
  have hd2 : DoLinesIntersect (exactOps Real.sqrt) (finVec 0 10) (finVec 0 20) ⟨Fl.nan, Fl.nan⟩
      (finVec (-2) 20) = false := by
    norm_num [DoLinesIntersect, CrossProduct, Vector2Subtract, finVec, exactOps, Fl.sub, Fl.add,
      Fl.neg, Fl.mul, Fl.lt, Fl.scaleInf]
  simp [TriangulateLine, mainLoop, loopBody, readPoint, readStrip, writeStrip, GetStripLength,
    boolToInt, RL_MALLOC, hdiv, hfp1, hfp2, hj, hadd, hsub, hd1, hd2, tmod_two_three]

end Vertical

section ThreeOpen

variable {α : Type} (ops : FloatOps α)

/-- One iteration of the main loop at an index `k >= 1`, with the explicit pair it writes. -/
theorem loopBody_succ (points : List (Vector2 α)) (numPoints : Int) (thickness : α) (k : Nat)
    (A O B q : Vector2 α) (front : List (Vector2 α)) (hk : 1 ≤ k) (hfront : front.length = 2 * k)
    (hB : readPoint points (((k : Int) + 1).tmod numPoints) = some B)
    (hq : front[2 * k - 2]? = some q) (c0 c1 : Option (Vector2 α)) (rest : Strip α) :
    loopBody ops points numPoints thickness (k : Int) A O (front.map some ++ c0 :: c1 :: rest)
      = some (O, B, (front ++ orderedPair
          (DoLinesIntersect ops A O q (Vector2Add ops O (joinVector ops thickness A O B)))
          (Vector2Add ops O (joinVector ops thickness A O B))
          (Vector2Subtract ops O (joinVector ops thickness A O B))).map some ++ rest) := by
  have hoff : (front.length : Int) = 2 * (k : Int) := by omega
  have hlt : 2 * k - 2 < front.length := by omega
  have hw := fun r p1 p2 => write_pair front c0 c1 rest (2 * (k : Int)) hoff r p1 p2
  have hidx : 2 * (k : Int) - 2 = ((2 * k - 2 : Nat) : Int) := by omega
  have hr := readStrip_frame front (c0 :: c1 :: rest) (2 * k - 2) hlt
  rw [← hidx, hq] at hr
  have hk2 : ¬ ((k : Int) = 0) := by omega
  simp only [loopBody, hB, Option.bind_eq_bind, Option.some_bind, ne_eq, hk2,
    not_false_eq_true, if_true, hr, Option.map_some', Option.pure_def]
  exact bind_bind_some _ _ (fun s => (O, B, s)) _ (hw _ _ _)

/-- TriangulateLine on an open line of three points, unfolded: the start cap, the join
pair at `O` ordered by the intersection test against `strip[0]`, and the cap at `B`
ordered by the intersection test against `strip[2]`. -/
theorem TriangulateLine_three_open (A O B : Vector2 α) (thickness : α)
    (c0 c1 c2 c3 c4 c5 : Option (Vector2 α)) :
    TriangulateLine ops [A, O, B] 3 thickness false [c0, c1, c2, c3, c4, c5]
      = some (([(FindPerpendiculars ops A O (ops.div thickness ops.two)).1,
            (FindPerpendiculars ops A O (ops.div thickness ops.two)).2] ++
          threeOpenJoin ops A O B (ops.div thickness ops.two) ++
          orderedPair
            (DoLinesIntersect ops O B
              ((threeOpenJoin ops A O B (ops.div thickness ops.two)).headD A)
              (FindPerpendiculars ops B O (ops.div thickness ops.two)).1)
            (FindPerpendiculars ops B O (ops.div thickness ops.two)).1
            (FindPerpendiculars ops B O (ops.div thickness ops.two)).2).map some) := by
  obtain ⟨h, hh⟩ : ∃ h, ops.div thickness ops.two = h := ⟨_, rfl⟩
  obtain ⟨f1, f2, hfp⟩ : ∃ f1 f2, FindPerpendiculars ops A O h = (f1, f2) := ⟨_, _, rfl⟩
  obtain ⟨e1, e2, hfe⟩ : ∃ e1 e2, FindPerpendiculars ops B O h = (e1, e2) := ⟨_, _, rfl⟩
  obtain ⟨j1, j2, hj⟩ : ∃ j1 j2, threeOpenJoin ops A O B h = [j1, j2] := by
    unfold threeOpenJoin orderedPair
    split_ifs
    · exact ⟨_, _, rfl⟩
    · exact ⟨_, _, rfl⟩
  have hA : readPoint [A, O, B] 0 = some A := rfl
  have hO : readPoint [A, O, B] 1 = some O := rfl
  have hB : readPoint [A, O, B] ((((1 : Nat) : Int) + 1).tmod 3) = some B := by
    show readPoint [A, O, B] (Int.tmod 2 3) = some B
    rw [tmod_two_three]; rfl
  have hc : readPoint [A, O, B] (3 - 1) = some B := rfl
  have hd : readPoint [A, O, B] (3 - 2) = some O := rfl
  have hw1 := writeStrip_frame1 [] c0 c1 [c2, c3, c4, c5] f2
  have hw0 := writeStrip_frame0 [] c0 [some f2, c2, c3, c4, c5] f1
  simp only [List.length_nil, Nat.cast_zero, zero_add, List.map_nil, List.nil_append,
    List.map_append, List.map_cons] at hw1 hw0
  have hbody := loopBody_succ ops [A, O, B] 3 h 1 A O B f1 [f1, f2] (le_refl 1) rfl hB rfl
    c2 c3 [c4, c5]
  unfold threeOpenJoin at hj
  rw [hfp] at hj
  simp only [Nat.cast_one] at hbody
  rw [hj] at hbody
  have hr := readStrip_frame ([f1, f2] ++ [j1, j2]) [c4, c5] 2 (by simp)
  have hwp := write_pair ([f1, f2] ++ [j1, j2]) c4 c5 [] 4 rfl
    (DoLinesIntersect ops O B j1 e1) e1 e2
  have hL : GetStripLength 3 false - 2 = 4 := by decide
  have hcnt : ((3 : Int) - 1 - 1).toNat = 1 := by decide
  have hguard : ¬ ((3 : Int) ≠ 2 ∧ (3 : Int) < 2) := by decide
  have h32 : ¬ ((3 : Int) = 2) := by decide
  have hr2 : readStrip (List.map some ([f1, f2] ++ [j1, j2]) ++ [c4, c5]) (4 - 2)
      = some j1 := hr
  rw [hh]
  unfold threeOpenJoin
  rw [hfp, hfe, hj]
  simp only [TriangulateLine, hguard, if_false, h32, hh, hA, hO, hc, hd, hfp, hfe,
    Option.bind_eq_bind, Option.some_bind, Option.pure_def, boolToInt, Bool.not_false, if_true,
    Bool.false_eq_true, hw1, hw0, hcnt, hL, mainLoop, List.cons_append, List.nil_append]
  have hbody2 : loopBody ops [A, O, B] 3 h 1 A O [some f1, some f2, c2, c3, c4, c5]
      = some (O, B, List.map some ([f1, f2] ++ [j1, j2]) ++ [c4, c5]) := hbody
  simp only [hbody2, Option.some_bind, hr2, List.headD_cons]
  simp only [boolToInt] at hwp
  rw [List.append_nil] at hwp
  exact hwp

end ThreeOpen

section Bisector

theorem finVec_x {F : Type} (a b : F) : (finVec a b).x = Fl.fin a := rfl
theorem finVec_y {F : Type} (a b : F) : (finVec a b).y = Fl.fin b := rfl

theorem mul_self_add_pos_of_cross_ne (a1 a2 b1 b2 : ℝ) (h : b1 * a2 - a1 * b2 ≠ 0) :
    0 < a1 * a1 + a2 * a2 := by
  by_contra hcon
  have h0 : a1 * a1 + a2 * a2 = 0 :=
    le_antisymm (not_lt.mp hcon) (add_nonneg (mul_self_nonneg _) (mul_self_nonneg _))
  obtain ⟨h1, h2⟩ := mul_self_add_mul_self_eq_zero.mp h0
  exact h (by rw [h1, h2]; ring)

/-- The unscaled bisector `s = a + (b - a) * c`, `c = r / (r + 1)`, `r = |a| / |b|`: its cross
products with `b` and `a`. -/
theorem bisector_cross (a1 a2 b1 b2 la lb c s1 s2 : ℝ) (hla0 : 0 < la) (hlb0 : 0 < lb)
    (hc : la / lb / (la / lb + 1) = c) (hs1 : a1 + (b1 - a1) * c = s1)
    (hs2 : a2 + (b2 - a2) * c = s2) :
    (b1 * s2 - s1 * b2) * (la + lb) = (b1 * a2 - a1 * b2) * lb ∧
    (a1 * s2 - s1 * a2) * (la + lb) = -((b1 * a2 - a1 * b2) * la) := by
  have hr1 : la / lb + 1 ≠ 0 := by positivity
  have hc' : c * (la + lb) = la := by rw [← hc]; field_simp
  constructor
  · rw [← hs1, ← hs2]; linear_combination (-(b1 * a2 - a1 * b2)) * hc'
  · rw [← hs1, ← hs2]; linear_combination (-(b1 * a2 - a1 * b2)) * hc'

/-- The sine computed from the cosine: `sqrt(1 - cos^2) = |cross(b, s)| / (|b| |s|)`. -/
theorem bisector_sin (b1 b2 s1 s2 lb ls cv : ℝ) (hlb0 : 0 < lb) (hls0 : 0 < ls)
    (hlbb : lb * lb = b1 * b1 + b2 * b2) (hlss : ls * ls = s1 * s1 + s2 * s2)
    (hcv : (b1 * s1 + b2 * s2) / lb / ls = cv) :
    0 ≤ 1 - cv * cv ∧ Real.sqrt (1 - cv * cv) = |b1 * s2 - s1 * b2| / (lb * ls) := by
  have hP : (lb * ls) ^ 2 = (b1 * s1 + b2 * s2) ^ 2 + (b1 * s2 - s1 * b2) ^ 2 := by
    linear_combination (ls * ls) * hlbb + (b1 * b1 + b2 * b2) * hlss
  have hP0 : (lb * ls) ^ 2 ≠ 0 := pow_ne_zero 2 (mul_pos hlb0 hls0).ne'
  have hsin2 : 1 - cv * cv = ((b1 * s2 - s1 * b2) / (lb * ls)) ^ 2 := by
    rw [← hcv, div_div, div_pow, eq_div_iff hP0, sub_mul, one_mul, ← pow_two, div_pow,
      div_mul_cancel₀ _ hP0]
    linarith [hP]
  constructor
  · rw [hsin2]; positivity
  · rw [hsin2, Real.sqrt_sq_eq_abs, abs_div, abs_of_pos (mul_pos hlb0 hls0)]

/-- The scaled bisector: with `k = thickness / sin / |s|` and `sin = |X| / (|b| |s|)`, the
cross products `k X` with `b` and `k Y` with `a` have absolute values `|thickness| |b|`
and `|thickness| |a|`. -/
theorem bisector_scaled (X Y th la lb ls sv k : ℝ) (hX : X ≠ 0) (hlb0 : 0 < lb)
    (hls0 : 0 < ls) (hsv : sv = |X| / (lb * ls)) (hk : th / sv / ls = k)
    (hXY : |Y| * lb = |X| * la) :
    |k * X| = |th| * lb ∧ |k * Y| = |th| * la := by
  have hX0 : 0 < |X| := abs_pos.mpr hX
  have hk2 : k = th * lb / |X| := by
    rw [← hk, hsv]; field_simp; ring
  have hk3 : |k| = |th| * lb / |X| := by
    rw [hk2, abs_div, abs_mul, abs_abs, abs_of_pos hlb0]
  constructor
  · rw [abs_mul, hk3]; field_simp
  · rw [abs_mul, hk3, div_mul_eq_mul_div, div_eq_iff hX0.ne']
    linear_combination (|th|) * hXY

/-- The bisector branch of the join vector on finite non-collinear points: the result is
finite and its cross products with `b = B - O` and `a = A - O` have absolute values
`|thickness| * |b|` and `|thickness| * |a|`. -/
theorem joinVector_bisector (xa ya xo yo xb yb th : ℝ)
    (hnc : (xb - xo) * (ya - yo) - (xa - xo) * (yb - yo) ≠ 0)
    (hbr : nearParallel (exactOps Real.sqrt) (finVec (xa - xo) (ya - yo))
      (finVec (xb - xo) (yb - yo)) = false) :
    ∃ sx sy : ℝ,
      joinVector (exactOps Real.sqrt) (Fl.fin th) (finVec xa ya) (finVec xo yo) (finVec xb yb)
        = finVec sx sy ∧
      |(xb - xo) * sy - sx * (yb - yo)|
        = |th| * Real.sqrt ((xb - xo) * (xb - xo) + (yb - yo) * (yb - yo)) ∧
      |(xa - xo) * sy - sx * (ya - yo)|
        = |th| * Real.sqrt ((xa - xo) * (xa - xo) + (ya - yo) * (ya - yo)) := by
  have hA := mul_self_add_pos_of_cross_ne (xa - xo) (ya - yo) (xb - xo) (yb - yo) hnc
  have hB := mul_self_add_pos_of_cross_ne (xb - xo) (yb - yo) (xa - xo) (ya - yo)
    (by intro h; apply hnc; linarith)
  obtain ⟨la, hla⟩ : ∃ la, Real.sqrt ((xa - xo) * (xa - xo) + (ya - yo) * (ya - yo)) = la :=
    ⟨_, rfl⟩
  obtain ⟨lb, hlb⟩ : ∃ lb, Real.sqrt ((xb - xo) * (xb - xo) + (yb - yo) * (yb - yo)) = lb :=
    ⟨_, rfl⟩
  have hla0 : 0 < la := by rw [← hla]; exact Real.sqrt_pos.mpr hA
  have hlb0 : 0 < lb := by rw [← hlb]; exact Real.sqrt_pos.mpr hB
  have hlbb : lb * lb = (xb - xo) * (xb - xo) + (yb - yo) * (yb - yo) := by
    rw [← hlb]; exact Real.mul_self_sqrt hB.le
  obtain ⟨c, hc⟩ : ∃ c, la / lb / (la / lb + 1) = c := ⟨_, rfl⟩
  obtain ⟨s1, hs1⟩ : ∃ s1, xa - xo + (xb - xa) * c = s1 := ⟨_, rfl⟩
  obtain ⟨s2, hs2⟩ : ∃ s2, ya - yo + (yb - ya) * c = s2 := ⟨_, rfl⟩
  obtain ⟨hX, hY⟩ := bisector_cross (xa - xo) (ya - yo) (xb - xo) (yb - yo) la lb c s1 s2
    hla0 hlb0 hc (by rw [← hs1]; ring) (by rw [← hs2]; ring)
  have hXne : (xb - xo) * s2 - s1 * (yb - yo) ≠ 0 := by
    intro h
    rw [h, zero_mul] at hX
    exact (mul_ne_zero hnc hlb0.ne') hX.symm
  have hS := mul_self_add_pos_of_cross_ne s1 s2 (xb - xo) (yb - yo) hXne
  obtain ⟨ls, hls⟩ : ∃ ls, Real.sqrt (s1 * s1 + s2 * s2) = ls := ⟨_, rfl⟩
  have hls0 : 0 < ls := by rw [← hls]; exact Real.sqrt_pos.mpr hS
  have hlss : ls * ls = s1 * s1 + s2 * s2 := by rw [← hls]; exact Real.mul_self_sqrt hS.le
  obtain ⟨cv, hcv⟩ : ∃ cv, ((xb - xo) * s1 + (yb - yo) * s2) / lb / ls = cv := ⟨_, rfl⟩
  obtain ⟨hnn, hsin⟩ := bisector_sin (xb - xo) (yb - yo) s1 s2 lb ls cv hlb0 hls0 hlbb hlss hcv
  obtain ⟨sv, hsv⟩ : ∃ sv, Real.sqrt (1 - cv * cv) = sv := ⟨_, rfl⟩
  rw [hsv] at hsin
  have hsv0 : sv ≠ 0 := by
    rw [hsin]; exact (div_pos (abs_pos.mpr hXne) (mul_pos hlb0 hls0)).ne'
  obtain ⟨k, hk⟩ : ∃ k, th / sv / ls = k := ⟨_, rfl⟩
  have hsum : 0 < la + lb := add_pos hla0 hlb0
  have hXY : |(xa - xo) * s2 - s1 * (ya - yo)| * lb
      = |(xb - xo) * s2 - s1 * (yb - yo)| * la := by
    have h1 : |(xa - xo) * s2 - s1 * (ya - yo)| * (la + lb)
        = |(xb - xo) * (ya - yo) - (xa - xo) * (yb - yo)| * la := by
      have := congrArg abs hY
      rwa [abs_mul, abs_of_pos hsum, abs_neg, abs_mul, abs_of_pos hla0] at this
    have h2 : |(xb - xo) * s2 - s1 * (yb - yo)| * (la + lb)
        = |(xb - xo) * (ya - yo) - (xa - xo) * (yb - yo)| * lb := by
      have := congrArg abs hX
      rwa [abs_mul, abs_of_pos hsum, abs_mul, abs_of_pos hlb0] at this
    have h3 : (|(xa - xo) * s2 - s1 * (ya - yo)| * lb) * (la + lb)
        = (|(xb - xo) * s2 - s1 * (yb - yo)| * la) * (la + lb) := by
      linear_combination lb * h1 - la * h2
    exact mul_right_cancel₀ hsum.ne' h3
  obtain ⟨hr1, hr2⟩ := bisector_scaled _ _ th la lb ls sv k hXne hlb0 hls0 hsin hk hXY
  refine ⟨s1 * k, s2 * k, ?_, ?_, ?_⟩
  · have e_r := exactOps_div Real.sqrt la lb hlb0.ne'
    have e_c := exactOps_div Real.sqrt (la / lb) (la / lb + 1) (by positivity)
    have e_cos1 := exactOps_div Real.sqrt ((xb - xo) * s1 + (yb - yo) * s2) lb hlb0.ne'
    have e_cos2 := exactOps_div Real.sqrt (((xb - xo) * s1 + (yb - yo) * s2) / lb) ls hls0.ne'
    have e_sin := exactOps_sqrt Real.sqrt (1 - cv * cv) hnn
    have e_k1 := exactOps_div Real.sqrt th sv hsv0
    have e_k2 := exactOps_div Real.sqrt (th / sv) ls hls0.ne'
    simp only [joinVector, hbr, Vector2Subtract_finVec, Vector2Length_finVec, hla, hlb,
      Bool.false_eq_true, if_false, e_r, exactOps_one, exactOps_add, e_c, hc,
      Vector2Scale_finVec, Vector2Add_finVec, hs1, hs2, hls, finVec_x, finVec_y, exactOps_mul,
      e_cos1, e_cos2, hcv, exactOps_sub, e_sin, hsv, e_k1, e_k2, hk]
  · rw [hlb, ← hr1]; congr 1; ring
  · rw [hla, ← hr2]; congr 1; ring

/-- C4: in exact real arithmetic, for the open three-point line `A, O, B` with the three
points not collinear and the join at `O` computed by the angle-bisector branch
(`nearParallel` is false), and for every thickness `t`, TriangulateLine returns and the join
points `strip[2]`, `strip[3]` are `O + s` and `O - s` (in one order or the other) for a
finite vector `s`, and both of them lie at perpendicular distance `|t|/2` from the line
through `O` and `A` and from the line through `O` and `B`. -/
theorem TriangulateLine_bisector_join (xa ya xo yo xb yb t : ℝ)
    (c0 c1 c2 c3 c4 c5 : Option (Vector2 (Fl ℝ)))
    (hnc : (xb - xo) * (ya - yo) - (xa - xo) * (yb - yo) ≠ 0)
    (hbr : nearParallel (exactOps Real.sqrt)
        (Vector2Subtract (exactOps Real.sqrt) (finVec xa ya) (finVec xo yo))
        (Vector2Subtract (exactOps Real.sqrt) (finVec xb yb) (finVec xo yo)) = false) :
    ∃ (sx sy : ℝ) (out : Strip (Fl ℝ)),
      TriangulateLine (exactOps Real.sqrt) [finVec xa ya, finVec xo yo, finVec xb yb] 3
        (Fl.fin t) false [c0, c1, c2, c3, c4, c5] = some out ∧
      ((out[2]? = some (some (finVec (xo + sx) (yo + sy))) ∧
          out[3]? = some (some (finVec (xo - sx) (yo - sy)))) ∨
        (out[2]? = some (some (finVec (xo - sx) (yo - sy))) ∧
          out[3]? = some (some (finVec (xo + sx) (yo + sy))))) ∧
      perpDist Real.sqrt xo yo xa ya (xo + sx) (yo + sy) = |t| / 2 ∧
      perpDist Real.sqrt xo yo xb yb (xo + sx) (yo + sy) = |t| / 2 ∧
      perpDist Real.sqrt xo yo xa ya (xo - sx) (yo - sy) = |t| / 2 ∧
      perpDist Real.sqrt xo yo xb yb (xo - sx) (yo - sy) = |t| / 2 := by
  rw [Vector2Subtract_finVec, Vector2Subtract_finVec] at hbr
  obtain ⟨sx, sy, hj, hb, ha⟩ := joinVector_bisector xa ya xo yo xb yb (t / 2) hnc hbr
  have hA := mul_self_add_pos_of_cross_ne (xa - xo) (ya - yo) (xb - xo) (yb - yo) hnc
  have hB := mul_self_add_pos_of_cross_ne (xb - xo) (yb - yo) (xa - xo) (ya - yo)
    (by intro h; apply hnc; linarith)
  have hla := (Real.sqrt_pos.mpr hA).ne'
  have hlb := (Real.sqrt_pos.mpr hB).ne'
  have hth : |t / 2| = |t| / 2 := by rw [abs_div, abs_of_pos (by norm_num : (0 : ℝ) < 2)]
  rw [hth] at ha hb
  have hdiv : (exactOps Real.sqrt).div (Fl.fin t) (exactOps Real.sqrt).two = Fl.fin (t / 2) :=
    exactOps_div _ _ _ two_ne_zero
  have hrun := TriangulateLine_three_open (exactOps Real.sqrt) (finVec xa ya) (finVec xo yo)
    (finVec xb yb) (Fl.fin t) c0 c1 c2 c3 c4 c5
  rw [hdiv] at hrun
  refine ⟨sx, sy, _, hrun, ?_, ?_, ?_, ?_, ?_⟩
  · unfold threeOpenJoin
    rw [hj, Vector2Add_finVec, Vector2Subtract_finVec]
    cases DoLinesIntersect (exactOps Real.sqrt) (finVec xa ya) (finVec xo yo)
      (FindPerpendiculars (exactOps Real.sqrt) (finVec xa ya) (finVec xo yo) (Fl.fin (t / 2))).1
      (finVec (xo + sx) (yo + sy))
    · left; constructor <;> simp [orderedPair]
    · right; constructor <;> simp [orderedPair]
  · unfold perpDist
    rw [div_eq_iff hla, ← ha]; congr 1; ring
  · unfold perpDist
    rw [div_eq_iff hlb, ← hb]; congr 1; ring
  · unfold perpDist
    rw [div_eq_iff hla, ← ha, ← abs_neg]; congr 1; ring
  · unfold perpDist
    rw [div_eq_iff hlb, ← hb, ← abs_neg]; congr 1; ring

/-- Witness of C4: the right-angle bend (0,0), (10,0), (10,10) of thickness 4.  Here
`b.x = 0`, the slope `b.y/b.x` is `+inf`, `slopeDiff` is `-inf` and the bisector branch is
taken; the join points are at distance `|4|/2 = 2` from both segments. -/
theorem TriangulateLine_bisector_join_witness :
    ∃ (sx sy : ℝ) (out : Strip (Fl ℝ)),
      TriangulateLine (exactOps Real.sqrt) [finVec 0 0, finVec 10 0, finVec 10 10] 3
        (Fl.fin 4) false [none, none, none, none, none, none] = some out ∧
      ((out[2]? = some (some (finVec (10 + sx) (0 + sy))) ∧
          out[3]? = some (some (finVec (10 - sx) (0 - sy)))) ∨
        (out[2]? = some (some (finVec (10 - sx) (0 - sy))) ∧
          out[3]? = some (some (finVec (10 + sx) (0 + sy))))) ∧
      perpDist Real.sqrt 10 0 0 0 (10 + sx) (0 + sy) = |(4 : ℝ)| / 2 ∧
      perpDist Real.sqrt 10 0 10 10 (10 + sx) (0 + sy) = |(4 : ℝ)| / 2 ∧
      perpDist Real.sqrt 10 0 0 0 (10 - sx) (0 - sy) = |(4 : ℝ)| / 2 ∧
      perpDist Real.sqrt 10 0 10 10 (10 - sx) (0 - sy) = |(4 : ℝ)| / 2 :=
  TriangulateLine_bisector_join 0 0 10 0 10 10 4 none none none none none none
    (by norm_num)
    (by norm_num [nearParallel, slopeDiff, Vector2Subtract, finVec, exactOps, Fl.div, Fl.sub,
      Fl.add, Fl.neg, Fl.lt])

end Bisector

section Collinear

/-- Witness of C5 (as amended): the segment from (0,0) to (10,0) with thickness 4 and
`loop = true`. -/
theorem TriangulateLine_two_points_witness :
    TriangulateLine (exactOps Real.sqrt) [finVec 0 0, finVec 10 0] 2 (Fl.fin 4) true
        [none, none, none, none]
      = some [some (finVec (0 - (segmentNormal Real.sqrt 0 0 10 0 4).1)
                (0 - (segmentNormal Real.sqrt 0 0 10 0 4).2)),
              some (finVec (0 + (segmentNormal Real.sqrt 0 0 10 0 4).1)
                (0 + (segmentNormal Real.sqrt 0 0 10 0 4).2)),
              some (finVec (10 - (segmentNormal Real.sqrt 0 0 10 0 4).1)
                (0 - (segmentNormal Real.sqrt 0 0 10 0 4).2)),
              some (finVec (10 + (segmentNormal Real.sqrt 0 0 10 0 4).1)
                (0 + (segmentNormal Real.sqrt 0 0 10 0 4).2))] ∧
      (segmentNormal Real.sqrt 0 0 10 0 4).1 * (10 - 0)
        + (segmentNormal Real.sqrt 0 0 10 0 4).2 * (0 - 0) = 0 ∧
      (segmentNormal Real.sqrt 0 0 10 0 4).1 * (segmentNormal Real.sqrt 0 0 10 0 4).1
        + (segmentNormal Real.sqrt 0 0 10 0 4).2 * (segmentNormal Real.sqrt 0 0 10 0 4).2
        = ((4 : ℝ) / 2) * (4 / 2) ∧
      (10 - 0) * (segmentNormal Real.sqrt 0 0 10 0 4).2
        - (segmentNormal Real.sqrt 0 0 10 0 4).1 * (0 - 0)
        = ((4 : ℝ) / 2) * Real.sqrt ((10 - 0) * (10 - 0) + (0 - 0) * (0 - 0)) ∧
      ((4 : ℝ) / 2) * Real.sqrt ((10 - 0) * (10 - 0) + (0 - 0) * (0 - 0)) ≠ 0 :=
  TriangulateLine_two_points 0 0 10 0 4 (Or.inl (by norm_num)) (by norm_num) true
    none none none none

/-- The near-parallel branch on collinear points off a vertical line: for finite `A`, `O`,
`B` with `a.x != 0`, `b.x != 0` and `CrossProduct(a, b) = 0` the slopes are equal,
`slopeDiff` is 0 and the join vector is the perpendicular of `b` of length `|thickness|`. -/
theorem joinVector_collinear (xa ya xo yo xb yb th : ℝ) (hax : xa - xo ≠ 0)
    (hbx : xb - xo ≠ 0) (hcol : (xa - xo) * (yb - yo) - (xb - xo) * (ya - yo) = 0) :
    nearParallel (exactOps Real.sqrt) (finVec (xa - xo) (ya - yo))
        (finVec (xb - xo) (yb - yo)) = true ∧
      joinVector (exactOps Real.sqrt) (Fl.fin th) (finVec xa ya) (finVec xo yo) (finVec xb yb)
        = finVec (-(yb - yo) * (th / Real.sqrt ((xb - xo) * (xb - xo) + (yb - yo) * (yb - yo))))
            ((xb - xo) * (th / Real.sqrt ((xb - xo) * (xb - xo) + (yb - yo) * (yb - yo)))) := by
  have hB : 0 < (xb - xo) * (xb - xo) + (yb - yo) * (yb - yo) := by
    have := mul_self_pos.mpr hbx
    have := mul_self_nonneg (yb - yo)
    linarith
  have hlb := (Real.sqrt_pos.mpr hB).ne'
  have hslope : (ya - yo) / (xa - xo) - (yb - yo) / (xb - xo) = 0 := by
    field_simp; linarith
  have hnp : nearParallel (exactOps Real.sqrt) (finVec (xa - xo) (ya - yo))
      (finVec (xb - xo) (yb - yo)) = true := by
    simp only [nearParallel, slopeDiff, finVec_x, finVec_y, exactOps_div _ _ _ hax,
      exactOps_div _ _ _ hbx, exactOps_sub, hslope, exactOps_eps, exactOps_neg, exactOps_lt]
    norm_num
  refine ⟨hnp, ?_⟩
  simp only [joinVector, Vector2Subtract_finVec, hnp, if_true, Vector2Length_finVec,
    exactOps_div _ _ _ hlb, finVec_x, finVec_y, exactOps_neg, exactOps_mul]
  rfl

/-- The straight-line part of C6 that the code satisfies: for three collinear points off a
vertical line (`a.x != 0`, `b.x != 0`, so `O` differs from `A` and `B`) the join takes the
near-parallel branch, `strip[2]` and `strip[3]` are `O + s` and `O - s` in one order or
the other, both at perpendicular distance `|t|/2` from the line through `O` and `B`, and
`CrossProduct(b, s)` is `(t/2)*|b|`, of the sign of `t`: opposite sides for `t != 0`. -/
theorem TriangulateLine_collinear_join (xa ya xo yo xb yb t : ℝ)
    (c0 c1 c2 c3 c4 c5 : Option (Vector2 (Fl ℝ))) (hax : xa - xo ≠ 0) (hbx : xb - xo ≠ 0)
    (hcol : (xa - xo) * (yb - yo) - (xb - xo) * (ya - yo) = 0) :
    ∃ (sx sy : ℝ) (out : Strip (Fl ℝ)),
      nearParallel (exactOps Real.sqrt)
        (Vector2Subtract (exactOps Real.sqrt) (finVec xa ya) (finVec xo yo))
        (Vector2Subtract (exactOps Real.sqrt) (finVec xb yb) (finVec xo yo)) = true ∧
      TriangulateLine (exactOps Real.sqrt) [finVec xa ya, finVec xo yo, finVec xb yb] 3
        (Fl.fin t) false [c0, c1, c2, c3, c4, c5] = some out ∧
      ((out[2]? = some (some (finVec (xo + sx) (yo + sy))) ∧
          out[3]? = some (some (finVec (xo - sx) (yo - sy)))) ∨
        (out[2]? = some (some (finVec (xo - sx) (yo - sy))) ∧
          out[3]? = some (some (finVec (xo + sx) (yo + sy))))) ∧
      perpDist Real.sqrt xo yo xb yb (xo + sx) (yo + sy) = |t| / 2 ∧
      perpDist Real.sqrt xo yo xb yb (xo - sx) (yo - sy) = |t| / 2 ∧
      (xb - xo) * sy - sx * (yb - yo)
        = (t / 2) * Real.sqrt ((xb - xo) * (xb - xo) + (yb - yo) * (yb - yo)) := by
  obtain ⟨hnp, hj⟩ := joinVector_collinear xa ya xo yo xb yb (t / 2) hax hbx hcol
  have hB : 0 < (xb - xo) * (xb - xo) + (yb - yo) * (yb - yo) := by
    have := mul_self_pos.mpr hbx
    have := mul_self_nonneg (yb - yo)
    linarith
  have hlb0 := Real.sqrt_pos.mpr hB
  have hlbb := Real.mul_self_sqrt hB.le
  obtain ⟨lb, hlb⟩ : ∃ lb, Real.sqrt ((xb - xo) * (xb - xo) + (yb - yo) * (yb - yo)) = lb :=
    ⟨_, rfl⟩
  rw [hlb] at hj hlb0 hlbb ⊢
  have hcross : (xb - xo) * ((xb - xo) * (t / 2 / lb)) - -(yb - yo) * (t / 2 / lb) * (yb - yo)
      = (t / 2) * lb := by
    field_simp; linear_combination (-2 * t) * hlbb
  have hdiv : (exactOps Real.sqrt).div (Fl.fin t) (exactOps Real.sqrt).two = Fl.fin (t / 2) :=
    exactOps_div _ _ _ two_ne_zero
  have hrun := TriangulateLine_three_open (exactOps Real.sqrt) (finVec xa ya) (finVec xo yo)
    (finVec xb yb) (Fl.fin t) c0 c1 c2 c3 c4 c5
  rw [hdiv] at hrun
  have hth : |t / 2 * lb| = |t| / 2 * lb := by
    rw [abs_mul, abs_div, abs_of_pos (by norm_num : (0 : ℝ) < 2), abs_of_pos hlb0]
  refine ⟨_, _, _, ?_, hrun, ?_, ?_, ?_, hcross⟩
  · rw [Vector2Subtract_finVec, Vector2Subtract_finVec]; exact hnp
  · unfold threeOpenJoin
    rw [hj, Vector2Add_finVec, Vector2Subtract_finVec]
    cases DoLinesIntersect (exactOps Real.sqrt) (finVec xa ya) (finVec xo yo)
      (FindPerpendiculars (exactOps Real.sqrt) (finVec xa ya) (finVec xo yo) (Fl.fin (t / 2))).1
      (finVec (xo + -(yb - yo) * (t / 2 / lb)) (yo + (xb - xo) * (t / 2 / lb)))
    · left; constructor <;> simp [orderedPair]
    · right; constructor <;> simp [orderedPair]
  · unfold perpDist
    rw [hlb, div_eq_iff hlb0.ne', ← hth, ← hcross]; congr 1; ring
  · unfold perpDist
    rw [hlb, div_eq_iff hlb0.ne', ← hth, ← hcross, ← abs_neg]; congr 1; ring

end Collinear

section Structure
variable {α : Type} (ops : FloatOps α)

theorem getElem?_append_of_eq_some {β : Type} (l t : List β) (i : Nat) (v : β)
    (h : l[i]? = some v) : (l ++ t)[i]? = some v := by
  have hlt : i < l.length := by
    by_contra hge
    rw [List.getElem?_eq_none (by omega)] at h
    exact absurd h (by simp)
  rw [List.getElem?_append_left hlt]; exact h

theorem JoinAt_append (points : List (Vector2 α)) (N : Nat) (thickness : α)
    (canon tail : List (Vector2 α)) (j : Nat) (h : JoinAt ops points N thickness canon j) :
    JoinAt ops points N thickness (canon ++ tail) j := by
  obtain ⟨A, O, B, hA, hO, hB, r, hr, h0, h1⟩ := h
  refine ⟨A, O, B, hA, hO, hB, r, ?_, getElem?_append_of_eq_some _ _ _ _ h0,
    getElem?_append_of_eq_some _ _ _ _ h1⟩
  by_cases hj : j = 0
  · rw [if_pos hj] at hr ⊢; exact hr
  · rw [if_neg hj] at hr ⊢
    obtain ⟨q, hq, hrq⟩ := hr
    exact ⟨q, getElem?_append_of_eq_some _ _ _ _ hq, hrq⟩

theorem readPoint_tmod_nat (points : List (Vector2 α)) (N k : Nat) (hN : 0 < N) :
    readPoint points (((k : Int) + 1).tmod (N : Int)) = points[(k + 1) % N]? := by
  have h0 : (0 : Int) ≤ (k : Int) + 1 := by omega
  rw [Int.tmod_eq_emod h0 (by omega)]
  have : ((k : Int) + 1) % (N : Int) = (((k + 1) % N : Nat) : Int) := by
    push_cast; rfl
  rw [this, readPoint_natCast]

theorem orderedPair_getElem (r : Bool) (p1 p2 : Vector2 α) (front tail : List (Vector2 α))
    (k : Nat) (hfront : front.length = 2 * k) :
    (front ++ orderedPair r p1 p2 ++ tail)[2 * k]? = some (if r then p2 else p1) ∧
    (front ++ orderedPair r p1 p2 ++ tail)[2 * k + 1]? = some (if r then p1 else p2) := by
  rw [List.append_assoc]
  constructor
  · rw [List.getElem?_append_right (by omega)]
    have : 2 * k - front.length = 0 := by omega
    rw [this]; cases r <;> rfl
  · rw [List.getElem?_append_right (by omega)]
    have : 2 * k + 1 - front.length = 1 := by omega
    rw [this]; cases r <;> simp [orderedPair]

/-- The first iteration of the main loop of a looping line (`i = 0`), with the explicit
pair it writes. -/
theorem loopBody_zero (points : List (Vector2 α)) (numPoints : Int) (thickness : α)
    (A O B last : Vector2 α)
    (hB : readPoint points ((((0 : Nat) : Int) + 1).tmod numPoints) = some B)
    (hl : readPoint points (numPoints - 1) = some last) (c0 c1 : Option (Vector2 α))
    (rest : Strip α) :
    loopBody ops points numPoints thickness ((0 : Nat) : Int) A O (c0 :: c1 :: rest)
      = some (O, B, (orderedPair
          (ops.lt ops.zero (CrossProduct ops (Vector2Subtract ops B O)
            (Vector2Subtract ops last O)))
          (Vector2Add ops O (joinVector ops thickness A O B))
          (Vector2Subtract ops O (joinVector ops thickness A O B))).map some ++ rest) := by
  have hw := fun r p1 p2 =>
    write_pair [] c0 c1 rest (2 * ((0 : Nat) : Int)) (by simp) r p1 p2
  simp only [Nat.cast_zero, mul_zero, zero_add, List.map_nil, List.nil_append] at hw hB
  simp only [loopBody, Nat.cast_zero, mul_zero, zero_add, hB, hl, Option.bind_eq_bind,
    Option.some_bind, ne_eq, not_true_eq_false, if_false, Option.map_some', Option.pure_def]
  exact bind_bind_some _ _ (fun s => (O, B, s)) _ (hw _ _ _)

/-- The main loop with the structure of its output: `m` iterations from index `k` write
`2m` vertices after the `2k` vertices of `front`, each pair as `JoinAt` says. -/
theorem mainLoop_structure (points : List (Vector2 α)) (N : Nat) (thickness : α) (hN : 0 < N)
    (hlen : N ≤ points.length) (m : Nat) :
    ∀ (k : Nat) (A O : Vector2 α) (front : List (Vector2 α)), front.length = 2 * k →
      k + m ≤ N → points[k % N]? = some O → points[(k + N - 1) % N]? = some A →
      ∃ (out : List (Vector2 α)) (A2 O2 : Vector2 α), out.length = 2 * m ∧
        points[(k + m) % N]? = some O2 ∧ points[(k + m + N - 1) % N]? = some A2 ∧
        (∀ (mid rest : Strip α), mid.length = 2 * m →
          mainLoop ops points (N : Int) thickness m (k : Int) A O
              (front.map some ++ (mid ++ rest))
            = some (A2, O2, (front ++ out).map some ++ rest)) ∧
        ∀ j, k ≤ j → j < k + m → JoinAt ops points N thickness (front ++ out) j := by
  induction m with
  | zero =>
    intro k A O front _ _ hO hA
    refine ⟨[], A, O, rfl, hO, hA, ?_, ?_⟩
    · intro mid rest hmid
      have : mid = [] := List.eq_nil_of_length_eq_zero (by simpa using hmid)
      subst this
      simp [mainLoop]
    · intro j h1 h2; omega
  | succ m ih =>
    intro k A O front hfront hkm hO hA
    have hkN : k < N := by omega
    have hBlt : (k + 1) % N < points.length :=
      lt_of_lt_of_le (Nat.mod_lt _ hN) hlen
    obtain ⟨B, hB⟩ : ∃ B, points[(k + 1) % N]? = some B :=
      ⟨points[(k + 1) % N], List.getElem?_eq_getElem hBlt⟩
    have hBr : readPoint points (((k : Int) + 1).tmod (N : Int)) = some B := by
      rw [readPoint_tmod_nat points N k hN]; exact hB
    -- the pair written by this iteration
    obtain ⟨r, hr, hbody⟩ : ∃ r : Bool,
        (if k = 0 then
          r = ops.lt ops.zero
            (CrossProduct ops (Vector2Subtract ops B O) (Vector2Subtract ops A O))
         else ∃ q, front[2 * k - 2]? = some q ∧
          r = DoLinesIntersect ops A O q
            (Vector2Add ops O (joinVector ops thickness A O B))) ∧
        ∀ c0 c1 rest, loopBody ops points (N : Int) thickness (k : Int) A O
            (front.map some ++ c0 :: c1 :: rest)
          = some (O, B, (front ++ orderedPair r
              (Vector2Add ops O (joinVector ops thickness A O B))
              (Vector2Subtract ops O (joinVector ops thickness A O B))).map some ++ rest) := by
      by_cases hk : k = 0
      · subst hk
        have hfn : front = [] := List.eq_nil_of_length_eq_zero (by omega)
        subst hfn
        have hl : readPoint points ((N : Int) - 1) = some A := by
          have h1 : (N : Int) - 1 = ((N - 1 : Nat) : Int) := by omega
          rw [h1, readPoint_natCast]
          have h2 : (0 + N - 1) % N = N - 1 := by
            rw [Nat.zero_add]; exact Nat.mod_eq_of_lt (by omega)
          rw [h2] at hA; exact hA
        refine ⟨_, by rw [if_pos rfl], ?_⟩
        intro c0 c1 rest
        exact loopBody_zero ops points (N : Int) thickness A O B A hBr hl c0 c1 rest
      · have hq : 2 * k - 2 < front.length := by omega
        refine ⟨_, by rw [if_neg hk]; exact ⟨front[2 * k - 2], List.getElem?_eq_getElem hq, rfl⟩,
          ?_⟩
        intro c0 c1 rest
        exact loopBody_succ ops points (N : Int) thickness k A O B _ front (by omega) hfront hBr
          (List.getElem?_eq_getElem hq) c0 c1 rest
    obtain ⟨p1, hp1⟩ : ∃ p1, Vector2Add ops O (joinVector ops thickness A O B) = p1 := ⟨_, rfl⟩
    obtain ⟨p2, hp2⟩ : ∃ p2, Vector2Subtract ops O (joinVector ops thickness A O B) = p2 :=
      ⟨_, rfl⟩
    have hA2 : points[(k + 1 + N - 1) % N]? = some O := by
      have h1 : k + 1 + N - 1 = k + N := by omega
      rw [h1, Nat.add_mod_right]; exact hO
    obtain ⟨out, A2, O2, hout, hO2, hA2', hloop, hjoin⟩ :=
      ih (k + 1) O B (front ++ orderedPair r p1 p2)
        (by rw [List.length_append, orderedPair_length, hfront]; ring) (by omega) hB hA2
    have hkk : k + (m + 1) = k + 1 + m := by omega
    refine ⟨orderedPair r p1 p2 ++ out, A2, O2,
      by rw [List.length_append, orderedPair_length, hout]; ring, by rw [hkk]; exact hO2,
      by rw [hkk]; exact hA2', ?_, ?_⟩
    · intro mid rest hmid
      match mid, hmid with
      | [], hmid => simp at hmid
      | [_], hmid => simp at hmid; omega
      | c0 :: c1 :: mid2, hmid =>
        have hmid2 : mid2.length = 2 * m := by simp at hmid; omega
        have hl := hloop mid2 rest hmid2
        rw [hp1, hp2] at hbody
        simp only [mainLoop, List.cons_append, hbody, Option.some_bind]
        rw [Nat.cast_add, Nat.cast_one] at hl
        rw [hl, List.append_assoc]
    · intro j hj1 hj2
      rw [← List.append_assoc]
      by_cases hjk : j = k
      · subst hjk
        apply JoinAt_append
        have hj0 : j % N = j := Nat.mod_eq_of_lt hkN
        obtain ⟨e0, e1⟩ := orderedPair_getElem r p1 p2 front [] j hfront
        rw [List.append_nil] at e0 e1
        refine ⟨A, O, B, hA, hO, hB, r, ?_, by rw [hp1, hp2]; exact e0,
          by rw [hp1, hp2]; exact e1⟩
        by_cases hk : j = 0
        · rw [if_pos hk] at hr ⊢; exact hr
        · rw [if_neg hk] at hr ⊢
          obtain ⟨q, hq, hrq⟩ := hr
          exact ⟨q, getElem?_append_of_eq_some _ _ _ _ hq, hrq⟩
      · exact hjoin j (by omega) (by omega)

/-- TriangulateLine on a looping line of `N >= 3` points, with the structure of its
output: every pair `j < N` is as `JoinAt` says and the last two vertices repeat the first
two. -/
theorem TriangulateLine_loop_structure (points : List (Vector2 α)) (N : Nat) (thickness : α)
    (hn : 3 ≤ N) (hlen : N ≤ points.length) :
    ∃ (out : List (Vector2 α)) (v0 v1 : Vector2 α), out.length = 2 * N ∧
      out[0]? = some v0 ∧ out[1]? = some v1 ∧
      (∀ (mid rest : Strip α), mid.length = 2 * N + 2 →
        TriangulateLine ops points (N : Int) thickness true (mid ++ rest)
          = some ((out ++ [v0, v1]).map some ++ rest)) ∧
      ∀ j, j < N → JoinAt ops points N (ops.div thickness ops.two) (out ++ [v0, v1]) j := by
  have hAlt : N - 1 < points.length := by omega
  have hOlt : 0 < points.length := by omega
  have hA : readPoint points ((N : Int) - 1) = some points[N - 1] := by
    have h1 : (N : Int) - 1 = ((N - 1 : Nat) : Int) := by omega
    rw [h1, readPoint_natCast, List.getElem?_eq_getElem hAlt]
  have hO : readPoint points 0 = some points[0] := by
    have := readPoint_natCast points 0
    rw [List.getElem?_eq_getElem hOlt] at this
    exact this
  obtain ⟨out, A2, O2, hout, -, -, hloop, hjoin⟩ :=
    mainLoop_structure ops points N (ops.div thickness ops.two) (by omega) hlen N 0
      points[N - 1] points[0] [] rfl (by omega)
      (by rw [Nat.zero_mod]; exact List.getElem?_eq_getElem hOlt)
      (by
        have h2 : (0 + N - 1) % N = N - 1 := by
          rw [Nat.zero_add]; exact Nat.mod_eq_of_lt (by omega)
        rw [h2]; exact List.getElem?_eq_getElem hAlt)
  have h0 : 0 < out.length := by omega
  have h1 : 1 < out.length := by omega
  refine ⟨out, out[0], out[1], hout, List.getElem?_eq_getElem h0, List.getElem?_eq_getElem h1,
    ?_, ?_⟩
  · intro mid rest hmid
    obtain ⟨mid2, d0, d1, hmid2, rfl⟩ := split_last_two mid N hmid
    have hl := hloop mid2 (d0 :: d1 :: rest) hmid2
    simp only [List.map_nil, List.nil_append, Nat.cast_zero] at hl
    have hN2 : ¬ ((N : Int) = 2) := by omega
    have hN3 : ¬ ((N : Int) ≠ 2 ∧ (N : Int) < 2) := by omega
    have hL : GetStripLength (N : Int) true - 2 = (out.length : Int) := by
      simp only [GetStripLength, boolToInt]
      rw [if_pos (by omega)]
      simp only [if_true]
      omega
    have hr0 := readStrip_frame out (d0 :: d1 :: rest) 0 h0
    have hw0 := writeStrip_frame0 out d0 (d1 :: rest) out[0]
    have hr1 := readStrip_frame (out ++ [out[0]]) (d1 :: rest) 1 (by simp; omega)
    have hw1 := writeStrip_frame0 (out ++ [out[0]]) d1 rest out[1]
    rw [List.getElem?_eq_getElem h0] at hr0
    rw [List.getElem?_append_left h1, List.getElem?_eq_getElem h1] at hr1
    simp only [List.length_append, List.length_singleton, Nat.cast_add, Nat.cast_one] at hw1
    simp only [Nat.cast_zero, Nat.cast_one] at hr0 hr1
    simp only [TriangulateLine, hN3, if_false, hN2, if_true, hA, hO, Option.bind_eq_bind,
      Option.some_bind, Option.pure_def, boolToInt, Bool.not_true, Bool.false_eq_true, sub_zero,
      Int.toNat_ofNat, List.append_assoc, List.cons_append, List.nil_append, hl, hL, add_zero,
      hr0, hw0, hr1, hw1]
  · intro j hj
    have := hjoin j (by omega) (by omega)
    rw [List.nil_append] at this
    exact JoinAt_append ops points N _ out [out[0], out[1]] j this

/-- TriangulateLine on an open line of `N >= 2` points (or on two points with any `loop`),
with the structure of its output: the start cap, a pair as `JoinAt` says for every interior
point, and the cap at the last point as `CapAt` says. -/
theorem TriangulateLine_open_structure (points : List (Vector2 α)) (N : Nat) (thickness : α)
    (loop : Bool) (hn : 2 ≤ N) (hlen : N ≤ points.length) (hloop : N = 2 ∨ loop = false) :
    ∃ (canon : List (Vector2 α)) (A O : Vector2 α), canon.length = 2 * N ∧
      (∀ (mid rest : Strip α), mid.length = 2 * N →
        TriangulateLine ops points (N : Int) thickness loop (mid ++ rest)
          = some (canon.map some ++ rest)) ∧
      points[0]? = some A ∧ points[1]? = some O ∧
      canon[0]? = some (FindPerpendiculars ops A O (ops.div thickness ops.two)).1 ∧
      canon[1]? = some (FindPerpendiculars ops A O (ops.div thickness ops.two)).2 ∧
      (∀ j, 1 ≤ j → j + 1 < N → JoinAt ops points N (ops.div thickness ops.two) canon j) ∧
      CapAt ops points N (ops.div thickness ops.two) canon := by
  have h0lt : 0 < points.length := by omega
  have h1lt : 1 < points.length := by omega
  have hclt : N - 1 < points.length := by omega
  have hdlt : N - 2 < points.length := by omega
  obtain ⟨A, hA0⟩ : ∃ A, points[0]? = some A := ⟨_, List.getElem?_eq_getElem h0lt⟩
  obtain ⟨O, hO0⟩ : ∃ O, points[1]? = some O := ⟨_, List.getElem?_eq_getElem h1lt⟩
  obtain ⟨c, hc0⟩ : ∃ c, points[N - 1]? = some c := ⟨_, List.getElem?_eq_getElem hclt⟩
  obtain ⟨d, hd0⟩ : ∃ d, points[N - 2]? = some d := ⟨_, List.getElem?_eq_getElem hdlt⟩
  have hA : readPoint points 0 = some A := by
    have := readPoint_natCast points 0; rw [hA0] at this; exact this
  have hO : readPoint points 1 = some O := by
    have := readPoint_natCast points 1; rw [hO0] at this; exact this
  have hc : readPoint points ((N : Int) - 1) = some c := by
    have h1 : (N : Int) - 1 = ((N - 1 : Nat) : Int) := by omega
    rw [h1, readPoint_natCast]; exact hc0
  have hd : readPoint points ((N : Int) - 2) = some d := by
    have h1 : (N : Int) - 2 = ((N - 2 : Nat) : Int) := by omega
    rw [h1, readPoint_natCast]; exact hd0
  have heff : (if (N : Int) = 2 then false else loop) = false := by
    rcases hloop with h | h
    · simp [h]
    · simp [h]
  obtain ⟨fr, fl, hfp⟩ : ∃ fr fl,
    FindPerpendiculars ops A O (ops.div thickness ops.two) = (fr, fl) := ⟨_, _, rfl⟩
  obtain ⟨p1, p2, hfq⟩ : ∃ p1 p2,
    FindPerpendiculars ops c d (ops.div thickness ops.two) = (p1, p2) := ⟨_, _, rfl⟩
  obtain ⟨out, A2, O2, hout, hO2, hA2, hmain, hjoin⟩ :=
    mainLoop_structure ops points N (ops.div thickness ops.two) (by omega) hlen (N - 2) 1
      A O [fr, fl] rfl (by omega)
      (by rw [Nat.mod_eq_of_lt (by omega)]; exact hO0)
      (by
        have h2 : (1 + N - 1) % N = 0 := by
          have : 1 + N - 1 = N := by omega
          rw [this, Nat.mod_self]
        rw [h2]; exact hA0)
  have hO2c : O2 = c := by
    have h2 : (1 + (N - 2)) % N = N - 1 := by
      have : 1 + (N - 2) = N - 1 := by omega
      rw [this]; exact Nat.mod_eq_of_lt (by omega)
    rw [h2, hc0] at hO2; exact (Option.some.inj hO2).symm
  have hA2d : A2 = d := by
    have h2 : (1 + (N - 2) + N - 1) % N = N - 2 := by
      have : 1 + (N - 2) + N - 1 = N - 2 + N := by omega
      rw [this, Nat.add_mod_right]; exact Nat.mod_eq_of_lt (by omega)
    rw [h2, hd0] at hA2; exact (Option.some.inj hA2).symm
  subst hO2c hA2d
  have hlen2 : ([fr, fl] ++ out).length = 2 * N - 2 := by
    rw [List.length_append, hout]; simp; omega
  have hq : 2 * N - 4 < ([fr, fl] ++ out).length := by omega
  obtain ⟨q, hq0⟩ : ∃ q, ([fr, fl] ++ out)[2 * N - 4]? = some q :=
    ⟨_, List.getElem?_eq_getElem hq⟩
  obtain ⟨e0, e1⟩ := orderedPair_getElem (DoLinesIntersect ops A2 O2 q p1) p1 p2
    ([fr, fl] ++ out) [] (N - 1) (by rw [hlen2]; omega)
  rw [List.append_nil] at e0 e1
  refine ⟨[fr, fl] ++ out ++ orderedPair (DoLinesIntersect ops A2 O2 q p1) p1 p2, A, O, ?_, ?_,
    hA0, hO0, ?_, ?_, ?_, ?_⟩
  · rw [List.length_append, orderedPair_length]; omega
  · intro mid rest hmid
    match mid, hmid with
    | [], hmid => simp at hmid; omega
    | [_], hmid => simp at hmid; omega
    | c0 :: c1 :: mid1, hmid =>
      have hmid1 : mid1.length = 2 * (N - 2) + 2 := by simp at hmid; omega
      obtain ⟨mid2, d0, d1, hmid2, rfl⟩ := split_last_two mid1 (N - 2) hmid1
      have hl := hmain mid2 (d0 :: d1 :: rest) hmid2
      have hN3 : ¬ ((N : Int) ≠ 2 ∧ (N : Int) < 2) := by omega
      have hL : GetStripLength (N : Int) false - 2 = 2 * (N : Int) - 2 := by
        unfold GetStripLength boolToInt
        by_cases h : (N : Int) > 2
        · rw [if_pos h]; simp
        · have h2 : (N : Int) = 2 := by omega
          rw [if_neg h, if_pos h2]; omega
      have hw1 := writeStrip_frame1 [] c0 c1 (mid2 ++ d0 :: d1 :: rest) fl
      have hw0 := writeStrip_frame0 [] c0 (some fl :: (mid2 ++ d0 :: d1 :: rest)) fr
      simp only [List.length_nil, Nat.cast_zero, zero_add, List.map_nil, List.nil_append,
        List.map_append, List.map_cons] at hw1 hw0
      have hcnt : ((N : Int) - 1 - 1).toNat = N - 2 := by omega
      have hr := readStrip_frame ([fr, fl] ++ out) (d0 :: d1 :: rest) (2 * N - 4) hq
      have hidx : ((2 * N - 4 : Nat) : Int) = 2 * (N : Int) - 2 - 2 := by omega
      rw [hidx, hq0] at hr
      have hwp := write_pair ([fr, fl] ++ out) d0 d1 rest (2 * (N : Int) - 2)
        (by rw [hlen2]; omega) (DoLinesIntersect ops A2 O2 q p1) p1 p2
      simp only [Nat.cast_one] at hl
      simp only [TriangulateLine, hN3, if_false, heff, hA, hO, hc, hd, Option.bind_eq_bind,
        Option.some_bind, Option.pure_def, boolToInt, Bool.not_false, if_true,
        List.cons_append, List.append_assoc, List.nil_append, hfp, hfq, hw1, hw0, hcnt,
        Bool.false_eq_true, hL]
      simp only [List.map_cons, List.map_nil, List.cons_append, List.nil_append,
        List.append_assoc, List.singleton_append, List.map_append] at hl hr hwp ⊢
      simp only [hl, Option.some_bind, hr]
      simp only [boolToInt] at hwp
      exact hwp
  · rw [hfp]; simp
  · rw [hfp]; simp
  · intro j hj1 hj2
    exact JoinAt_append ops points N _ _ _ j (hjoin j hj1 (by omega))
  · refine ⟨A2, O2, q, hd0, hc0, getElem?_append_of_eq_some _ _ _ _ hq0, ?_, ?_⟩
    · rw [hfq]
      have : 2 * N - 2 = 2 * (N - 1) := by omega
      rw [this]; exact e0
    · rw [hfq]
      have : 2 * N - 1 = 2 * (N - 1) + 1 := by omega
      rw [this]; exact e1

end Structure

section Utils

/-- C11 (as amended): in exact arithmetic on finite points, DoLinesIntersect returns true
exactly when one and only one of `b1`, `b2` is strictly on the positive side of the line
through `a1`, `a2` (`CrossProduct(a, b - a1) > 0`) and one and only one of `a1`, `a2` is
strictly on the positive side of the line through `b1`, `b2`.  So it returns true for every
proper crossing (the two cross products of each pair have strictly opposite signs) and
false when both `b1` and `b2` lie on the line through `a1`, `a2`; an endpoint on the
other line counts as being on the non-positive side. -/
theorem DoLinesIntersect_iff {F : Type} [LinearOrderedField F] (sq : F → F)
    (a1x a1y a2x a2y b1x b1y b2x b2y : F) :
    (DoLinesIntersect (exactOps sq) (finVec a1x a1y) (finVec a2x a2y) (finVec b1x b1y)
        (finVec b2x b2y) = true ↔
      ((0 < (a2x - a1x) * (b1y - a1y) - (b1x - a1x) * (a2y - a1y)) ↔
        ¬ (0 < (a2x - a1x) * (b2y - a1y) - (b2x - a1x) * (a2y - a1y))) ∧
      ((0 < (b2x - b1x) * (a1y - b1y) - (a1x - b1x) * (b2y - b1y)) ↔
        ¬ (0 < (b2x - b1x) * (a2y - b1y) - (a2x - b1x) * (b2y - b1y)))) ∧
    (((a2x - a1x) * (b1y - a1y) - (b1x - a1x) * (a2y - a1y))
        * ((a2x - a1x) * (b2y - a1y) - (b2x - a1x) * (a2y - a1y)) < 0 ∧
      ((b2x - b1x) * (a1y - b1y) - (a1x - b1x) * (b2y - b1y))
        * ((b2x - b1x) * (a2y - b1y) - (a2x - b1x) * (b2y - b1y)) < 0 →
      DoLinesIntersect (exactOps sq) (finVec a1x a1y) (finVec a2x a2y) (finVec b1x b1y)
        (finVec b2x b2y) = true) ∧
    ((a2x - a1x) * (b1y - a1y) - (b1x - a1x) * (a2y - a1y) = 0 ∧
      (a2x - a1x) * (b2y - a1y) - (b2x - a1x) * (a2y - a1y) = 0 →
      DoLinesIntersect (exactOps sq) (finVec a1x a1y) (finVec a2x a2y) (finVec b1x b1y)
        (finVec b2x b2y) = false) := by
  rw [DoLinesIntersect_finVec]
  generalize (a2x - a1x) * (b1y - a1y) - (b1x - a1x) * (a2y - a1y) = c1
  generalize (a2x - a1x) * (b2y - a1y) - (b2x - a1x) * (a2y - a1y) = c2
  generalize (b2x - b1x) * (a1y - b1y) - (a1x - b1x) * (b2y - b1y) = c3
  generalize (b2x - b1x) * (a2y - b1y) - (a2x - b1x) * (b2y - b1y) = c4
  have hx : ∀ u v : F, (xor (decide (0 < u)) (decide (0 < v)) = true) ↔ ((0 < u) ↔ ¬ (0 < v)) := by
    intro u v
    by_cases hu : 0 < u <;> by_cases hv : 0 < v <;> simp [hu, hv]
  have hopp : ∀ u v : F, u * v < 0 → ((0 < u) ↔ ¬ (0 < v)) := by
    intro u v huv
    rcases mul_neg_iff.mp huv with ⟨h1, h2⟩ | ⟨h1, h2⟩
    · exact ⟨fun _ => not_lt.mpr h2.le, fun _ => h1⟩
    · exact ⟨fun h => absurd h (not_lt.mpr h1.le), fun h => absurd h2 h⟩
  refine ⟨?_, ?_, ?_⟩
  · rw [Bool.and_eq_true, hx, hx]
  · rintro ⟨h12, h34⟩
    rw [Bool.and_eq_true, hx, hx]
    exact ⟨hopp _ _ h12, hopp _ _ h34⟩
  · rintro ⟨h1, h2⟩
    simp [h1, h2]

/-- C11 (counterexample): the segment from (5,0) to (5,5) touches the segment from (0,0)
to (10,0) (its endpoint (5,0) lies on it) and DoLinesIntersect returns true. -/
theorem DoLinesIntersect_touching :
    DoLinesIntersect (exactOps Real.sqrt) (finVec 0 0) (finVec 10 0) (finVec 5 0) (finVec 5 5)
      = true := by
  rw [DoLinesIntersect_finVec]
  norm_num

/-- C12: in exact real arithmetic, for `dir != center`, FindPerpendiculars returns
`left = center + perp_len*(-v.y, v.x)/|v|` and `right = center + perp_len*(v.y, -v.x)/|v|`
with `v = dir - center`; both are at distance `|perp_len|` from `center`, both offsets are
orthogonal to `v`, `center` is the midpoint of `left` and `right`, and for `perp_len > 0`
`CrossProduct(v, left - center) > 0 > CrossProduct(v, right - center)`. -/
theorem FindPerpendiculars_spec (cx cy dx dy p : ℝ) (hne : cx ≠ dx ∨ cy ≠ dy) :
    ∃ rx ry lx ly : ℝ,
      FindPerpendiculars (exactOps Real.sqrt) (finVec cx cy) (finVec dx dy) (Fl.fin p)
        = (finVec rx ry, finVec lx ly) ∧
      lx = cx + p * (-(dy - cy)) / Real.sqrt ((dx - cx) * (dx - cx) + (dy - cy) * (dy - cy)) ∧
      ly = cy + p * (dx - cx) / Real.sqrt ((dx - cx) * (dx - cx) + (dy - cy) * (dy - cy)) ∧
      rx = cx + p * (dy - cy) / Real.sqrt ((dx - cx) * (dx - cx) + (dy - cy) * (dy - cy)) ∧
      ry = cy + p * (-(dx - cx)) / Real.sqrt ((dx - cx) * (dx - cx) + (dy - cy) * (dy - cy)) ∧
      Real.sqrt ((lx - cx) * (lx - cx) + (ly - cy) * (ly - cy)) = |p| ∧
      Real.sqrt ((rx - cx) * (rx - cx) + (ry - cy) * (ry - cy)) = |p| ∧
      (lx - cx) * (dx - cx) + (ly - cy) * (dy - cy) = 0 ∧
      (rx - cx) * (dx - cx) + (ry - cy) * (dy - cy) = 0 ∧
      lx + rx = 2 * cx ∧ ly + ry = 2 * cy ∧
      (0 < p → 0 < (dx - cx) * (ly - cy) - (lx - cx) * (dy - cy) ∧
        (dx - cx) * (ry - cy) - (rx - cx) * (dy - cy) < 0) := by
  have hpos := sq_dist_pos cx cy dx dy hne
  have hLpos := Real.sqrt_pos.mpr hpos
  have hLL := Real.mul_self_sqrt hpos.le
  obtain ⟨len, hlen⟩ : ∃ len, Real.sqrt ((dx - cx) * (dx - cx) + (dy - cy) * (dy - cy)) = len :=
    ⟨_, rfl⟩
  rw [hlen] at hLpos hLL ⊢
  have hfp := FindPerpendiculars_finVec Real.sqrt cx cy dx dy p len hlen hLpos.ne'
  have hsq : ∀ u v : ℝ, u * u + v * v = p * p → Real.sqrt (u * u + v * v) = |p| := by
    intro u v h
    rw [h, ← pow_two, Real.sqrt_sq_eq_abs]
  refine ⟨_, _, _, _, hfp, by ring, by ring, by ring, by ring, ?_, ?_, by ring, by ring,
    by ring, by ring, ?_⟩
  · apply hsq
    field_simp
    linear_combination (-(p * p)) * hLL
  · apply hsq
    field_simp
    linear_combination (-(p * p)) * hLL
  · intro hp
    have hk : 0 < p / len := div_pos hp hLpos
    constructor
    · have : (dx - cx) * (cy + (dx - cx) * (p / len) - cy)
          - (cx + (cy - dy) * (p / len) - cx) * (dy - cy)
          = (p / len) * ((dx - cx) * (dx - cx) + (dy - cy) * (dy - cy)) := by ring
      rw [this]; exact mul_pos hk hpos
    · have : (dx - cx) * (cy + (cx - dx) * (p / len) - cy)
          - (cx + (dy - cy) * (p / len) - cx) * (dy - cy)
          = -((p / len) * ((dx - cx) * (dx - cx) + (dy - cy) * (dy - cy))) := by ring
      rw [this]; exact neg_neg_of_pos (mul_pos hk hpos)

/-- Witness of C12: the centre (0,0), the direction (10,0), `perp_len = 2`. -/
theorem FindPerpendiculars_spec_witness :
    ∃ rx ry lx ly : ℝ,
      FindPerpendiculars (exactOps Real.sqrt) (finVec 0 0) (finVec 10 0) (Fl.fin 2)
        = (finVec rx ry, finVec lx ly) ∧
      lx = 0 + 2 * (-(0 - 0)) / Real.sqrt ((10 - 0) * (10 - 0) + (0 - 0) * (0 - 0)) ∧
      ly = 0 + 2 * (10 - 0) / Real.sqrt ((10 - 0) * (10 - 0) + (0 - 0) * (0 - 0)) ∧
      rx = 0 + 2 * (0 - 0) / Real.sqrt ((10 - 0) * (10 - 0) + (0 - 0) * (0 - 0)) ∧
      ry = 0 + 2 * (-(10 - 0)) / Real.sqrt ((10 - 0) * (10 - 0) + (0 - 0) * (0 - 0)) ∧
      Real.sqrt ((lx - 0) * (lx - 0) + (ly - 0) * (ly - 0)) = |(2 : ℝ)| ∧
      Real.sqrt ((rx - 0) * (rx - 0) + (ry - 0) * (ry - 0)) = |(2 : ℝ)| ∧
      (lx - 0) * (10 - 0) + (ly - 0) * (0 - 0) = 0 ∧
      (rx - 0) * (10 - 0) + (ry - 0) * (0 - 0) = 0 ∧
      lx + rx = 2 * 0 ∧ ly + ry = 2 * 0 ∧
      ((0 : ℝ) < 2 → 0 < (10 - 0) * (ly - 0) - (lx - 0) * (0 - 0) ∧
        (10 - 0) * (ry - 0) - (rx - 0) * (0 - 0) < 0) :=
  FindPerpendiculars_spec 0 0 10 0 2 (Or.inl (by norm_num))

end Utils

section FirstPair
variable {α : Type} (ops : FloatOps α)

/-- C16 (as amended): in TriangulateLine, for every polyline with at least 3 points,
when `loop` is set the first visited vertex is `points[0]` and its pair is ordered by the
sign of `CrossProduct(b, last - O)` (`O + s` takes the higher slot `strip[1]` exactly when
it is `> 0`), and every later visited vertex is ordered by the segment-intersection test
(`JoinAt` for `j >= 1`); when `loop` is not set the first visited vertex is `points[1]` and
its pair, like the pair of every later visited vertex, is ordered by the
segment-intersection test against the previous pair (`O + s` takes the higher slot
`strip[3]` exactly when `DoLinesIntersect(A, O, strip[0], O + s)`), the cross product is
not consulted. -/
theorem TriangulateLine_pair_order (points : List (Vector2 α)) (N : Nat) (thickness : α)
    (loop : Bool) (hn : 3 ≤ N) (hlen : N ≤ points.length) :
    ∃ (canon : List (Vector2 α)) (P0 P1 P2 last : Vector2 α),
      (canon.length : Int) = GetStripLength (N : Int) loop ∧
      (∀ (mid rest : Strip α), mid.length = canon.length →
        TriangulateLine ops points (N : Int) thickness loop (mid ++ rest)
          = some (canon.map some ++ rest)) ∧
      points[0]? = some P0 ∧ points[1]? = some P1 ∧ points[2]? = some P2 ∧
      points[N - 1]? = some last ∧
      (loop = true →
        canon[1]? = some
          (if ops.lt ops.zero (CrossProduct ops (Vector2Subtract ops P1 P0)
              (Vector2Subtract ops last P0)) = true then
            Vector2Add ops P0 (joinVector ops (ops.div thickness ops.two) last P0 P1)
          else Vector2Subtract ops P0 (joinVector ops (ops.div thickness ops.two) last P0 P1)) ∧
        canon[0]? = some
          (if ops.lt ops.zero (CrossProduct ops (Vector2Subtract ops P1 P0)
              (Vector2Subtract ops last P0)) = true then
            Vector2Subtract ops P0 (joinVector ops (ops.div thickness ops.two) last P0 P1)
          else Vector2Add ops P0 (joinVector ops (ops.div thickness ops.two) last P0 P1)) ∧
        ∀ j, 1 ≤ j → j < N → JoinAt ops points N (ops.div thickness ops.two) canon j) ∧
      (loop = false →
        ∃ q, canon[0]? = some q ∧
        canon[3]? = some
          (if DoLinesIntersect ops P0 P1 q
              (Vector2Add ops P1 (joinVector ops (ops.div thickness ops.two) P0 P1 P2)) = true then
            Vector2Add ops P1 (joinVector ops (ops.div thickness ops.two) P0 P1 P2)
          else Vector2Subtract ops P1 (joinVector ops (ops.div thickness ops.two) P0 P1 P2)) ∧
        canon[2]? = some
          (if DoLinesIntersect ops P0 P1 q
              (Vector2Add ops P1 (joinVector ops (ops.div thickness ops.two) P0 P1 P2)) = true then
            Vector2Subtract ops P1 (joinVector ops (ops.div thickness ops.two) P0 P1 P2)
          else Vector2Add ops P1 (joinVector ops (ops.div thickness ops.two) P0 P1 P2)) ∧
        ∀ j, 1 ≤ j → j + 1 < N → JoinAt ops points N (ops.div thickness ops.two) canon j) := by
  have h0 : points[0]? = some points[0] := List.getElem?_eq_getElem (by omega)
  have h1 : points[1]? = some points[1] := List.getElem?_eq_getElem (by omega)
  have h2 : points[2]? = some points[2] := List.getElem?_eq_getElem (by omega)
  have hl : points[N - 1]? = some points[N - 1] := List.getElem?_eq_getElem (by omega)
  have hm0 : 0 % N = 0 := Nat.zero_mod N
  have hm1 : 1 % N = 1 := Nat.mod_eq_of_lt (by omega)
  have hm2 : 2 % N = 2 := Nat.mod_eq_of_lt (by omega)
  have hmN : (0 + N - 1) % N = N - 1 := by
    rw [Nat.zero_add]; exact Nat.mod_eq_of_lt (by omega)
  have hmN1 : (1 + N - 1) % N = 0 := by
    have : 1 + N - 1 = N := by omega
    rw [this, Nat.mod_self]
  cases loop with
  | true =>
    obtain ⟨out, v0, v1, hout, -, -, hrun, hjoin⟩ :=
      TriangulateLine_loop_structure ops points N thickness hn hlen
    refine ⟨out ++ [v0, v1], _, _, _, _, ?_, ?_, h0, h1, h2, hl, ?_, ?_⟩
    · have := GetStripLength_of_two_le (N : Int) true (by omega)
      simp only [List.length_append, hout, List.length_cons, List.length_nil]
      simp only [GetStripLength, boolToInt]
      rw [if_pos (by omega)]
      simp only [if_true]
      push_cast
      ring
    · intro mid rest hmid
      exact hrun mid rest (by rw [hmid]; simp [hout])
    · intro _
      obtain ⟨A, O, B, hA, hO, hB, r, hr, hc0, hc1⟩ := hjoin 0 (by omega)
      rw [hmN, hl] at hA
      rw [hm0, h0] at hO
      rw [Nat.zero_add, hm1, h1] at hB
      cases Option.some.inj hA
      cases Option.some.inj hO
      cases Option.some.inj hB
      simp only [if_true] at hr
      subst hr
      refine ⟨hc1, hc0, ?_⟩
      intro j _ hj
      exact hjoin j hj
    · intro h; cases h
  | false =>
    obtain ⟨canon, A, O, hcl, hrun, hA, hO, hc0, -, hjoin, -⟩ :=
      TriangulateLine_open_structure ops points N thickness false (by omega) hlen (Or.inr rfl)
    refine ⟨canon, _, _, _, _, ?_, ?_, h0, h1, h2, hl, ?_, ?_⟩
    · rw [hcl]
      simp only [GetStripLength, boolToInt]
      rw [if_pos (by omega)]
      simp
    · intro mid rest hmid
      exact hrun mid rest (by rw [hmid, hcl])
    · intro h; cases h
    · intro _
      obtain ⟨A1, O1, B1, hA1, hO1, hB1, r, hr, hc2, hc3⟩ := hjoin 1 (le_refl 1) (by omega)
      rw [hmN1, h0] at hA1
      rw [hm1, h1] at hO1
      rw [hm2, h2] at hB1
      cases Option.some.inj hA1
      cases Option.some.inj hO1
      cases Option.some.inj hB1
      simp only [one_ne_zero, if_false] at hr
      obtain ⟨q, hq, hrq⟩ := hr
      subst hrq
      exact ⟨q, hq, hc3, hc2, hjoin⟩

end FirstPair

section FirstPairWitness

/-- Witness of C16: the closed triangle (0,0), (10,0), (10,10) of thickness 4. -/
theorem TriangulateLine_pair_order_witness :
    ∃ (canon : List (Vector2 (Fl ℚ))) (P0 P1 P2 last : Vector2 (Fl ℚ)),
      (canon.length : Int) = GetStripLength ((3 : Nat) : Int) true ∧
      (∀ (mid rest : Strip (Fl ℚ)), mid.length = canon.length →
        TriangulateLine (exactOps Rat.sqrt) sampleLine.points ((3 : Nat) : Int) (Fl.fin 4) true
          (mid ++ rest) = some (canon.map some ++ rest)) ∧
      sampleLine.points[0]? = some P0 ∧ sampleLine.points[1]? = some P1 ∧
      sampleLine.points[2]? = some P2 ∧ sampleLine.points[3 - 1]? = some last ∧
      canon[1]? = some
        (if (exactOps Rat.sqrt).lt (exactOps Rat.sqrt).zero
            (CrossProduct (exactOps Rat.sqrt) (Vector2Subtract (exactOps Rat.sqrt) P1 P0)
              (Vector2Subtract (exactOps Rat.sqrt) last P0)) = true then
          Vector2Add (exactOps Rat.sqrt) P0 (joinVector (exactOps Rat.sqrt)
            ((exactOps Rat.sqrt).div (Fl.fin 4) (exactOps Rat.sqrt).two) last P0 P1)
        else Vector2Subtract (exactOps Rat.sqrt) P0 (joinVector (exactOps Rat.sqrt)
          ((exactOps Rat.sqrt).div (Fl.fin 4) (exactOps Rat.sqrt).two) last P0 P1)) := by
  obtain ⟨canon, P0, P1, P2, last, h1, h2, h3, h4, h5, h6, h7, -⟩ :=
    TriangulateLine_pair_order (exactOps Rat.sqrt) sampleLine.points 3 (Fl.fin 4) true
      (by decide) (by decide)
  exact ⟨canon, P0, P1, P2, last, h1, h2, h3, h4, h5, h6, (h7 rfl).1⟩

end FirstPairWitness

section FirstPairExample

/-- The join vector at (10,0) of the straight line (0,0), (10,0), (20,0) for the half
thickness 2: the near-parallel branch gives (0,2). -/
theorem straightLine_joinVector :
    joinVector (exactOps Real.sqrt) (Fl.fin 2) (finVec 0 0) (finVec 10 0) (finVec 20 0)
      = finVec 0 2 := by
  have hs : Real.sqrt ((20 - 10) * (20 - 10) + (0 - 0) * (0 - 0)) = 10 := by
    rw [show ((20 : ℝ) - 10) * (20 - 10) + (0 - 0) * (0 - 0) = 100 by norm_num]
    exact sqrt_hundred
  rw [(joinVector_collinear 0 0 10 0 20 0 2 (by norm_num) (by norm_num) (by norm_num)).2, hs]
  norm_num

/-- TriangulateLine on the open straight line (0,0), (10,0), (20,0) of thickness 4: the
strip is (0,-2), (0,2), (10,-2), (10,2), (20,-2), (20,2). -/
theorem straightLine_strip :
    TriangulateLine (exactOps Real.sqrt) [finVec 0 0, finVec 10 0, finVec 20 0] 3
        (Fl.fin 4) false (RL_MALLOC (Fl ℝ) 6)
      = some ([finVec 0 (-2), finVec 0 2, finVec 10 (-2), finVec 10 2, finVec 20 (-2),
          finVec 20 2].map some) := by
  have hs0 : Real.sqrt ((10 - 0) * (10 - 0) + (0 - 0) * (0 - 0)) = 10 := by
    rw [show ((10 : ℝ) - 0) * (10 - 0) + (0 - 0) * (0 - 0) = 100 by norm_num]
    exact sqrt_hundred
  have hs1 : Real.sqrt ((10 - 20) * (10 - 20) + (0 - 0) * (0 - 0)) = 10 := by
    rw [show ((10 : ℝ) - 20) * (10 - 20) + (0 - 0) * (0 - 0) = 100 by norm_num]
    exact sqrt_hundred
  have hfp1 : FindPerpendiculars (exactOps Real.sqrt) (finVec 0 0) (finVec 10 0) (Fl.fin 2)
      = (finVec 0 (-2), finVec 0 2) := by
    rw [FindPerpendiculars_finVec Real.sqrt 0 0 10 0 2 10 hs0 (by norm_num)]
    norm_num
  have hfp2 : FindPerpendiculars (exactOps Real.sqrt) (finVec 20 0) (finVec 10 0) (Fl.fin 2)
      = (finVec 20 2, finVec 20 (-2)) := by
    rw [FindPerpendiculars_finVec Real.sqrt 20 0 10 0 2 10 hs1 (by norm_num)]
    norm_num
  have hdiv : (exactOps Real.sqrt).div (Fl.fin 4) (exactOps Real.sqrt).two = Fl.fin (2 : ℝ) := by
    rw [exactOps_two, exactOps_div _ _ _ two_ne_zero]; norm_num
  have hadd : Vector2Add (exactOps Real.sqrt) (finVec 10 0) (finVec (0 : ℝ) 2) = finVec 10 2 := by
    rw [Vector2Add_finVec]; norm_num
  have hsub : Vector2Subtract (exactOps Real.sqrt) (finVec 10 0) (finVec (0 : ℝ) 2)
      = finVec 10 (-2) := by
    rw [Vector2Subtract_finVec]; norm_num
  have hr1 : DoLinesIntersect (exactOps Real.sqrt) (finVec 0 0) (finVec 10 0) (finVec 0 (-2))
      (finVec 10 2) = true := by
    rw [DoLinesIntersect_finVec]; norm_num
  have hr2 : DoLinesIntersect (exactOps Real.sqrt) (finVec 10 0) (finVec 20 0)
      (finVec 10 (-2)) (finVec 20 2) = true := by
    rw [DoLinesIntersect_finVec]; norm_num
  have hrun := TriangulateLine_three_open (exactOps Real.sqrt) (finVec 0 0) (finVec 10 0)
    (finVec 20 0) (Fl.fin 4) none none none none none none
  rw [hdiv] at hrun
  unfold threeOpenJoin at hrun
  rw [straightLine_joinVector, hadd, hsub, hfp1, hfp2] at hrun
  simp only [hr1, orderedPair, if_true, List.headD_cons, hr2] at hrun
  exact hrun

/-- C16 (counterexample): on the open straight line (0,0), (10,0), (20,0) of thickness 4
the first visited vertex is `O = (10,0)`; `CrossProduct(b, last - O)` is 0, not `> 0`, and
yet `O + s = (10,2)` takes the higher slot `strip[3]` of its pair (`O - s = (10,-2)` is in
`strip[2]`): the pair is ordered by the intersection test, not by the cross product. -/
theorem TriangulateLine_open_first_pair :
    (exactOps Real.sqrt).lt (exactOps Real.sqrt).zero
        (CrossProduct (exactOps Real.sqrt)
          (Vector2Subtract (exactOps Real.sqrt) (finVec 20 0) (finVec 10 0))
          (Vector2Subtract (exactOps Real.sqrt) (finVec 20 0) (finVec 10 0))) = false ∧
      Vector2Add (exactOps Real.sqrt) (finVec 10 0)
        (joinVector (exactOps Real.sqrt) (Fl.fin 2) (finVec 0 0) (finVec 10 0) (finVec 20 0))
        = finVec 10 2 ∧
      Vector2Subtract (exactOps Real.sqrt) (finVec 10 0)
        (joinVector (exactOps Real.sqrt) (Fl.fin 2) (finVec 0 0) (finVec 10 0) (finVec 20 0))
        = finVec 10 (-2) ∧
      ∃ out : Strip (Fl ℝ),
        TriangulateLine (exactOps Real.sqrt) [finVec 0 0, finVec 10 0, finVec 20 0] 3
          (Fl.fin 4) false (RL_MALLOC (Fl ℝ) 6) = some out ∧
        out[2]? = some (some (finVec (10 : ℝ) (-2))) ∧
        out[3]? = some (some (finVec (10 : ℝ) 2)) := by
  refine ⟨?_, ?_, ?_, _, straightLine_strip, by simp, by simp⟩
  · rw [Vector2Subtract_finVec, CrossProduct_finVec]
    simp [Fl.lt]
  · rw [straightLine_joinVector, Vector2Add_finVec]; norm_num
  · rw [straightLine_joinVector, Vector2Subtract_finVec]; norm_num

end FirstPairExample

section FlAlgebra
variable {F : Type} [LinearOrderedField F]

theorem Fl_neg_neg (a : Fl F) : Fl.neg (Fl.neg a) = a := by
  cases a <;> simp [Fl.neg]

theorem Fl_scaleInf_neg (c : F) (p : Bool) : Fl.scaleInf (-c) p = Fl.neg (Fl.scaleInf c p) := by
  unfold Fl.scaleInf
  rcases lt_trichotomy c 0 with h | h | h
  · have h1 : ¬ (0 < c) := not_lt.mpr h.le
    have h2 : (0 : F) < -c := neg_pos.mpr h
    cases p <;> simp [h.ne, h1, h2, Fl.neg]
  · subst h; simp [Fl.neg]
  · have h1 : ¬ ((0 : F) < -c) := not_lt.mpr (neg_nonpos.mpr h.le)
    cases p <;> simp [h.ne', h, h1, Fl.neg]

theorem Fl_scaleInf_not (c : F) (p : Bool) : Fl.scaleInf c (!p) = Fl.neg (Fl.scaleInf c p) := by
  unfold Fl.scaleInf
  by_cases h0 : c = 0
  · simp [h0, Fl.neg]
  · by_cases h : 0 < c <;> cases p <;> simp [h0, h, Fl.neg]

theorem Fl_mul_neg_left (a b : Fl F) : Fl.mul (Fl.neg a) b = Fl.neg (Fl.mul a b) := by
  cases a with
  | fin a =>
    cases b with
    | fin b => simp [Fl.mul, Fl.neg]
    | pinf => exact Fl_scaleInf_neg a true
    | ninf => exact Fl_scaleInf_neg a false
    | nan => rfl
  | pinf =>
    cases b with
    | fin b => exact Fl_scaleInf_not b true
    | pinf => rfl
    | ninf => rfl
    | nan => rfl
  | ninf =>
    cases b with
    | fin b => exact Fl_scaleInf_not b false
    | pinf => rfl
    | ninf => rfl
    | nan => rfl
  | nan => cases b <;> rfl

theorem Fl_mul_neg_right (a b : Fl F) : Fl.mul a (Fl.neg b) = Fl.neg (Fl.mul a b) := by
  cases b with
  | fin b =>
    cases a with
    | fin a => simp [Fl.mul, Fl.neg]
    | pinf => exact Fl_scaleInf_neg b true
    | ninf => exact Fl_scaleInf_neg b false
    | nan => rfl
  | pinf =>
    cases a with
    | fin a => exact Fl_scaleInf_not a true
    | pinf => rfl
    | ninf => rfl
    | nan => rfl
  | ninf =>
    cases a with
    | fin a => exact Fl_scaleInf_not a false
    | pinf => rfl
    | ninf => rfl
    | nan => rfl
  | nan => cases a <;> rfl

theorem Fl_div_neg_left (a b : Fl F) : Fl.div (Fl.neg a) b = Fl.neg (Fl.div a b) := by
  cases a with
  | fin a =>
    cases b with
    | fin b =>
      by_cases hb : b = 0
      · rcases lt_trichotomy a 0 with h | h | h
        · have h1 : ¬ (0 < a) := not_lt.mpr h.le
          simp [Fl.div, Fl.neg, hb, h, h1]
        · subst h; simp [Fl.div, Fl.neg, hb]
        · have h1 : ¬ (a < 0) := not_lt.mpr h.le
          simp [Fl.div, Fl.neg, hb, h, h1]
      · simp [Fl.div, Fl.neg, hb, neg_div]
    | pinf => simp [Fl.div, Fl.neg]
    | ninf => simp [Fl.div, Fl.neg]
    | nan => simp [Fl.div, Fl.neg]
  | pinf =>
    cases b with
    | fin b => by_cases h : b < 0 <;> simp [Fl.div, Fl.neg, h]
    | pinf => simp [Fl.div, Fl.neg]
    | ninf => simp [Fl.div, Fl.neg]
    | nan => simp [Fl.div, Fl.neg]
  | ninf =>
    cases b with
    | fin b => by_cases h : b < 0 <;> simp [Fl.div, Fl.neg, h]
    | pinf => simp [Fl.div, Fl.neg]
    | ninf => simp [Fl.div, Fl.neg]
    | nan => simp [Fl.div, Fl.neg]
  | nan => cases b <;> simp [Fl.div, Fl.neg]

/-- A finite sum with a finite left summand has a finite right summand. -/
theorem Fl_add_eq_fin (o p : F) (s : Fl F) (h : Fl.add (Fl.fin o) s = Fl.fin p) :
    s = Fl.fin (p - o) := by
  cases s with
  | fin s =>
    simp only [Fl.add, Fl.fin.injEq] at h
    rw [← h]; simp
  | pinf => simp [Fl.add] at h
  | ninf => simp [Fl.add] at h
  | nan => simp [Fl.add] at h

/-- A finite difference with a finite minuend has a finite subtrahend. -/
theorem Fl_sub_eq_fin (o p : F) (s : Fl F) (h : Fl.sub (Fl.fin o) s = Fl.fin p) :
    s = Fl.fin (o - p) := by
  cases s with
  | fin s =>
    simp only [Fl.sub, Fl.neg, Fl.add, Fl.fin.injEq] at h
    rw [← h]; simp
  | pinf => simp [Fl.sub, Fl.neg, Fl.add] at h
  | ninf => simp [Fl.sub, Fl.neg, Fl.add] at h
  | nan => simp [Fl.sub, Fl.neg, Fl.add] at h

end FlAlgebra

section TieBreak
variable {F : Type} [LinearOrderedField F] (sq : F → F)

/-- The tie-break on finite values: with the candidates `O + s` and `O - s` and `s` off the
direction of `O - A`, the candidate put in the lower slot is not separated from `q` by the
raw segment `A-O`. -/
theorem tieBreak_fin (ax ay ox oy qx qy sx sy : F)
    (hD : (ox - ax) * sy - sx * (oy - ay) ≠ 0) :
    DoLinesIntersect (exactOps sq) (finVec ax ay) (finVec ox oy) (finVec qx qy)
      (if DoLinesIntersect (exactOps sq) (finVec ax ay) (finVec ox oy) (finVec qx qy)
          (finVec (ox + sx) (oy + sy)) = true then finVec (ox - sx) (oy - sy)
        else finVec (ox + sx) (oy + sy)) = false := by
  by_cases hr : DoLinesIntersect (exactOps sq) (finVec ax ay) (finVec ox oy) (finVec qx qy)
      (finVec (ox + sx) (oy + sy)) = true
  · rw [if_pos hr]
    rw [DoLinesIntersect_finVec] at hr ⊢
    rw [Bool.and_eq_true] at hr
    have h1 := hr.1
    have e1 : (ox - ax) * (oy + sy - ay) - (ox + sx - ax) * (oy - ay)
        = (ox - ax) * sy - sx * (oy - ay) := by ring
    have e2 : (ox - ax) * (oy - sy - ay) - (ox - sx - ax) * (oy - ay)
        = -((ox - ax) * sy - sx * (oy - ay)) := by ring
    rw [e1] at h1
    rw [e2]
    generalize (ox - ax) * sy - sx * (oy - ay) = D at hD h1 ⊢
    generalize (ox - ax) * (qy - ay) - (qx - ax) * (oy - ay) = c at h1 ⊢
    have hx : xor (decide (0 < c)) (decide (0 < -D)) = false := by
      rcases lt_or_gt_of_ne hD with h | h
      · have hn : ¬ (0 < D) := not_lt.mpr h.le
        have hp : 0 < -D := neg_pos.mpr h
        by_cases hc : 0 < c <;> simp [hc, hn, hp] at h1 ⊢
      · have hn : ¬ (0 < -D) := not_lt.mpr (neg_nonpos.mpr h.le)
        by_cases hc : 0 < c <;> simp [hc, hn, h] at h1 ⊢
    rw [hx, Bool.false_and]
  · rw [if_neg hr]
    exact Bool.eq_false_iff.mpr hr

/-- A sum `O + s` with finite `O` that is finite has a finite `s`. -/
theorem Vector2Add_eq_finVec (ox oy px py : F) (s : Vector2 (Fl F))
    (h : Vector2Add (exactOps sq) (finVec ox oy) s = finVec px py) :
    s = finVec (px - ox) (py - oy) := by
  obtain ⟨sx, sy⟩ := s
  have hx : Fl.add (Fl.fin ox) sx = Fl.fin px := congrArg Vector2.x h
  have hy : Fl.add (Fl.fin oy) sy = Fl.fin py := congrArg Vector2.y h
  rw [Fl_add_eq_fin _ _ _ hx, Fl_add_eq_fin _ _ _ hy]
  rfl

/-- A difference `O - s` with finite `O` that is finite has a finite `s`. -/
theorem Vector2Subtract_eq_finVec (ox oy px py : F) (s : Vector2 (Fl F))
    (h : Vector2Subtract (exactOps sq) (finVec ox oy) s = finVec px py) :
    s = finVec (ox - px) (oy - py) := by
  obtain ⟨sx, sy⟩ := s
  have hx : Fl.sub (Fl.fin ox) sx = Fl.fin px := congrArg Vector2.x h
  have hy : Fl.sub (Fl.fin oy) sy = Fl.fin py := congrArg Vector2.y h
  rw [Fl_sub_eq_fin _ _ _ hx, Fl_sub_eq_fin _ _ _ hy]
  rfl

/-- The tie-break with a finite first candidate `p1 = O + s` off the line through `A`
and `O`: the vertex written to the lower slot does not intersect. -/
theorem tieBreak_candidate (ax ay ox oy qx qy p1x p1y : F) (s : Vector2 (Fl F))
    (hp1 : Vector2Add (exactOps sq) (finVec ox oy) s = finVec p1x p1y)
    (hD : (ox - ax) * (p1y - oy) - (p1x - ox) * (oy - ay) ≠ 0) :
    DoLinesIntersect (exactOps sq) (finVec ax ay) (finVec ox oy) (finVec qx qy)
      (if DoLinesIntersect (exactOps sq) (finVec ax ay) (finVec ox oy) (finVec qx qy)
          (Vector2Add (exactOps sq) (finVec ox oy) s) = true then
        Vector2Subtract (exactOps sq) (finVec ox oy) s
        else Vector2Add (exactOps sq) (finVec ox oy) s) = false := by
  have hs := Vector2Add_eq_finVec sq ox oy p1x p1y s hp1
  subst hs
  rw [Vector2Add_finVec, Vector2Subtract_finVec]
  exact tieBreak_fin sq ax ay ox oy qx qy (p1x - ox) (p1y - oy) hD

/-- The tie-break seen from its output: when the vertex `v` written to the lower slot is
finite and off the line through `A` and `O`, it does not intersect, and the vertex written
to the higher slot is its mirror image about `O`. -/
theorem tieBreak_output (ax ay ox oy qx qy vx vy : F) (s : Vector2 (Fl F))
    (hv : (if DoLinesIntersect (exactOps sq) (finVec ax ay) (finVec ox oy) (finVec qx qy)
          (Vector2Add (exactOps sq) (finVec ox oy) s) = true then
        Vector2Subtract (exactOps sq) (finVec ox oy) s
        else Vector2Add (exactOps sq) (finVec ox oy) s) = finVec vx vy)
    (hD : (ox - ax) * (vy - oy) - (vx - ox) * (oy - ay) ≠ 0) :
    DoLinesIntersect (exactOps sq) (finVec ax ay) (finVec ox oy) (finVec qx qy) (finVec vx vy)
      = false ∧
    (if DoLinesIntersect (exactOps sq) (finVec ax ay) (finVec ox oy) (finVec qx qy)
          (Vector2Add (exactOps sq) (finVec ox oy) s) = true then
        Vector2Add (exactOps sq) (finVec ox oy) s
        else Vector2Subtract (exactOps sq) (finVec ox oy) s)
      = finVec (2 * ox - vx) (2 * oy - vy) := by
  by_cases hr : DoLinesIntersect (exactOps sq) (finVec ax ay) (finVec ox oy) (finVec qx qy)
      (Vector2Add (exactOps sq) (finVec ox oy) s) = true
  · rw [if_pos hr] at hv
    have hs := Vector2Subtract_eq_finVec sq ox oy vx vy s hv
    subst hs
    have hD2 : (ox - ax) * (oy - vy) - (ox - vx) * (oy - ay) ≠ 0 := by
      intro h; apply hD; linear_combination -h
    have := tieBreak_fin sq ax ay ox oy qx qy (ox - vx) (oy - vy) hD2
    rw [Vector2Add_finVec] at hr
    rw [if_pos hr] at this
    rw [Vector2Add_finVec, if_pos hr]
    refine ⟨?_, ?_⟩
    · rw [← this]; congr 2 <;> ring
    · congr 1 <;> ring
  · rw [if_neg hr] at hv
    have hs := Vector2Add_eq_finVec sq ox oy vx vy s hv
    subst hs
    rw [if_neg hr]
    rw [Vector2Add_finVec] at hr
    refine ⟨?_, ?_⟩
    · have hr2 := Bool.eq_false_iff.mpr hr
      rw [← hr2]; congr 2 <;> ring
    · rw [Vector2Subtract_finVec]; congr 1 <;> ring

/-- The two perpendiculars of FindPerpendiculars are `center + w` and `center - w` for
one vector `w`, whatever the values are. -/
theorem FindPerpendiculars_symm (center dir : Vector2 (Fl F)) (p : Fl F) :
    ∃ w : Vector2 (Fl F),
      (FindPerpendiculars (exactOps sq) center dir p).1 = Vector2Add (exactOps sq) center w ∧
      (FindPerpendiculars (exactOps sq) center dir p).2
        = Vector2Subtract (exactOps sq) center w := by
  refine ⟨_, rfl, ?_⟩
  show Vector2Add (exactOps sq) center _ = _
  unfold Vector2Add Vector2Subtract
  show Vector2.mk (Fl.add _ (Fl.mul (Fl.neg _) _)) (Fl.add _ (Fl.mul _ _))
    = Vector2.mk (Fl.add _ (Fl.neg (Fl.mul _ _))) (Fl.add _ (Fl.neg (Fl.mul (Fl.neg _) _)))
  rw [Fl_mul_neg_left, Fl_mul_neg_left, Fl_neg_neg]

end TieBreak

section Unified
variable {α : Type} (ops : FloatOps α)

theorem GetStripLength_open (N : Nat) (loop : Bool) (hn : 2 ≤ N) (h : N = 2 ∨ loop = false) :
    GetStripLength (N : Int) loop = ((2 * N : Nat) : Int) := by
  unfold GetStripLength boolToInt
  by_cases h2 : (N : Int) > 2
  · rw [if_pos h2]
    rcases h with h | h
    · omega
    · subst h; simp
  · rw [if_neg h2, if_pos (by omega)]; omega

theorem GetStripLength_loop (N : Nat) (hn : 3 ≤ N) :
    GetStripLength (N : Int) true = ((2 * N + 2 : Nat) : Int) := by
  unfold GetStripLength boolToInt
  rw [if_pos (by omega)]
  simp only [if_true]
  push_cast
  ring

/-- The output of TriangulateLine on `N >= 2` points, open or looping, with the structure
of every pair: the start cap and the end cap of an open line, the pair of every visited
vertex `j` as `JoinAt` says, and the repeated first pair of a looping line. -/
theorem TriangulateLine_structure (points : List (Vector2 α)) (N : Nat) (thickness : α)
    (loop : Bool) (hn : 2 ≤ N) (hlen : N ≤ points.length) :
    ∃ canon : List (Vector2 α), (canon.length : Int) = GetStripLength (N : Int) loop ∧
      (∀ (mid rest : Strip α), mid.length = canon.length →
        TriangulateLine ops points (N : Int) thickness loop (mid ++ rest)
          = some (canon.map some ++ rest)) ∧
      (∀ j, 1 ≤ j → (j + 1 < N ∨ (loop = true ∧ 3 ≤ N ∧ j < N)) →
        JoinAt ops points N (ops.div thickness ops.two) canon j) ∧
      ((N = 2 ∨ loop = false) → canon.length = 2 * N ∧
        (∃ A O, points[0]? = some A ∧ points[1]? = some O ∧
          canon[0]? = some (FindPerpendiculars ops A O (ops.div thickness ops.two)).1 ∧
          canon[1]? = some (FindPerpendiculars ops A O (ops.div thickness ops.two)).2) ∧
        CapAt ops points N (ops.div thickness ops.two) canon) ∧
      ((loop = true ∧ 3 ≤ N) → canon.length = 2 * N + 2 ∧
        JoinAt ops points N (ops.div thickness ops.two) canon 0 ∧
        canon[2 * N]? = canon[0]? ∧ canon[2 * N + 1]? = canon[1]?) := by
  by_cases hopen : N = 2 ∨ loop = false
  · obtain ⟨canon, A, O, hcl, hrun, hA, hO, hc0, hc1, hjoin, hcap⟩ :=
      TriangulateLine_open_structure ops points N thickness loop hn hlen hopen
    refine ⟨canon, ?_, ?_, ?_, ?_, ?_⟩
    · rw [hcl, GetStripLength_open N loop hn hopen]
    · intro mid rest hmid
      exact hrun mid rest (by rw [hmid, hcl])
    · intro j hj1 hvis
      rcases hvis with h | ⟨h1, h2, _⟩
      · exact hjoin j hj1 h
      · rcases hopen with h | h
        · omega
        · rw [h] at h1; cases h1
    · intro _
      exact ⟨hcl, ⟨A, O, hA, hO, hc0, hc1⟩, hcap⟩
    · rintro ⟨h1, h2⟩
      rcases hopen with h | h
      · omega
      · rw [h] at h1; cases h1
  · have h3 : 3 ≤ N := by
      by_contra h; exact hopen (Or.inl (by omega))
    have hl : loop = true := by
      cases loop
      · exact absurd (Or.inr rfl) hopen
      · rfl
    subst hl
    obtain ⟨out, v0, v1, hout, hv0, hv1, hrun, hjoin⟩ :=
      TriangulateLine_loop_structure ops points N thickness h3 hlen
    have hcl : (out ++ [v0, v1]).length = 2 * N + 2 := by simp [hout]
    refine ⟨out ++ [v0, v1], ?_, ?_, ?_, ?_, ?_⟩
    · rw [hcl, GetStripLength_loop N h3]
    · intro mid rest hmid
      exact hrun mid rest (by rw [hmid, hcl])
    · intro j _ hvis
      exact hjoin j (by omega)
    · intro h; exact absurd h hopen
    · intro _
      refine ⟨hcl, hjoin 0 (by omega), ?_, ?_⟩
      · have e1 : (out ++ [v0, v1])[0]? = some v0 := by
          rw [List.getElem?_append_left (by omega), hv0]
        have e2 : (out ++ [v0, v1])[2 * N]? = some v0 := by
          rw [List.getElem?_append_right (by omega), hout]
          simp
        rw [e1, e2]
      · have e1 : (out ++ [v0, v1])[1]? = some v1 := by
          rw [List.getElem?_append_left (by omega), hv1]
        have e2 : (out ++ [v0, v1])[2 * N + 1]? = some v1 := by
          rw [List.getElem?_append_right (by omega), hout]
          simp
        rw [e1, e2]

end Unified

section FoldExample

theorem sqrt_625 : Real.sqrt 625 = 25 := by
  rw [show (625 : ℝ) = 25 ^ 2 by norm_num]
  exact Real.sqrt_sq (by norm_num)

theorem sqrt_225 : Real.sqrt 225 = 15 := by
  rw [show (225 : ℝ) = 15 ^ 2 by norm_num]
  exact Real.sqrt_sq (by norm_num)

theorem sqrt_16_25 : Real.sqrt (16 / 25) = 4 / 5 := by
  rw [show (16 / 25 : ℝ) = (4 / 5) ^ 2 by norm_num]
  exact Real.sqrt_sq (by norm_num)

theorem joinVector_fold :
    joinVector (exactOps Real.sqrt) (Fl.fin 50) (finVec 25 0) (finVec 0 0) (finVec (-7) 24)
      = finVec (75 / 2) 50 := by
  have hnp : nearParallel (exactOps Real.sqrt) (finVec (25 - 0) (0 - 0))
      (finVec (-7 - 0) (24 - 0)) = false := by
    norm_num [nearParallel, slopeDiff, finVec, exactOps, Fl.div, Fl.sub, Fl.add, Fl.neg, Fl.lt]
  have hla : Real.sqrt ((25 - 0) * (25 - 0) + (0 - 0) * (0 - 0)) = 25 := by
    rw [show ((25 : ℝ) - 0) * (25 - 0) + (0 - 0) * (0 - 0) = 625 by norm_num]; exact sqrt_625
  have hlb : Real.sqrt ((-7 - 0) * (-7 - 0) + (24 - 0) * (24 - 0)) = 25 := by
    rw [show ((-7 : ℝ) - 0) * (-7 - 0) + (24 - 0) * (24 - 0) = 625 by norm_num]; exact sqrt_625
  simp only [joinVector, Vector2Subtract_finVec, hnp, Bool.false_eq_true, if_false,
    Vector2Length_finVec, hla, hlb, exactOps_div _ _ _ (by norm_num : (25 : ℝ) ≠ 0), exactOps_one,
    exactOps_add]
  rw [exactOps_div _ _ _ (by norm_num : (25 / 25 + 1 : ℝ) ≠ 0), Vector2Scale_finVec,
    Vector2Add_finVec, Vector2Length_finVec]
  have hls : Real.sqrt ((25 - 0 + (-7 - 25) * (25 / 25 / (25 / 25 + 1)))
      * (25 - 0 + (-7 - 25) * (25 / 25 / (25 / 25 + 1)))
      + (0 - 0 + (24 - 0) * (25 / 25 / (25 / 25 + 1)))
      * (0 - 0 + (24 - 0) * (25 / 25 / (25 / 25 + 1)))) = 15 := by
    rw [show ((25 : ℝ) - 0 + (-7 - 25) * (25 / 25 / (25 / 25 + 1)))
      * (25 - 0 + (-7 - 25) * (25 / 25 / (25 / 25 + 1)))
      + (0 - 0 + (24 - 0) * (25 / 25 / (25 / 25 + 1)))
      * (0 - 0 + (24 - 0) * (25 / 25 / (25 / 25 + 1))) = 225 by norm_num]
    exact sqrt_225
  rw [hls]
  simp only [finVec_x, finVec_y, exactOps_mul, exactOps_add,
    exactOps_div _ _ _ (by norm_num : (25 : ℝ) ≠ 0),
    exactOps_div _ _ _ (by norm_num : (15 : ℝ) ≠ 0), exactOps_sub]
  have hsin : (exactOps Real.sqrt).sqrt (Fl.fin (1 -
      ((-7 - 0) * (25 - 0 + (-7 - 25) * (25 / 25 / (25 / 25 + 1)))
        + (24 - 0) * (0 - 0 + (24 - 0) * (25 / 25 / (25 / 25 + 1)))) / 25 / 15 *
      (((-7 - 0) * (25 - 0 + (-7 - 25) * (25 / 25 / (25 / 25 + 1)))
        + (24 - 0) * (0 - 0 + (24 - 0) * (25 / 25 / (25 / 25 + 1)))) / 25 / 15)))
      = Fl.fin (4 / 5 : ℝ) := by
    rw [show (1 - ((-7 - 0) * (25 - 0 + (-7 - 25) * (25 / 25 / (25 / 25 + 1)))
        + (24 - 0) * (0 - 0 + (24 - 0) * (25 / 25 / (25 / 25 + 1)))) / 25 / 15 *
      (((-7 - 0) * (25 - 0 + (-7 - 25) * (25 / 25 / (25 / 25 + 1)))
        + (24 - 0) * (0 - 0 + (24 - 0) * (25 / 25 / (25 / 25 + 1)))) / 25 / 15) : ℝ) = 16 / 25
      by norm_num]
    rw [exactOps_sqrt _ _ (by norm_num), sqrt_16_25]
  rw [hsin, exactOps_div _ _ _ (by norm_num : (4 / 5 : ℝ) ≠ 0),
    exactOps_div _ _ _ (by norm_num : (15 : ℝ) ≠ 0), Vector2Scale_finVec]
  norm_num [finVec]

/-- TriangulateLine on the open line (25,0), (0,0), (-7,24) of thickness 100: the strip
is (25,50), (25,-50), (75/2,50), (-75/2,-50), (-55,10), (41,38). -/
theorem foldLine_strip :
    TriangulateLine (exactOps Real.sqrt) [finVec 25 0, finVec 0 0, finVec (-7) 24] 3
        (Fl.fin 100) false (RL_MALLOC (Fl ℝ) 6)
      = some ([finVec 25 50, finVec 25 (-50), finVec (75 / 2) 50, finVec (-75 / 2) (-50),
          finVec (-55) 10, finVec 41 38].map some) := by
  have hl0 : Real.sqrt ((0 - 25) * (0 - 25) + (0 - 0) * (0 - 0)) = 25 := by
    rw [show ((0 : ℝ) - 25) * (0 - 25) + (0 - 0) * (0 - 0) = 625 by norm_num]; exact sqrt_625
  have hl1 : Real.sqrt ((0 - -7) * (0 - -7) + (0 - 24) * (0 - 24)) = 25 := by
    rw [show ((0 : ℝ) - -7) * (0 - -7) + (0 - 24) * (0 - 24) = 625 by norm_num]; exact sqrt_625
  have hdiv : (exactOps Real.sqrt).div (Fl.fin 100) (exactOps Real.sqrt).two
      = Fl.fin (50 : ℝ) := by
    rw [exactOps_two, exactOps_div _ _ _ two_ne_zero]; norm_num
  have hfp1 : FindPerpendiculars (exactOps Real.sqrt) (finVec 25 0) (finVec 0 0) (Fl.fin 50)
      = (finVec 25 50, finVec 25 (-50)) := by
    rw [FindPerpendiculars_finVec Real.sqrt 25 0 0 0 50 25 hl0 (by norm_num)]
    norm_num
  have hfp2 : FindPerpendiculars (exactOps Real.sqrt) (finVec (-7) 24) (finVec 0 0) (Fl.fin 50)
      = (finVec (-55) 10, finVec 41 38) := by
    rw [FindPerpendiculars_finVec Real.sqrt (-7) 24 0 0 50 25 hl1 (by norm_num)]
    norm_num
  have hadd : Vector2Add (exactOps Real.sqrt) (finVec 0 0) (finVec (75 / 2 : ℝ) 50)
      = finVec (75 / 2) 50 := by
    rw [Vector2Add_finVec]; norm_num
  have hsub : Vector2Subtract (exactOps Real.sqrt) (finVec 0 0) (finVec (75 / 2 : ℝ) 50)
      = finVec (-75 / 2) (-50) := by
    rw [Vector2Subtract_finVec]; norm_num
  have hr1 : DoLinesIntersect (exactOps Real.sqrt) (finVec 25 0) (finVec 0 0) (finVec 25 50)
      (finVec (75 / 2) 50) = false := by
    rw [DoLinesIntersect_finVec]; norm_num
  have hr2 : DoLinesIntersect (exactOps Real.sqrt) (finVec 0 0) (finVec (-7) 24)
      (finVec (75 / 2) 50) (finVec (-55) 10) = false := by
    rw [DoLinesIntersect_finVec]; norm_num
  have hrun := TriangulateLine_three_open (exactOps Real.sqrt) (finVec 25 0) (finVec 0 0)
    (finVec (-7) 24) (Fl.fin 100) none none none none none none
  rw [hdiv] at hrun
  unfold threeOpenJoin at hrun
  rw [joinVector_fold, hadd, hsub, hfp1, hfp2] at hrun
  simp only [hr1, orderedPair, Bool.false_eq_true, if_false, List.headD_cons, hr2] at hrun
  exact hrun

/-- The strip of the open line (25,0), (0,0), (-7,24) of thickness 100 in binary32
arithmetic: the same vertices as in exact arithmetic. -/
theorem foldLine_strip_binary32 :
    TriangulateLine f32Ops
        [⟨F32.ofInt 25, F32.ofInt 0⟩, ⟨F32.ofInt 0, F32.ofInt 0⟩, ⟨F32.ofInt (-7), F32.ofInt 24⟩]
        3 (F32.ofInt 100) false (RL_MALLOC F32 6)
      = some [some ⟨F32.ofInt 25, F32.ofInt 50⟩, some ⟨F32.ofInt 25, F32.ofInt (-50)⟩,
          some ⟨F32.lit 75 2, F32.ofInt 50⟩, some ⟨F32.neg (F32.lit 75 2), F32.ofInt (-50)⟩,
          some ⟨F32.ofInt (-55), F32.ofInt 10⟩, some ⟨F32.ofInt 41, F32.ofInt 38⟩] := by
  decide!

/-- C15 (the code at the failing input): the open line (25,0), (0,0), (-7,24) of thickness
100 (distinct consecutive points, positive thickness).  In exact arithmetic and in
binary32 arithmetic alike TriangulateLine returns the strip
(25,50), (25,-50), (75/2,50), (-75/2,-50), (-55,10), (41,38).  For the segment `k = 1`
from `P = (0,0)` to `Q = (-7,24)`, `CrossProduct(Q - P, v - P)` is `-1250` for
`v = strip[2]` and `1250` for `v = strip[3]`, `v = strip[4]`: `strip[2]` and `strip[4]`
are strictly on opposite sides of the line through `P` and `Q`, and the consecutive strip
points `strip[3]`, `strip[4]` are on the same side, so the line between them does not
cross the original line (`DoLinesIntersect(P, Q, strip[3], strip[4])` is false), against
the comment on `reverseOrder`. -/
theorem TriangulateLine_fold :
    TriangulateLine (exactOps Real.sqrt) [finVec 25 0, finVec 0 0, finVec (-7) 24] 3
        (Fl.fin 100) false (RL_MALLOC (Fl ℝ) 6)
      = some [some (finVec 25 50), some (finVec 25 (-50)), some (finVec (75 / 2) 50),
          some (finVec (-75 / 2) (-50)), some (finVec (-55) 10), some (finVec 41 38)] ∧
    TriangulateLine f32Ops
        [⟨F32.ofInt 25, F32.ofInt 0⟩, ⟨F32.ofInt 0, F32.ofInt 0⟩, ⟨F32.ofInt (-7), F32.ofInt 24⟩]
        3 (F32.ofInt 100) false (RL_MALLOC F32 6)
      = some [some ⟨F32.ofInt 25, F32.ofInt 50⟩, some ⟨F32.ofInt 25, F32.ofInt (-50)⟩,
          some ⟨F32.lit 75 2, F32.ofInt 50⟩, some ⟨F32.neg (F32.lit 75 2), F32.ofInt (-50)⟩,
          some ⟨F32.ofInt (-55), F32.ofInt 10⟩, some ⟨F32.ofInt 41, F32.ofInt 38⟩] ∧
    CrossProduct (exactOps Real.sqrt)
        (Vector2Subtract (exactOps Real.sqrt) (finVec (-7) 24) (finVec 0 0))
        (Vector2Subtract (exactOps Real.sqrt) (finVec (75 / 2) 50) (finVec 0 0))
      = Fl.fin (-1250) ∧
    CrossProduct (exactOps Real.sqrt)
        (Vector2Subtract (exactOps Real.sqrt) (finVec (-7) 24) (finVec 0 0))
        (Vector2Subtract (exactOps Real.sqrt) (finVec (-75 / 2) (-50)) (finVec 0 0))
      = Fl.fin 1250 ∧
    CrossProduct (exactOps Real.sqrt)
        (Vector2Subtract (exactOps Real.sqrt) (finVec (-7) 24) (finVec 0 0))
        (Vector2Subtract (exactOps Real.sqrt) (finVec (-55) 10) (finVec 0 0))
      = Fl.fin 1250 ∧
    DoLinesIntersect (exactOps Real.sqrt) (finVec 0 0) (finVec (-7) 24)
        (finVec (-75 / 2) (-50)) (finVec (-55) 10) = false ∧
    DoLinesIntersect f32Ops ⟨F32.ofInt 0, F32.ofInt 0⟩ ⟨F32.ofInt (-7), F32.ofInt 24⟩
        ⟨F32.neg (F32.lit 75 2), F32.ofInt (-50)⟩ ⟨F32.ofInt (-55), F32.ofInt 10⟩ = false := by
  refine ⟨foldLine_strip, foldLine_strip_binary32, ?_, ?_, ?_, ?_, by decide!⟩
  · rw [Vector2Subtract_finVec, Vector2Subtract_finVec, CrossProduct_finVec]; norm_num
  · rw [Vector2Subtract_finVec, Vector2Subtract_finVec, CrossProduct_finVec]; norm_num
  · rw [Vector2Subtract_finVec, Vector2Subtract_finVec, CrossProduct_finVec]; norm_num
  · rw [DoLinesIntersect_finVec]; norm_num

end FoldExample

section TieBreakClaims
variable {F : Type} [LinearOrderedField F] (sq : F → F)

/-- The two slots of a pair `O + s`, `O - s` in either order: when the lower slot is finite,
the higher slot is its mirror image about `O`. -/
theorem pair_mirror (r : Bool) (ox oy ux uy : F) (s : Vector2 (Fl F))
    (hu : (if r = true then Vector2Subtract (exactOps sq) (finVec ox oy) s
      else Vector2Add (exactOps sq) (finVec ox oy) s) = finVec ux uy) :
    (if r = true then Vector2Add (exactOps sq) (finVec ox oy) s
      else Vector2Subtract (exactOps sq) (finVec ox oy) s)
      = finVec (2 * ox - ux) (2 * oy - uy) := by
  cases r with
  | true =>
    simp only [if_true] at hu ⊢
    have hs := Vector2Subtract_eq_finVec sq ox oy ux uy s hu
    subst hs
    rw [Vector2Add_finVec]; congr 1 <;> ring
  | false =>
    simp only [Bool.false_eq_true, if_false] at hu ⊢
    have hs := Vector2Add_eq_finVec sq ox oy ux uy s hu
    subst hs
    rw [Vector2Subtract_finVec]; congr 1 <;> ring

/-- C19 (as amended): in exact arithmetic (no rounding), for every pair that
TriangulateLine orders with the segment-intersection tie-break (every visited vertex
`j >= 1`, and the end cap of an open line), with finite `A`, `O`, `strip[offset-2]` and a finite candidate `p1` that is off the
line through `A` and `O` (`CrossProduct(O - A, p1 - O) != 0`), the vertex `v` written to
the lower slot `strip[offset]` satisfies `DoLinesIntersect(A, O, strip[offset-2], v) = false`.
Here `canon` is the strip TriangulateLine returns, `offset = 2j` for the visited vertex `j`
and `offset = 2N - 2` for the end cap. -/
theorem TriangulateLine_tieBreak (points : List (Vector2 (Fl F))) (N : Nat) (t : Fl F)
    (loop : Bool) (hn : 2 ≤ N) (hlen : N ≤ points.length) :
    ∃ canon : List (Vector2 (Fl F)), (canon.length : Int) = GetStripLength (N : Int) loop ∧
      (∀ (mid rest : Strip (Fl F)), mid.length = canon.length →
        TriangulateLine (exactOps sq) points (N : Int) t loop (mid ++ rest)
          = some (canon.map some ++ rest)) ∧
      (∀ (j : Nat) (ax ay ox oy qx qy p1x p1y : F) (B : Vector2 (Fl F)),
        1 ≤ j → (j + 1 < N ∨ (loop = true ∧ 3 ≤ N ∧ j < N)) →
        points[j - 1]? = some (finVec ax ay) → points[j]? = some (finVec ox oy) →
        points[(j + 1) % N]? = some B → canon[2 * j - 2]? = some (finVec qx qy) →
        Vector2Add (exactOps sq) (finVec ox oy)
          (joinVector (exactOps sq) ((exactOps sq).div t (exactOps sq).two) (finVec ax ay)
            (finVec ox oy) B) = finVec p1x p1y →
        CrossProduct (exactOps sq) (Vector2Subtract (exactOps sq) (finVec ox oy) (finVec ax ay))
          (Vector2Subtract (exactOps sq) (finVec p1x p1y) (finVec ox oy)) ≠ Fl.fin 0 →
        ∃ v, canon[2 * j]? = some v ∧
          DoLinesIntersect (exactOps sq) (finVec ax ay) (finVec ox oy) (finVec qx qy) v
            = false) ∧
      ((N = 2 ∨ loop = false) → ∀ (ax ay ox oy qx qy p1x p1y : F),
        points[N - 2]? = some (finVec ax ay) → points[N - 1]? = some (finVec ox oy) →
        canon[2 * N - 4]? = some (finVec qx qy) →
        (FindPerpendiculars (exactOps sq) (finVec ox oy) (finVec ax ay)
          ((exactOps sq).div t (exactOps sq).two)).1 = finVec p1x p1y →
        CrossProduct (exactOps sq) (Vector2Subtract (exactOps sq) (finVec ox oy) (finVec ax ay))
          (Vector2Subtract (exactOps sq) (finVec p1x p1y) (finVec ox oy)) ≠ Fl.fin 0 →
        ∃ v, canon[2 * N - 2]? = some v ∧
          DoLinesIntersect (exactOps sq) (finVec ax ay) (finVec ox oy) (finVec qx qy) v
            = false) := by
  obtain ⟨canon, hcl, hrun, hjoin, hopen, -⟩ :=
    TriangulateLine_structure (exactOps sq) points N t loop hn hlen
  have hcross : ∀ ax ay ox oy p1x p1y : F,
      CrossProduct (exactOps sq) (Vector2Subtract (exactOps sq) (finVec ox oy) (finVec ax ay))
        (Vector2Subtract (exactOps sq) (finVec p1x p1y) (finVec ox oy)) ≠ Fl.fin 0 →
      (ox - ax) * (p1y - oy) - (p1x - ox) * (oy - ay) ≠ 0 := by
    intro ax ay ox oy p1x p1y h h0
    apply h
    rw [Vector2Subtract_finVec, Vector2Subtract_finVec, CrossProduct_finVec, h0]
  refine ⟨canon, hcl, hrun, ?_, ?_⟩
  · intro j ax ay ox oy qx qy p1x p1y B hj1 hvis hA hO hB hq hp1 hD
    have hjN : j < N := by
      rcases hvis with h | ⟨_, _, h⟩ <;> omega
    obtain ⟨A', O', B', hA', hO', hB', r, hr, hc0, -⟩ := hjoin j hj1 hvis
    have e1 : (j + N - 1) % N = j - 1 := by
      have : j + N - 1 = (j - 1) + N := by omega
      rw [this, Nat.add_mod_right]; exact Nat.mod_eq_of_lt (by omega)
    have e2 : j % N = j := Nat.mod_eq_of_lt hjN
    rw [e1, hA] at hA'
    rw [e2, hO] at hO'
    rw [hB] at hB'
    cases Option.some.inj hA'
    cases Option.some.inj hO'
    cases Option.some.inj hB'
    rw [if_neg (by omega)] at hr
    obtain ⟨q, hq', hrq⟩ := hr
    rw [hq] at hq'
    cases Option.some.inj hq'
    subst hrq
    exact ⟨_, hc0, tieBreak_candidate sq ax ay ox oy qx qy p1x p1y _ hp1
      (hcross _ _ _ _ _ _ hD)⟩
  · intro ho ax ay ox oy qx qy p1x p1y hA hO hq hp1 hD
    obtain ⟨-, -, A', O', q', hA', hO', hq', hc0, -⟩ := hopen ho
    rw [hA] at hA'
    rw [hO] at hO'
    rw [hq] at hq'
    cases Option.some.inj hA'
    cases Option.some.inj hO'
    cases Option.some.inj hq'
    obtain ⟨w, hw1, hw2⟩ := FindPerpendiculars_symm sq (finVec ox oy) (finVec ax ay)
      ((exactOps sq).div t (exactOps sq).two)
    rw [hw1, hw2] at hc0
    rw [hw1] at hp1
    exact ⟨_, hc0, tieBreak_candidate sq ax ay ox oy qx qy p1x p1y _ hp1
      (hcross _ _ _ _ _ _ hD)⟩

end TieBreakClaims

section OpenSides
variable {F : Type} [LinearOrderedField F] (sq : F → F)

/-- DoLinesIntersect is false on finite points exactly when one of its two side tests
fails. -/
theorem DoLinesIntersect_false_sides (a1x a1y a2x a2y b1x b1y b2x b2y : F)
    (h : DoLinesIntersect (exactOps sq) (finVec a1x a1y) (finVec a2x a2y) (finVec b1x b1y)
      (finVec b2x b2y) = false) :
    ((0 < (a2x - a1x) * (b1y - a1y) - (b1x - a1x) * (a2y - a1y)) ↔
        (0 < (a2x - a1x) * (b2y - a1y) - (b2x - a1x) * (a2y - a1y))) ∨
      ((0 < (b2x - b1x) * (a1y - b1y) - (a1x - b1x) * (b2y - b1y)) ↔
        (0 < (b2x - b1x) * (a2y - b1y) - (a2x - b1x) * (b2y - b1y))) := by
  rw [DoLinesIntersect_finVec] at h
  generalize (a2x - a1x) * (b1y - a1y) - (b1x - a1x) * (a2y - a1y) = c1 at h ⊢
  generalize (a2x - a1x) * (b2y - a1y) - (b2x - a1x) * (a2y - a1y) = c2 at h ⊢
  generalize (b2x - b1x) * (a1y - b1y) - (a1x - b1x) * (b2y - b1y) = c3 at h ⊢
  generalize (b2x - b1x) * (a2y - b1y) - (a2x - b1x) * (b2y - b1y) = c4 at h ⊢
  by_cases h1 : 0 < c1 <;> by_cases h2 : 0 < c2 <;> by_cases h3 : 0 < c3 <;>
    by_cases h4 : 0 < c4 <;> simp [h1, h2, h3, h4] at h ⊢

/-- The part of C15 that the code satisfies: in exact arithmetic, for every open polyline
of `N >= 2` points and every thickness, TriangulateLine returns a strip `canon` of `2N` vertices in which
(1) the two vertices of every pair `k` are mirror images about `points[k]` as soon as
`points[k]` and `strip[2k]` are finite, and (2) for every segment `k` from
`P = points[k]` to `R = points[k+1]` with `P`, `R`, `strip[2k]`, `strip[2k+2]` finite and
`strip[2k+2]` off the line through `P` and `R`, the raw segment does not separate
`strip[2k]` from `strip[2k+2]`: `DoLinesIntersect(P, R, strip[2k], strip[2k+2])` is false,
that is, `strip[2k]` and `strip[2k+2]` are on the same side of the line through `P`, `R`
(same result of the `> 0` test) or `P` and `R` are on the same side of the line through
`strip[2k]`, `strip[2k+2]`. -/
theorem TriangulateLine_open_sides (points : List (Vector2 (Fl F))) (N : Nat) (t : Fl F)
    (hn : 2 ≤ N) (hlen : N ≤ points.length) :
    ∃ canon : List (Vector2 (Fl F)), canon.length = 2 * N ∧
      (∀ (mid rest : Strip (Fl F)), mid.length = 2 * N →
        TriangulateLine (exactOps sq) points (N : Int) t false (mid ++ rest)
          = some (canon.map some ++ rest)) ∧
      (∀ (k : Nat) (px py ux uy : F), k < N → points[k]? = some (finVec px py) →
        canon[2 * k]? = some (finVec ux uy) →
        canon[2 * k + 1]? = some (finVec (2 * px - ux) (2 * py - uy))) ∧
      (∀ (k : Nat) (px py rx ry ux uy vx vy : F), k + 1 < N →
        points[k]? = some (finVec px py) → points[k + 1]? = some (finVec rx ry) →
        canon[2 * k]? = some (finVec ux uy) → canon[2 * k + 2]? = some (finVec vx vy) →
        (rx - px) * (vy - ry) - (vx - rx) * (ry - py) ≠ 0 →
        DoLinesIntersect (exactOps sq) (finVec px py) (finVec rx ry) (finVec ux uy)
          (finVec vx vy) = false ∧
        (((0 < (rx - px) * (uy - py) - (ux - px) * (ry - py)) ↔
            (0 < (rx - px) * (vy - py) - (vx - px) * (ry - py))) ∨
          ((0 < (vx - ux) * (py - uy) - (px - ux) * (vy - uy)) ↔
            (0 < (vx - ux) * (ry - uy) - (rx - ux) * (vy - uy))))) := by
  obtain ⟨canon, -, hrun, hjoin, hopen, -⟩ :=
    TriangulateLine_structure (exactOps sq) points N t false hn hlen
  obtain ⟨hcl, ⟨A0, O0, hA0, hO0, hc0, hc1⟩, A', O', q', hA', hO', hq', hcap0, hcap1⟩ :=
    hopen (Or.inr rfl)
  obtain ⟨w, hw1, hw2⟩ := FindPerpendiculars_symm sq O' A'
    ((exactOps sq).div t (exactOps sq).two)
  rw [hw1, hw2] at hcap0 hcap1
  have hidx : ∀ j, 1 ≤ j → j < N → (j + N - 1) % N = j - 1 ∧ j % N = j := by
    intro j h1 h2
    have : j + N - 1 = (j - 1) + N := by omega
    rw [this, Nat.add_mod_right]
    exact ⟨Nat.mod_eq_of_lt (by omega), Nat.mod_eq_of_lt h2⟩
  refine ⟨canon, hcl, fun mid rest hmid => hrun mid rest (by rw [hmid, hcl]), ?_, ?_⟩
  · intro k px py ux uy hk hP hu
    by_cases hk0 : k = 0
    · subst hk0
      rw [hA0] at hP
      cases Option.some.inj hP
      obtain ⟨w0, hv1, hv2⟩ := FindPerpendiculars_symm sq (finVec px py) O0
        ((exactOps sq).div t (exactOps sq).two)
      rw [hv1] at hc0
      rw [hv2] at hc1
      rw [hc0] at hu
      have hu2 := Option.some.inj hu
      have := pair_mirror sq false px py ux uy w0 (by simpa using hu2)
      simp only [Bool.false_eq_true, if_false] at this
      rw [hc1, this]
    · by_cases hkN : k + 1 < N
      · obtain ⟨A, O, B, -, hO, -, r, -, hl, hh⟩ := hjoin k (by omega) (Or.inl hkN)
        rw [(hidx k (by omega) hk).2, hP] at hO
        cases Option.some.inj hO
        rw [hl] at hu
        rw [hh, pair_mirror sq r px py ux uy _ (Option.some.inj hu)]
      · have hkN2 : k = N - 1 := by omega
        have e0 : 2 * N - 2 = 2 * k := by omega
        have e1 : 2 * N - 1 = 2 * k + 1 := by omega
        rw [e0] at hcap0
        rw [e1] at hcap1
        rw [← hkN2, hP] at hO'
        cases Option.some.inj hO'
        rw [hcap0] at hu
        rw [hcap1, pair_mirror sq _ px py ux uy _ (Option.some.inj hu)]
  · intro k px py rx ry ux uy vx vy hk hP hR hu hv hD
    have hres : DoLinesIntersect (exactOps sq) (finVec px py) (finVec rx ry) (finVec ux uy)
        (finVec vx vy) = false := by
      by_cases hkN : k + 2 < N
      · obtain ⟨A, O, B, hA, hO, -, r, hr, hl, -⟩ := hjoin (k + 1) (by omega) (Or.inl hkN)
        have e := hidx (k + 1) (by omega) hk
        rw [e.1, Nat.add_sub_cancel, hP] at hA
        rw [e.2, hR] at hO
        cases Option.some.inj hA
        cases Option.some.inj hO
        rw [if_neg (by omega)] at hr
        obtain ⟨q, hq, hrq⟩ := hr
        have e2 : 2 * (k + 1) - 2 = 2 * k := by omega
        have e3 : 2 * (k + 1) = 2 * k + 2 := by ring
        rw [e2, hu] at hq
        cases Option.some.inj hq
        rw [e3, hv] at hl
        subst hrq
        exact (tieBreak_output sq px py rx ry ux uy vx vy _ (Option.some.inj hl).symm hD).1
      · have hkN2 : N = k + 2 := by omega
        have e0 : N - 2 = k := by omega
        have e1 : N - 1 = k + 1 := by omega
        have e2 : 2 * N - 4 = 2 * k := by omega
        have e3 : 2 * N - 2 = 2 * k + 2 := by omega
        rw [e0, hP] at hA'
        rw [e1, hR] at hO'
        rw [e2, hu] at hq'
        rw [e3, hv] at hcap0
        cases Option.some.inj hA'
        cases Option.some.inj hO'
        cases Option.some.inj hq'
        exact (tieBreak_output sq px py rx ry ux uy vx vy _ (Option.some.inj hcap0).symm hD).1
    exact ⟨hres, DoLinesIntersect_false_sides sq _ _ _ _ _ _ _ _ hres⟩

end OpenSides

section NegThickness
variable {F : Type} [LinearOrderedField F] (sq : F → F)

theorem exactOps_div_neg (t : Fl F) :
    (exactOps sq).div ((exactOps sq).neg t) (exactOps sq).two
      = Fl.neg ((exactOps sq).div t (exactOps sq).two) :=
  Fl_div_neg_left t (Fl.fin 2)

/-- The join vector is odd in the thickness: the negated thickness gives the negated
vector, whatever the values are. -/
theorem joinVector_neg (h : Fl F) (A O B : Vector2 (Fl F)) :
    joinVector (exactOps sq) (Fl.neg h) A O B
      = ⟨Fl.neg (joinVector (exactOps sq) h A O B).x,
         Fl.neg (joinVector (exactOps sq) h A O B).y⟩ := by
  unfold joinVector
  by_cases hp : nearParallel (exactOps sq) (Vector2Subtract (exactOps sq) A O)
      (Vector2Subtract (exactOps sq) B O) = true
  · simp only [hp, if_true]
    show Vector2.mk (Fl.mul _ (Fl.div (Fl.neg h) _)) (Fl.mul _ (Fl.div (Fl.neg h) _)) = _
    rw [Fl_div_neg_left, Fl_mul_neg_right, Fl_mul_neg_right]
    rfl
  · simp only [hp, if_false]
    show Vector2.mk (Fl.mul _ (Fl.div (Fl.div (Fl.neg h) _) _))
      (Fl.mul _ (Fl.div (Fl.div (Fl.neg h) _) _)) = _
    rw [Fl_div_neg_left, Fl_div_neg_left, Fl_mul_neg_right, Fl_mul_neg_right]
    rfl

theorem Vector2Add_neg (O s : Vector2 (Fl F)) :
    Vector2Add (exactOps sq) O ⟨Fl.neg s.x, Fl.neg s.y⟩ = Vector2Subtract (exactOps sq) O s :=
  rfl

theorem Vector2Subtract_neg (O s : Vector2 (Fl F)) :
    Vector2Subtract (exactOps sq) O ⟨Fl.neg s.x, Fl.neg s.y⟩ = Vector2Add (exactOps sq) O s := by
  show Vector2.mk (Fl.add _ (Fl.neg (Fl.neg _))) (Fl.add _ (Fl.neg (Fl.neg _))) = _
  rw [Fl_neg_neg, Fl_neg_neg]
  rfl

/-- FindPerpendiculars with the negated length returns the same two points with `right`
and `left` exchanged. -/
theorem FindPerpendiculars_neg (center dir : Vector2 (Fl F)) (p : Fl F) :
    FindPerpendiculars (exactOps sq) center dir (Fl.neg p)
      = ((FindPerpendiculars (exactOps sq) center dir p).2,
         (FindPerpendiculars (exactOps sq) center dir p).1) := by
  unfold FindPerpendiculars
  show (Vector2Add (exactOps sq) center
      ⟨Fl.mul _ (Fl.div (Fl.neg p) _), Fl.mul (Fl.neg _) (Fl.div (Fl.neg p) _)⟩,
    Vector2Add (exactOps sq) center
      ⟨Fl.mul (Fl.neg _) (Fl.div (Fl.neg p) _), Fl.mul _ (Fl.div (Fl.neg p) _)⟩)
    = (Vector2Add (exactOps sq) center ⟨Fl.mul (Fl.neg _) (Fl.div p _), Fl.mul _ (Fl.div p _)⟩,
      Vector2Add (exactOps sq) center ⟨Fl.mul _ (Fl.div p _), Fl.mul (Fl.neg _) (Fl.div p _)⟩)
  rw [Fl_div_neg_left]
  simp only [Fl_mul_neg_right, Fl_mul_neg_left, Fl_neg_neg]

/-- A join pair computed with the thickness `h` and with `-h` holds the same two vertices. -/
theorem JoinAt_neg (points : List (Vector2 (Fl F))) (N : Nat) (h : Fl F)
    (canon canon2 : List (Vector2 (Fl F))) (j : Nat)
    (h1 : JoinAt (exactOps sq) points N h canon j)
    (h2 : JoinAt (exactOps sq) points N (Fl.neg h) canon2 j) :
    (canon2[2 * j]? = canon[2 * j]? ∧ canon2[2 * j + 1]? = canon[2 * j + 1]?) ∨
      (canon2[2 * j]? = canon[2 * j + 1]? ∧ canon2[2 * j + 1]? = canon[2 * j]?) := by
  obtain ⟨A, O, B, hA, hO, hB, r, -, hl, hh⟩ := h1
  obtain ⟨A2, O2, B2, hA2, hO2, hB2, r2, -, hl2, hh2⟩ := h2
  rw [hA] at hA2
  rw [hO] at hO2
  rw [hB] at hB2
  cases Option.some.inj hA2
  cases Option.some.inj hO2
  cases Option.some.inj hB2
  rw [joinVector_neg, Vector2Add_neg, Vector2Subtract_neg] at hl2 hh2
  rw [hl, hh, hl2, hh2]
  cases r <;> cases r2 <;> simp

/-- The end-cap pair computed with the thickness `h` and with `-h` holds the same two
vertices. -/
theorem CapAt_neg (points : List (Vector2 (Fl F))) (N : Nat) (h : Fl F)
    (canon canon2 : List (Vector2 (Fl F)))
    (h1 : CapAt (exactOps sq) points N h canon)
    (h2 : CapAt (exactOps sq) points N (Fl.neg h) canon2) :
    (canon2[2 * N - 2]? = canon[2 * N - 2]? ∧ canon2[2 * N - 1]? = canon[2 * N - 1]?) ∨
      (canon2[2 * N - 2]? = canon[2 * N - 1]? ∧ canon2[2 * N - 1]? = canon[2 * N - 2]?) := by
  obtain ⟨A, O, q, hA, hO, -, hl, hh⟩ := h1
  obtain ⟨A2, O2, q2, hA2, hO2, -, hl2, hh2⟩ := h2
  rw [hA] at hA2
  rw [hO] at hO2
  cases Option.some.inj hA2
  cases Option.some.inj hO2
  rw [FindPerpendiculars_neg] at hl2 hh2
  rw [hl, hh, hl2, hh2]
  split_ifs <;> simp

end NegThickness

section NegThicknessClaim
variable {F : Type} [LinearOrderedField F] (sq : F → F)

/-- C17: in exact arithmetic, for every polyline with `N >= 2` points, either `loop` value
and every thickness `t`, TriangulateLine returns with the thickness `t` and with `-t`
(no operation is undefined for the negated value), and for every output pair `k` the two
strips hold the same two vertices in the slots `2k`, `2k+1`, in the same or in the
exchanged order: the unordered pair `{strip[2k], strip[2k+1]}` is the same. -/
theorem TriangulateLine_neg_thickness (points : List (Vector2 (Fl F))) (N : Nat) (t : Fl F)
    (loop : Bool) (hn : 2 ≤ N) (hlen : N ≤ points.length) :
    ∃ canon canon2 : List (Vector2 (Fl F)),
      (canon.length : Int) = GetStripLength (N : Int) loop ∧ canon2.length = canon.length ∧
      (∀ (mid rest : Strip (Fl F)), mid.length = canon.length →
        TriangulateLine (exactOps sq) points (N : Int) t loop (mid ++ rest)
          = some (canon.map some ++ rest)) ∧
      (∀ (mid rest : Strip (Fl F)), mid.length = canon.length →
        TriangulateLine (exactOps sq) points (N : Int) ((exactOps sq).neg t) loop (mid ++ rest)
          = some (canon2.map some ++ rest)) ∧
      ∀ k, 2 * k + 1 < canon.length →
        (canon2[2 * k]? = canon[2 * k]? ∧ canon2[2 * k + 1]? = canon[2 * k + 1]?) ∨
          (canon2[2 * k]? = canon[2 * k + 1]? ∧ canon2[2 * k + 1]? = canon[2 * k]?) := by
  obtain ⟨canon, hcl, hrun, hjoin, hopen, hloop⟩ :=
    TriangulateLine_structure (exactOps sq) points N t loop hn hlen
  obtain ⟨canon2, hcl2, hrun2, hjoin2, hopen2, hloop2⟩ :=
    TriangulateLine_structure (exactOps sq) points N ((exactOps sq).neg t) loop hn hlen
  rw [exactOps_div_neg] at hjoin2 hopen2 hloop2
  have hlen2 : canon2.length = canon.length := by omega
  refine ⟨canon, canon2, hcl, hlen2, hrun, ?_, ?_⟩
  · intro mid rest hmid
    exact hrun2 mid rest (by rw [hmid, hlen2])
  · intro k hk
    by_cases ho : N = 2 ∨ loop = false
    · obtain ⟨hl, ⟨A, O, hA, hO, hc0, hc1⟩, hcap⟩ := hopen ho
      obtain ⟨-, ⟨A2, O2, hA2, hO2, hd0, hd1⟩, hcap2⟩ := hopen2 ho
      by_cases hk0 : k = 0
      · subst hk0
        rw [hA] at hA2
        rw [hO] at hO2
        cases Option.some.inj hA2
        cases Option.some.inj hO2
        rw [FindPerpendiculars_neg] at hd0 hd1
        right
        exact ⟨by rw [hd0, hc1], by rw [hd1, hc0]⟩
      · by_cases hkN : k + 1 < N
        · exact JoinAt_neg sq points N _ canon canon2 k
            (hjoin k (by omega) (Or.inl hkN)) (hjoin2 k (by omega) (Or.inl hkN))
        · have e0 : 2 * N - 2 = 2 * k := by omega
          have e1 : 2 * N - 1 = 2 * k + 1 := by omega
          have := CapAt_neg sq points N _ canon canon2 hcap hcap2
          rw [e0, e1] at this
          exact this
    · have h3 : 3 ≤ N := by
        by_contra h; exact ho (Or.inl (by omega))
      have hlp : loop = true := by
        cases loop
        · exact absurd (Or.inr rfl) ho
        · rfl
      obtain ⟨hl, hj0, hr0, hr1⟩ := hloop ⟨hlp, h3⟩
      obtain ⟨-, hj0', hr0', hr1'⟩ := hloop2 ⟨hlp, h3⟩
      have hzero := JoinAt_neg sq points N _ canon canon2 0 hj0 hj0'
      by_cases hk0 : k = 0
      · subst hk0; exact hzero
      · by_cases hkN : k < N
        · exact JoinAt_neg sq points N _ canon canon2 k
            (hjoin k (by omega) (Or.inr ⟨hlp, h3, hkN⟩))
            (hjoin2 k (by omega) (Or.inr ⟨hlp, h3, hkN⟩))
        · have hkN2 : k = N := by omega
          subst hkN2
          rw [hr0, hr1, hr0', hr1']
          exact hzero

/-- Witness of C17: the open right-angle bend (0,0), (10,0), (10,10) of thickness 4. -/
theorem TriangulateLine_neg_thickness_witness :
    ∃ canon canon2 : List (Vector2 (Fl ℚ)),
      (canon.length : Int) = GetStripLength ((3 : Nat) : Int) false ∧
      canon2.length = canon.length ∧
      (∀ (mid rest : Strip (Fl ℚ)), mid.length = canon.length →
        TriangulateLine (exactOps Rat.sqrt) sampleLine.points ((3 : Nat) : Int) (Fl.fin 4) false
          (mid ++ rest) = some (canon.map some ++ rest)) ∧
      (∀ (mid rest : Strip (Fl ℚ)), mid.length = canon.length →
        TriangulateLine (exactOps Rat.sqrt) sampleLine.points ((3 : Nat) : Int)
          ((exactOps Rat.sqrt).neg (Fl.fin 4)) false (mid ++ rest)
          = some (canon2.map some ++ rest)) ∧
      ∀ k, 2 * k + 1 < canon.length →
        (canon2[2 * k]? = canon[2 * k]? ∧ canon2[2 * k + 1]? = canon[2 * k + 1]?) ∨
          (canon2[2 * k]? = canon[2 * k + 1]? ∧ canon2[2 * k + 1]? = canon[2 * k]?) :=
  TriangulateLine_neg_thickness Rat.sqrt sampleLine.points 3 (Fl.fin 4) false
    (by decide) (by decide)

end NegThicknessClaim

section TieBreakWitness

/-- The list of vertices behind a returned strip is determined by the strip. -/
theorem canon_eq_of_map {β : Type} (canon l : List β)
    (h : some (canon.map some ++ []) = some (l.map some)) : canon = l := by
  rw [List.append_nil] at h
  exact List.map_injective_iff.mpr (Option.some_injective β) (Option.some.inj h)

/-- Witness of C19 (as amended): the open straight line (0,0), (10,0), (20,0) of thickness 4 at the
visited vertex `j = 1`: `A = (0,0)`, `O = (10,0)`, `strip[0] = (0,-2)`, the candidate
`p1 = (10,2)` is off the line through `A` and `O`, and the vertex written to `strip[2]`
does not intersect. -/
theorem TriangulateLine_tieBreak_witness :
    ∃ (canon : List (Vector2 (Fl ℝ))) (v : Vector2 (Fl ℝ)),
      TriangulateLine (exactOps Real.sqrt) [finVec 0 0, finVec 10 0, finVec 20 0] 3
        (Fl.fin 4) false (RL_MALLOC (Fl ℝ) 6) = some (canon.map some) ∧
      canon[0]? = some (finVec (0 : ℝ) (-2)) ∧ canon[2]? = some v ∧
      DoLinesIntersect (exactOps Real.sqrt) (finVec 0 0) (finVec 10 0) (finVec 0 (-2)) v
        = false := by
  obtain ⟨canon, hcl, hrun, hjoin, -⟩ := TriangulateLine_tieBreak Real.sqrt
    [finVec 0 0, finVec 10 0, finVec 20 0] 3 (Fl.fin 4) false (by norm_num) (by simp)
  have h6 : canon.length = 6 := by
    have : GetStripLength ((3 : Nat) : Int) false = 6 := by decide
    omega
  have h := hrun (RL_MALLOC (Fl ℝ) 6) [] (by simp [RL_MALLOC, h6])
  rw [List.append_nil] at h
  have h2 : TriangulateLine (exactOps Real.sqrt) [finVec 0 0, finVec 10 0, finVec 20 0]
      ((3 : Nat) : Int) (Fl.fin 4) false (RL_MALLOC (Fl ℝ) 6) = _ := straightLine_strip
  rw [h2] at h
  have hc := canon_eq_of_map canon _ h.symm
  subst hc
  have hdiv : (exactOps Real.sqrt).div (Fl.fin 4) (exactOps Real.sqrt).two = Fl.fin (2 : ℝ) := by
    rw [exactOps_two, exactOps_div _ _ _ two_ne_zero]; norm_num
  obtain ⟨v, hv, hd⟩ := hjoin 1 0 0 10 0 0 (-2) 10 2 (finVec 20 0) (le_refl 1)
    (Or.inl (by norm_num)) rfl rfl rfl rfl
    (by rw [hdiv, straightLine_joinVector, Vector2Add_finVec]; norm_num)
    (by
      rw [Vector2Subtract_finVec, Vector2Subtract_finVec, CrossProduct_finVec]
      norm_num)
  exact ⟨_, v, h2, by simp, hv, hd⟩

/-- An instance of `TriangulateLine_open_sides`: the open line (25,0), (0,0), (-7,24) of
thickness 100 at the segment `k = 1` from `P = (0,0)` to `R = (-7,24)`: `strip[2] = (75/2,50)` and
`strip[4] = (-55,10)` are finite, `strip[4]` is off the line through `P` and `R`,
DoLinesIntersect is false and `strip[5] = (41,38)` is the mirror image of `strip[4]`
about `R`. -/
theorem TriangulateLine_open_sides_example :
    ∃ canon : List (Vector2 (Fl ℝ)),
      TriangulateLine (exactOps Real.sqrt) [finVec 25 0, finVec 0 0, finVec (-7) 24] 3
        (Fl.fin 100) false (RL_MALLOC (Fl ℝ) 6) = some (canon.map some) ∧
      canon[2]? = some (finVec (75 / 2 : ℝ) 50) ∧ canon[4]? = some (finVec (-55 : ℝ) 10) ∧
      canon[2 * 2 + 1]? = some (finVec (2 * (-7 : ℝ) - (-55)) (2 * 24 - 10)) ∧
      DoLinesIntersect (exactOps Real.sqrt) (finVec 0 0) (finVec (-7) 24)
        (finVec (75 / 2) 50) (finVec (-55) 10) = false := by
  obtain ⟨canon, h6, hrun, hmirror, hside⟩ := TriangulateLine_open_sides Real.sqrt
    [finVec 25 0, finVec 0 0, finVec (-7) 24] 3 (Fl.fin 100) (by norm_num) (by simp)
  have h := hrun (RL_MALLOC (Fl ℝ) 6) [] (by simp [RL_MALLOC])
  rw [List.append_nil] at h
  have h2 : TriangulateLine (exactOps Real.sqrt) [finVec 25 0, finVec 0 0, finVec (-7) 24]
      ((3 : Nat) : Int) (Fl.fin 100) false (RL_MALLOC (Fl ℝ) 6) = _ := foldLine_strip
  rw [h2] at h
  have hc := canon_eq_of_map canon _ h.symm
  subst hc
  have hm := hmirror 2 (-7) 24 (-55) 10 (by norm_num) rfl rfl
  have hs := hside 1 0 0 (-7) 24 (75 / 2) 50 (-55) 10 (by norm_num) rfl rfl rfl rfl
    (by norm_num)
  exact ⟨_, h2, by simp, by simp, hm, hs.1⟩

end TieBreakWitness

section CapacityInvariant
variable {α : Type} (ops : FloatOps α)

/-- One UpdateTriLine call keeps the user fields and leaves `stripLen` equal to the
requirement of the stored `numPoints`, `loop`, within the capacity of `strip`. -/
theorem UpdateTriLine_fields (triline : TriLine α)
    (hpts : triline.numPoints ≤ triline.points.length)
    (hcap : triline.stripLen ≤ triline.strip.length) :
    ∃ updated : TriLine α, UpdateTriLine ops triline = some updated ∧
      updated.points = triline.points ∧ updated.numPoints = triline.numPoints ∧
      updated.loop = triline.loop ∧
      updated.stripLen = GetStripLength updated.numPoints updated.loop ∧
      updated.stripLen ≤ updated.strip.length := by
  have hnn := GetStripLength_nonneg triline.numPoints triline.loop
  by_cases hn : 2 ≤ triline.numPoints
  · obtain ⟨canon, hc, -, hupd⟩ := UpdateTriLine_of_two_le ops triline hn hpts hcap
    refine ⟨_, hupd, rfl, rfl, rfl, rfl, ?_⟩
    simp only [List.length_append, List.length_map]
    omega
  · have hlt : triline.numPoints < 2 := by omega
    refine ⟨_, UpdateTriLine_of_lt_two ops triline hlt, rfl, rfl, rfl,
      (GetStripLength_of_lt_two _ _ hlt).symm, ?_⟩
    simp only
    omega

theorem runUpdates_invariant (es : List (Int × Bool)) :
    ∀ (start : TriLine α), start.stripLen ≤ start.strip.length →
      start.stripLen = GetStripLength start.numPoints start.loop →
      (∀ x ∈ es, x.1 ≤ start.points.length) →
      ∃ reached : TriLine α, runUpdates ops start es = some reached ∧
        reached.points = start.points ∧
        reached.stripLen = GetStripLength reached.numPoints reached.loop ∧
        reached.stripLen ≤ reached.strip.length ∧
        (∀ e, es.getLast? = some e → reached.numPoints = e.1 ∧ reached.loop = e.2) := by
  induction es with
  | nil =>
    intro start hcap hlen _
    exact ⟨start, rfl, rfl, hlen, hcap, fun e he => by simp at he⟩
  | cons e es ih =>
    intro start hcap _ hes
    obtain ⟨t1, h1, hp1, hn1, hlp1, hl1, hc1⟩ := UpdateTriLine_fields ops
      { start with numPoints := e.1, loop := e.2 } (hes e (List.mem_cons_self _ _)) hcap
    obtain ⟨t2, h2, hp2, hl2, hc2, hlast⟩ := ih t1 hc1 hl1 (fun x hx => by
      rw [hp1]; exact hes x (List.mem_cons_of_mem _ hx))
    refine ⟨t2, ?_, hp2.trans hp1, hl2, hc2, ?_⟩
    · simp only [runUpdates, updateWith, h1, Option.some_bind, h2]
    · intro x hx
      cases es with
      | nil =>
        simp only [List.getLast?_singleton, Option.some.injEq] at hx
        subst hx
        simp only [runUpdates, Option.some.injEq] at h2
        subst h2
        exact ⟨hn1, hlp1⟩
      | cons y ys =>
        rw [List.getLast?_cons_cons] at hx
        exact hlast x hx

/-- C20: with the allocated capacity of `strip` as explicit state (`strip.length`), from
the zero-initialised TriLine (`strip = NULL` of capacity 0, `stripLen = 0`,
`numPoints = 0`) every sequence of UpdateTriLine calls, each after storing any `loop` and
any `numPoints` that the `points` buffer holds, returns (no call writes or reads outside
a buffer), and afterwards `capacity(strip) >= stripLen = GetStripLength(numPoints, loop)`
for the stored `numPoints` and `loop`, which are those of the last call. -/
theorem UpdateTriLine_strip_invariant (points : List (Vector2 α)) (thickness : α)
    (es : List (Int × Bool)) (hes : ∀ x ∈ es, x.1 ≤ points.length) :
    ∃ reached : TriLine α,
      runUpdates ops
        { points := points, numPoints := 0, thickness := thickness, loop := false,
          strip := [], stripLen := 0 } es = some reached ∧
      reached.stripLen = GetStripLength reached.numPoints reached.loop ∧
      reached.stripLen ≤ reached.strip.length ∧
      (∀ e, es.getLast? = some e → reached.numPoints = e.1 ∧ reached.loop = e.2) := by
  obtain ⟨reached, h, -, hl, hc, hlast⟩ := runUpdates_invariant ops es
    { points := points, numPoints := 0, thickness := thickness, loop := false,
      strip := [], stripLen := 0 } (by simp)
    (show (0 : Int) = GetStripLength 0 false by decide) hes
  exact ⟨reached, h, hl, hc, hlast⟩

/-- Witness of C20: the ten-point buffer updated as a 10-point open line, a 2-point line,
a 5-point loop and an empty line. -/
theorem UpdateTriLine_strip_invariant_witness :
    ∃ reached : TriLine (Fl ℚ),
      runUpdates (exactOps Rat.sqrt)
        { points := tenPoints, numPoints := 0, thickness := Fl.fin 16, loop := false,
          strip := [], stripLen := 0 } [(10, false), (2, false), (5, true), (0, true)]
        = some reached ∧
      reached.stripLen = GetStripLength reached.numPoints reached.loop ∧
      reached.stripLen ≤ reached.strip.length ∧
      (∀ e, [((10 : Int), false), (2, false), (5, true), (0, true)].getLast? = some e →
        reached.numPoints = e.1 ∧ reached.loop = e.2) :=
  UpdateTriLine_strip_invariant (exactOps Rat.sqrt) tenPoints (Fl.fin 16)
    [(10, false), (2, false), (5, true), (0, true)] (by decide)

end CapacityInvariant

section DemoInvariant
variable {α : Type} (dm : DemoOps α)

theorem writePoint_of_lt (points : List (Vector2 α)) (i : Nat) (v : Vector2 α)
    (h : i < points.length) :
    writePoint points (i : Int) v = some (points.set i v) := by
  unfold writePoint
  rw [if_pos ⟨by omega, by simpa using h⟩]
  simp

/-- LoadDefaultLine on a buffer of at least six elements returns: six points, the buffer
length and the other fields unchanged. -/
theorem LoadDefaultLine_ok (triline : TriLine α) (width height : α)
    (h : 6 ≤ triline.points.length) :
    ∃ t : TriLine α, LoadDefaultLine dm triline width height = some t ∧ t.numPoints = 6 ∧
      t.points.length = triline.points.length ∧ t.strip = triline.strip ∧
      t.stripLen = triline.stripLen ∧ t.loop = triline.loop ∧
      t.thickness = triline.thickness := by
  unfold LoadDefaultLine
  have w := fun (l : List (Vector2 α)) (i : Nat) (v : Vector2 α) (hl : i < l.length) =>
    writePoint_of_lt l i v hl
  simp only [Option.bind_eq_bind, Option.pure_def]
  rw [show (0 : Int) = ((0 : Nat) : Int) from rfl, w _ 0 _ (by omega), Option.some_bind,
    show (1 : Int) = ((1 : Nat) : Int) from rfl, w _ 1 _ (by rw [List.length_set]; omega),
    Option.some_bind,
    show (2 : Int) = ((2 : Nat) : Int) from rfl,
    w _ 2 _ (by rw [List.length_set, List.length_set]; omega), Option.some_bind,
    show (3 : Int) = ((3 : Nat) : Int) from rfl,
    w _ 3 _ (by rw [List.length_set, List.length_set, List.length_set]; omega),
    Option.some_bind,
    show (4 : Int) = ((4 : Nat) : Int) from rfl,
    w _ 4 _ (by rw [List.length_set, List.length_set, List.length_set, List.length_set]; omega),
    Option.some_bind,
    show (5 : Int) = ((5 : Nat) : Int) from rfl,
    w _ 5 _ (by
      rw [List.length_set, List.length_set, List.length_set, List.length_set, List.length_set]
      omega),
    Option.some_bind]
  refine ⟨_, rfl, rfl, ?_, rfl, rfl, rfl, rfl⟩
  simp only [List.length_set]

theorem resizeStep_inv (d : DemoState α) (inp : FrameInput α) (h : DemoInv d) :
    DemoInv (resizeStep d inp) ∧ (resizeStep d inp).triline = d.triline ∧
      (resizeStep d inp).numPointsAllocated = d.numPointsAllocated := by
  unfold resizeStep
  split_ifs
  · exact ⟨h, rfl, rfl⟩
  · exact ⟨h, rfl, rfl⟩

/-- The key chain returns and keeps the invariant and the capacity of `points`. -/
theorem keyChain_inv (d : DemoState α) (inp : FrameInput α) (h : DemoInv d) :
    ∃ d1 : DemoState α, keyChain dm d inp = some d1 ∧ DemoInv d1 ∧
      d1.numPointsAllocated = d.numPointsAllocated ∧ d1.halfScreen = d.halfScreen := by
  obtain ⟨h0, h1, h2, h3, h4⟩ := h
  unfold keyChain
  split_ifs with c1 c2 c3 c4 c5 c6 c7
  · exact ⟨_, rfl, ⟨h0, h1, h2, h3, h4⟩, rfl, rfl⟩
  · obtain ⟨t, ht, hn, hl, hs, hsl, -, -⟩ := LoadDefaultLine_ok dm d.triline
      (dm.ofInt d.halfScreen) (dm.ofInt d.screenHeight) (by omega)
    rw [ht]
    refine ⟨_, rfl, ⟨?_, ?_, ?_, h3, ?_⟩, rfl, rfl⟩
    · show 0 ≤ t.numPoints
      omega
    · show t.numPoints ≤ d.numPointsAllocated
      omega
    · show (t.points.length : Int) = d.numPointsAllocated
      rw [hl]; exact h2
    · show t.stripLen ≤ (t.strip.length : Int)
      rw [hs, hsl]; exact h4
  · exact ⟨_, rfl, ⟨le_refl 0, by show (0 : Int) ≤ d.numPointsAllocated; omega, h2, h3, h4⟩,
      rfl, rfl⟩
  · exact ⟨_, rfl, ⟨h0, h1, h2, h3, h4⟩, rfl, rfl⟩
  · exact ⟨_, rfl, ⟨h0, h1, h2, h3, h4⟩, rfl, rfl⟩
  · exact ⟨_, rfl, ⟨h0, h1, h2, h3, h4⟩, rfl, rfl⟩
  · have hne : d.triline.numPoints ≠ 0 := by
      simp only [Bool.and_eq_true, decide_eq_true_eq] at c7
      exact c7.2
    refine ⟨_, rfl, ⟨?_, ?_, h2, h3, h4⟩, rfl, rfl⟩
    · show 0 ≤ d.triline.numPoints - 1
      omega
    · show d.triline.numPoints - 1 ≤ d.numPointsAllocated
      omega
  · exact ⟨_, rfl, ⟨h0, h1, h2, h3, h4⟩, rfl, rfl⟩

theorem realloc_length (points : List (Vector2 α)) (n : Nat) (fill : Vector2 α) :
    (realloc points n fill).length = n := by
  unfold realloc
  rw [List.length_take, List.length_append, List.length_replicate]
  omega

theorem realloc_getElem (points : List (Vector2 α)) (n : Nat) (fill : Vector2 α) (i : Nat)
    (hi : i < points.length) (hn : points.length ≤ n) :
    (realloc points n fill)[i]? = points[i]? := by
  unfold realloc
  rw [List.getElem?_take_of_lt (by omega), List.getElem?_append_left hi]

/-- The point-add block on a state that satisfies the invariant: it returns, appends the
remapped click at index `numPoints`, keeps the earlier points, and grows the buffer by 16
exactly when it was full. -/
theorem addPoint_spec (d : DemoState α) (pos fill : Vector2 α) (h : DemoInv d) :
    ∃ d2 : DemoState α, addPoint dm d pos fill = some d2 ∧ DemoInv d2 ∧
      d2.triline.numPoints = d.triline.numPoints + 1 ∧
      d2.triline.points[d.triline.numPoints.toNat]?
        = some (remapClick dm d.halfScreen pos) ∧
      (∀ i, i < d.triline.numPoints.toNat → d2.triline.points[i]? = d.triline.points[i]?) ∧
      d2.numPointsAllocated
        = (if d.triline.numPoints = d.numPointsAllocated then d.numPointsAllocated + 16
           else d.numPointsAllocated) ∧
      d2.halfScreen = d.halfScreen ∧ d2.updTriLine = true := by
  obtain ⟨h0, h1, h2, h3, h4⟩ := h
  obtain ⟨n, hn⟩ : ∃ n : Nat, d.triline.numPoints = (n : Int) := ⟨_, (Int.toNat_of_nonneg h0).symm⟩
  unfold addPoint
  simp only [Option.bind_eq_bind, Option.pure_def, hn, Int.toNat_ofNat]
  by_cases hfull : (n : Int) = d.numPointsAllocated
  · have hlen : (realloc d.triline.points (d.numPointsAllocated + 16).toNat fill).length
        = (d.numPointsAllocated + 16).toNat := realloc_length _ _ _
    simp only [hfull, decide_True, if_true]
    rw [← hfull, writePoint_of_lt _ n _ (by rw [hfull, hlen]; omega), Option.some_bind]
    refine ⟨_, rfl, ⟨?_, ?_, ?_, ?_, h4⟩, rfl, ?_, ?_, rfl, rfl, rfl⟩
    · show (0 : Int) ≤ (n : Int) + 1
      omega
    · show (n : Int) + 1 ≤ (n : Int) + 16
      omega
    · show (((realloc d.triline.points ((n : Int) + 16).toNat fill).set n
        (remapClick dm d.halfScreen pos)).length : Int) = (n : Int) + 16
      rw [List.length_set, realloc_length]
      omega
    · show (64 : Int) ≤ (n : Int) + 16
      omega
    · show ((realloc d.triline.points ((n : Int) + 16).toNat fill).set n
        (remapClick dm d.halfScreen pos))[n]? = _
      rw [List.getElem?_set_self (by rw [realloc_length]; omega)]
    · intro i hi
      show ((realloc d.triline.points ((n : Int) + 16).toNat fill).set n
        (remapClick dm d.halfScreen pos))[i]? = _
      rw [List.getElem?_set_ne (by omega), realloc_getElem _ _ _ _ (by omega) (by omega)]
  · simp only [hfull, decide_False, Bool.false_eq_true, if_false]
    rw [writePoint_of_lt _ n _ (by omega), Option.some_bind]
    refine ⟨_, rfl, ⟨?_, ?_, ?_, h3, h4⟩, rfl, ?_, ?_, rfl, rfl, rfl⟩
    · show (0 : Int) ≤ (n : Int) + 1
      omega
    · show (n : Int) + 1 ≤ d.numPointsAllocated
      omega
    · show (((d.triline.points.set n (remapClick dm d.halfScreen pos)).length : Nat) : Int)
        = d.numPointsAllocated
      rw [List.length_set]; exact h2
    · show (d.triline.points.set n (remapClick dm d.halfScreen pos))[n]? = _
      rw [List.getElem?_set_self (by omega)]
    · intro i hi
      show (d.triline.points.set n (remapClick dm d.halfScreen pos))[i]? = _
      rw [List.getElem?_set_ne (by omega)]

/-- The event processing of a frame on a state that satisfies the invariant returns and
keeps the invariant. -/
theorem processEvents_inv (d : DemoState α) (inp : FrameInput α) (h : DemoInv d) :
    ∃ d2 : DemoState α, processEvents dm d inp = some d2 ∧ DemoInv d2 := by
  obtain ⟨d1, hk, hi1, -, -⟩ := keyChain_inv dm (resizeStep d inp) inp (resizeStep_inv d inp h).1
  unfold processEvents
  simp only [Option.bind_eq_bind, hk, Option.some_bind, Option.pure_def]
  by_cases hm : inp.mouseLeft = true
  · obtain ⟨d2, ha, hi2, -⟩ := addPoint_spec dm d1 inp.mousePos inp.fill hi1
    rw [if_pos hm]
    exact ⟨d2, ha, hi2⟩
  · rw [if_neg hm]
    exact ⟨d1, rfl, hi1⟩

/-- The update step of a frame keeps the event-processing result but for `strip` and
`stripLen`. -/
theorem demoFrame_of_processEvents (d d1 : DemoState α) (inp : FrameInput α)
    (hp : processEvents dm d inp = some d1) (h1 : DemoInv d1) :
    ∃ d2 : DemoState α, demoFrame dm d inp = some d2 ∧ DemoInv d2 ∧
      d2.triline.points = d1.triline.points ∧ d2.triline.numPoints = d1.triline.numPoints ∧
      d2.numPointsAllocated = d1.numPointsAllocated ∧ d2.halfScreen = d1.halfScreen := by
  unfold demoFrame
  simp only [Option.bind_eq_bind, hp, Option.some_bind, Option.pure_def]
  by_cases hu : d1.updTriLine = true
  · obtain ⟨g0, g1, g2, g3, g4⟩ := h1
    obtain ⟨t, ht, htp, htn, -, -, htc⟩ := UpdateTriLine_fields dm.flt d1.triline
      (by omega) g4
    rw [if_pos hu, ht]
    refine ⟨_, rfl, ⟨?_, ?_, ?_, g3, htc⟩, htp, htn, rfl, rfl⟩
    · show 0 ≤ t.numPoints
      rw [htn]; exact g0
    · show t.numPoints ≤ d1.numPointsAllocated
      rw [htn]; exact g1
    · show (t.points.length : Int) = d1.numPointsAllocated
      rw [htp]; exact g2
  · rw [if_neg hu]
    exact ⟨d1, rfl, h1, rfl, rfl, rfl, rfl⟩

theorem demoFrame_inv (d : DemoState α) (inp : FrameInput α) (h : DemoInv d) :
    ∃ d2 : DemoState α, demoFrame dm d inp = some d2 ∧ DemoInv d2 := by
  obtain ⟨d1, hp, h1⟩ := processEvents_inv dm d inp h
  obtain ⟨d2, hf, h2, -⟩ := demoFrame_of_processEvents dm d d1 inp hp h1
  exact ⟨d2, hf, h2⟩

theorem runFrames_inv (inputs : List (FrameInput α)) :
    ∀ d : DemoState α, DemoInv d →
      ∃ d2 : DemoState α, runFrames dm d inputs = some d2 ∧ DemoInv d2 := by
  induction inputs with
  | nil => intro d h; exact ⟨d, rfl, h⟩
  | cons inp rest ih =>
    intro d h
    obtain ⟨d1, hf, h1⟩ := demoFrame_inv dm d inp h
    obtain ⟨d2, hr, h2⟩ := ih d1 h1
    exact ⟨d2, by simp only [runFrames, hf, Option.some_bind, hr], h2⟩

/-- The start of `main` returns a state that satisfies the invariant, with six points in a
buffer of 64 elements and `halfScreen = 500`. -/
theorem initDemo_inv (heap : Vector2 α) :
    ∃ d0 : DemoState α, initDemo dm heap = some d0 ∧ DemoInv d0 ∧
      d0.numPointsAllocated = 64 ∧ d0.halfScreen = 500 ∧ d0.triline.numPoints = 6 := by
  obtain ⟨t, ht, hn, hl, hs, hsl, -, -⟩ := LoadDefaultLine_ok dm
    { points := List.replicate 64 heap, numPoints := 0, thickness := dm.lit 16,
      loop := true, strip := [], stripLen := 0 }
    (dm.ofInt (Int.tdiv 1000 2)) (dm.ofInt 600) (by simp)
  unfold initDemo
  rw [ht]
  refine ⟨_, rfl, ⟨?_, ?_, ?_, ?_, ?_⟩, rfl, show Int.tdiv 1000 2 = 500 by decide, hn⟩
  · show 0 ≤ t.numPoints
    omega
  · show t.numPoints ≤ 64
    omega
  · show (t.points.length : Int) = 64
    rw [hl]; simp
  · show (64 : Int) ≤ 64
    omega
  · show t.stripLen ≤ (t.strip.length : Int)
    rw [hs, hsl]; simp

/-- A frame with the key C alone empties the line and keeps the buffer. -/
theorem demoFrame_clear (d : DemoState α) (pos fill : Vector2 α) (h : DemoInv d) :
    ∃ d2 : DemoState α, demoFrame dm d (clearFrame pos fill) = some d2 ∧ DemoInv d2 ∧
      d2.triline.numPoints = 0 ∧ d2.numPointsAllocated = d.numPointsAllocated ∧
      d2.halfScreen = d.halfScreen := by
  obtain ⟨h0, h1, h2, h3, h4⟩ := h
  have hp : processEvents dm d (clearFrame pos fill)
      = some { d with triline := { d.triline with numPoints := 0 }, updTriLine := true } := by
    simp [processEvents, keyChain, resizeStep, clearFrame]
  obtain ⟨d2, hf, hi, -, hn, ha, hh⟩ := demoFrame_of_processEvents dm d _ _ hp
    ⟨le_refl 0, by show (0 : Int) ≤ d.numPointsAllocated; omega, h2, h3, h4⟩
  exact ⟨d2, hf, hi, hn, ha, hh⟩

/-- A frame with a left click alone is the point-add block followed by the update. -/
theorem demoFrame_click (d : DemoState α) (pos fill : Vector2 α) (h : DemoInv d) :
    ∃ d2 : DemoState α, demoFrame dm d (clickFrame pos fill) = some d2 ∧ DemoInv d2 ∧
      d2.triline.numPoints = d.triline.numPoints + 1 ∧
      d2.triline.points[d.triline.numPoints.toNat]?
        = some (remapClick dm d.halfScreen pos) ∧
      (∀ i, i < d.triline.numPoints.toNat → d2.triline.points[i]? = d.triline.points[i]?) ∧
      d2.numPointsAllocated
        = (if d.triline.numPoints = d.numPointsAllocated then d.numPointsAllocated + 16
           else d.numPointsAllocated) ∧
      d2.halfScreen = d.halfScreen := by
  obtain ⟨d1, ha, hi1, hn1, hget, hold, hal, hhs, -⟩ := addPoint_spec dm d pos fill h
  have hp : processEvents dm d (clickFrame pos fill) = some d1 := by
    simp [processEvents, keyChain, resizeStep, clickFrame, ha]
  obtain ⟨d2, hf, hi2, hpts, hn2, hal2, hhs2⟩ := demoFrame_of_processEvents dm d d1 _ hp hi1
  refine ⟨d2, hf, hi2, by rw [hn2, hn1], by rw [hpts, hget], ?_, by rw [hal2, hal],
    by rw [hhs2, hhs]⟩
  intro i hi
  rw [hpts]; exact hold i hi

/-- A run of frames with one left click each, from a state that satisfies the invariant:
the clicks are appended in order after the points already there, and the capacity stays
when the points still fit and grows by 16 once when they exceed it by at most 16. -/
theorem runFrames_clicks (fill : Vector2 α) (clicks : List (Vector2 α)) :
    ∀ d : DemoState α, DemoInv d →
      ∃ d2 : DemoState α,
        runFrames dm d (clicks.map (fun p => clickFrame p fill)) = some d2 ∧ DemoInv d2 ∧
        d2.triline.numPoints = d.triline.numPoints + clicks.length ∧
        d2.halfScreen = d.halfScreen ∧
        (∀ i, i < d.triline.numPoints.toNat →
          d2.triline.points[i]? = d.triline.points[i]?) ∧
        (∀ i p, clicks[i]? = some p →
          d2.triline.points[d.triline.numPoints.toNat + i]?
            = some (remapClick dm d.halfScreen p)) ∧
        (d.triline.numPoints + clicks.length ≤ d.numPointsAllocated →
          d2.numPointsAllocated = d.numPointsAllocated) ∧
        (d.numPointsAllocated < d.triline.numPoints + clicks.length →
          d.triline.numPoints + clicks.length ≤ d.numPointsAllocated + 16 →
          d2.numPointsAllocated = d.numPointsAllocated + 16) := by
  induction clicks with
  | nil =>
    intro d h
    refine ⟨d, rfl, h, by simp, rfl, fun _ _ => rfl, ?_, fun _ => rfl, ?_⟩
    · intro i p hp; simp at hp
    · intro h1 h2
      have := h.2.1
      simp only [List.length_nil, Nat.cast_zero, add_zero] at h1
      omega
  | cons c cs ih =>
    intro d h
    obtain ⟨d1, hf, hi1, hn1, hget, hold, hal, hhs⟩ := demoFrame_click dm d c fill h
    obtain ⟨d2, hr, hi2, hn2, hhs2, hold2, hnew2, hcap1, hcap2⟩ := ih d1 hi1
    have h0 := h.1
    have hle := h.2.1
    have hn1' : d1.triline.numPoints.toNat = d.triline.numPoints.toNat + 1 := by
      rw [hn1]; omega
    refine ⟨d2, ?_, hi2, ?_, by rw [hhs2, hhs], ?_, ?_, ?_, ?_⟩
    · simp only [List.map_cons, runFrames, hf, Option.some_bind, hr]
    · rw [hn2, hn1]; simp only [List.length_cons]; push_cast; ring
    · intro i hi
      rw [hold2 i (by omega), hold i hi]
    · intro i p hp
      cases i with
      | zero =>
        simp only [List.getElem?_cons_zero, Option.some.injEq] at hp
        subst hp
        rw [Nat.add_zero, hold2 _ (by omega), hget]
      | succ k =>
        simp only [List.getElem?_cons_succ] at hp
        have := hnew2 k p hp
        rw [hn1', hhs] at this
        rw [← this]; congr 1; omega
    · intro hfit
      simp only [List.length_cons] at hfit
      push_cast at hfit
      have hne : ¬ (d.triline.numPoints = d.numPointsAllocated) := by omega
      rw [if_neg hne] at hal
      rw [hcap1 (by rw [hn1, hal]; omega), hal]
    · intro hover hwithin
      simp only [List.length_cons] at hover hwithin
      push_cast at hover hwithin
      by_cases hfull : d.triline.numPoints = d.numPointsAllocated
      · rw [if_pos hfull] at hal
        rw [hcap1 (by rw [hn1, hal]; omega), hal]
      · rw [if_neg hfull] at hal
        rw [hcap2 (by rw [hn1, hal]; omega) (by rw [hn1, hal]; omega), hal]

/-- C13: in the state machine of `demo.c` (initial `points` capacity 64), whatever the
float operations are, (1) for every sequence of frame inputs the main loop is defined and
the state reached satisfies `DemoInv`: `0 <= numPoints <= numPointsAllocated`, which is the
capacity of `points`; (2) in every frame with a left click, on the state `d1` left by the
key chain, the point-add stores the click (remapped) at index `d1.numPoints`, leaves all
earlier points unchanged, increments `numPoints` and grows the capacity by exactly 16 if
and only if `numPoints` equalled the capacity; (3) from the initial state, a frame that
clears the line and 65 frames with one click each end with capacity 80 (one growth
event), 65 points, and the 65 clicks retrievable in insertion order. -/
theorem demo_points_capacity (heap : Vector2 α) :
    (∀ inputs : List (FrameInput α),
      ∃ d : DemoState α,
        (initDemo dm heap).bind (fun d0 => runFrames dm d0 inputs) = some d ∧ DemoInv d) ∧
    (∀ (d : DemoState α) (inp : FrameInput α), DemoInv d → inp.mouseLeft = true →
      ∃ d1 d2 : DemoState α, keyChain dm (resizeStep d inp) inp = some d1 ∧
        processEvents dm d inp = some d2 ∧ DemoInv d2 ∧
        d2.triline.numPoints = d1.triline.numPoints + 1 ∧
        d2.triline.points[d1.triline.numPoints.toNat]?
          = some (remapClick dm d1.halfScreen inp.mousePos) ∧
        (∀ i, i < d1.triline.numPoints.toNat →
          d2.triline.points[i]? = d1.triline.points[i]?) ∧
        d2.numPointsAllocated
          = (if d1.triline.numPoints = d1.numPointsAllocated then d1.numPointsAllocated + 16
             else d1.numPointsAllocated) ∧
        (d2.triline.points.length : Int) = d2.numPointsAllocated) ∧
    (∀ clicks : List (Vector2 α), clicks.length = 65 →
      ∃ d : DemoState α,
        (initDemo dm heap).bind (fun d0 => runFrames dm d0
          (clearFrame heap heap :: clicks.map (fun p => clickFrame p heap))) = some d ∧
        d.numPointsAllocated = 80 ∧ d.triline.numPoints = 65 ∧
        ∀ (i : Nat) (p : Vector2 α), clicks[i]? = some p →
          d.triline.points[i]? = some (remapClick dm 500 p)) := by
  obtain ⟨d0, hinit, hinv0, hal0, hhs0, -⟩ := initDemo_inv dm heap
  refine ⟨?_, ?_, ?_⟩
  · intro inputs
    obtain ⟨d, hr, hi⟩ := runFrames_inv dm inputs d0 hinv0
    exact ⟨d, by rw [hinit, Option.some_bind, hr], hi⟩
  · intro d inp hinv hm
    obtain ⟨d1, hk, hi1, -, -⟩ := keyChain_inv dm (resizeStep d inp) inp
      (resizeStep_inv d inp hinv).1
    obtain ⟨d2, ha, hi2, hn, hget, hold, hal, -, -⟩ :=
      addPoint_spec dm d1 inp.mousePos inp.fill hi1
    refine ⟨d1, d2, hk, ?_, hi2, hn, hget, hold, hal, hi2.2.2.1⟩
    unfold processEvents
    simp only [Option.bind_eq_bind, hk, Option.some_bind, Option.pure_def, hm, if_true, ha]
  · intro clicks hlen
    obtain ⟨d1, hf, hi1, hn1, hal1, hhs1⟩ := demoFrame_clear dm d0 heap heap hinv0
    obtain ⟨d2, hr, -, hn2, -, -, hnew, -, hcap⟩ := runFrames_clicks dm heap clicks d1 hi1
    rw [hn1, hlen] at hn2 hcap
    rw [hal1, hal0] at hcap
    rw [hn1, hhs1, hhs0] at hnew
    refine ⟨d2, ?_, ?_, ?_, ?_⟩
    · rw [hinit, Option.some_bind]
      simp only [runFrames, hf, Option.some_bind, hr]
    · rw [hcap (by norm_num) (by norm_num)]; norm_num
    · rw [hn2]; norm_num
    · intro i p hp
      have := hnew i p hp
      simpa using this

end DemoInvariant

section Remap
variable {F : Type} [LinearOrderedField F] (sq : F → F)

/-- The click remapping on a finite position, in exact arithmetic. -/
theorem remapClick_finVec (hs : Int) (x y : F) :
    remapClick (exactDemo sq) hs (finVec x y)
      = finVec (if (hs : F) ≤ x then x - (hs : F) else x) y := by
  unfold remapClick exactDemo finVec
  by_cases h : (hs : F) ≤ x
  · simp [Fl.le, h, exactOps, Fl.sub, Fl.add, Fl.neg, sub_eq_add_neg]
  · simp [Fl.le, h]

/-- C14 (as amended): in exact arithmetic, for every window width `w >= 1` with
`halfScreen = w / 2` (integer division) and every click at a finite position `(x, y)` with
`0 <= x < w`, the point-add records at index `numPoints` the point `(x - halfScreen, y)`
when `x >= halfScreen` and `(x, y)` otherwise; the recorded x-coordinate lies in
`[0, w - halfScreen)`, which is the left pane's range `[0, halfScreen)` when `w` is even. -/
theorem addPoint_remap (d : DemoState (Fl F)) (x y : F) (fill : Vector2 (Fl F))
    (hinv : DemoInv d) (hhalf : d.halfScreen = Int.tdiv d.screenWidth 2)
    (hw : 1 ≤ d.screenWidth) (hx0 : 0 ≤ x) (hxw : x < (d.screenWidth : F)) :
    ∃ (d2 : DemoState (Fl F)) (rx : F),
      addPoint (exactDemo sq) d (finVec x y) fill = some d2 ∧
      d2.triline.points[d.triline.numPoints.toNat]? = some (finVec rx y) ∧
      rx = (if (d.halfScreen : F) ≤ x then x - (d.halfScreen : F) else x) ∧
      0 ≤ rx ∧ rx < ((d.screenWidth - d.halfScreen : Int) : F) ∧
      (d.screenWidth % 2 = 0 → rx < (d.halfScreen : F)) := by
  obtain ⟨d2, ha, -, -, hget, -⟩ := addPoint_spec (exactDemo sq) d (finVec x y) fill hinv
  rw [remapClick_finVec] at hget
  have hdiv : Int.tdiv d.screenWidth 2 = d.screenWidth / 2 :=
    Int.tdiv_eq_ediv (by omega) (by omega)
  have h1 : 2 * d.halfScreen ≤ d.screenWidth := by omega
  have h2 : 0 ≤ d.halfScreen := by omega
  have h1F : 2 * (d.halfScreen : F) ≤ (d.screenWidth : F) := by exact_mod_cast h1
  have h2F : (0 : F) ≤ (d.halfScreen : F) := by exact_mod_cast h2
  refine ⟨d2, _, ha, hget, rfl, ?_, ?_, ?_⟩
  · split_ifs with h
    · linarith
    · exact hx0
  · push_cast
    split_ifs with h
    · linarith
    · linarith
  · intro heven
    have h3 : d.screenWidth = 2 * d.halfScreen := by omega
    have h3F : (d.screenWidth : F) = 2 * (d.halfScreen : F) := by exact_mod_cast h3
    split_ifs with h
    · linarith
    · linarith

end Remap

section RemapExamples

theorem sampleDemo_inv : DemoInv sampleDemo := by
  unfold DemoInv sampleDemo
  decide

/-- Witness of C14: in the 1000 pixels wide window (`halfScreen = 500`) a click at
`(500 + 15, 40)` is recorded as `(15, 40)`. -/
theorem addPoint_remap_witness :
    ∃ d2 : DemoState (Fl ℚ),
      addPoint (exactDemo Rat.sqrt) sampleDemo (finVec 515 40) (finVec 0 0) = some d2 ∧
      d2.triline.points[0]? = some (finVec 15 40) := by
  obtain ⟨d2, rx, ha, hget, hrx, -⟩ := addPoint_remap Rat.sqrt sampleDemo 515 40 (finVec 0 0)
    sampleDemo_inv (by decide) (by decide) (by norm_num) (by norm_num [sampleDemo])
  refine ⟨d2, ha, ?_⟩
  have h15 : rx = 15 := by
    rw [hrx]; norm_num [sampleDemo]
  rw [h15] at hget
  exact hget

/-- C14 (counterexample): in a window of the odd width 1001 (`halfScreen = 500`) a click
at `(1000, 40)`, inside the window, is recorded as `(500, 40)`: the x-coordinate is
`halfScreen`, outside the left pane's range `[0, halfScreen)`. -/
theorem addPoint_odd_width :
    ∃ d2 : DemoState (Fl ℚ),
      addPoint (exactDemo Rat.sqrt)
        { sampleDemo with screenWidth := 1001, halfScreen := Int.tdiv 1001 2 }
        (finVec 1000 40) (finVec 0 0) = some d2 ∧
      d2.triline.points[0]? = some (finVec 500 40) ∧
      ¬ ((500 : ℚ) < ((Int.tdiv 1001 2 : Int) : ℚ)) := by
  have hinv : DemoInv { sampleDemo with screenWidth := 1001, halfScreen := Int.tdiv 1001 2 } :=
    sampleDemo_inv
  obtain ⟨d2, ha, -, -, hget, -⟩ := addPoint_spec (exactDemo Rat.sqrt) _ (finVec 1000 40)
    (finVec 0 0) hinv
  rw [remapClick_finVec] at hget
  have ht : Int.tdiv 1001 2 = 500 := by decide
  refine ⟨d2, ha, ?_, ?_⟩
  · have e : (if (((Int.tdiv 1001 2 : Int)) : ℚ) ≤ 1000 then (1000 : ℚ) - ((Int.tdiv 1001 2 : Int) : ℚ)
        else 1000) = 500 := by
      rw [ht]; norm_num
    simp only [e] at hget
    exact hget
  · rw [ht]; norm_num

end RemapExamples

section Priority
variable {α : Type} (dm : DemoOps α)

/-- C18 (as amended): in one frame of the demo's input handling at most one of the actions
{thickness reset (Shift+R), shape reset (R), clear (C), toggle loop (L), decrease thickness
(Down held), increase thickness (Up held), remove last point (modifier+Z)} is taken, the
first in that priority order whose condition holds (`keyChain` is `firstMatch` on the
ordered list `keyActions`), and only the point-add (left click) is applied independently,
after the chain.  So a frame where the toggle-loop key is pressed (with no R and no C) flips
`loop` and leaves the thickness unchanged even when the Up arrow is held; a frame where Up
is held and no key of higher priority is pressed adds `0.4f + shift*0.8f` to the thickness
(0.4, or 1.2 with shift, in exact arithmetic); and a left click in the same frame as any
chain action still appends a point. -/
theorem processEvents_priority (d : DemoState α) (inp : FrameInput α) :
    keyChain dm d inp = firstMatch (keyActions dm inp) d ∧
    processEvents dm d inp
      = (firstMatch (keyActions dm inp) (resizeStep d inp)).bind
          (fun d1 => if inp.mouseLeft = true then addPoint dm d1 inp.mousePos inp.fill
            else some d1) ∧
    (inp.keyL = true → inp.keyR = false → inp.keyC = false →
      keyChain dm d inp
        = some { d with triline := { d.triline with loop := !d.triline.loop },
                        updTriLine := true }) ∧
    (inp.keyUp = true → inp.keyR = false → inp.keyC = false → inp.keyL = false →
      inp.keyDown = false →
      keyChain dm d inp
        = some { d with
            triline := { d.triline with
              thickness := dm.flt.add d.triline.thickness (thicknessStep dm inp.shift) },
            updTriLine := true }) ∧
    (DemoInv d → inp.mouseLeft = true →
      ∃ d1 d2 : DemoState α, keyChain dm (resizeStep d inp) inp = some d1 ∧
        processEvents dm d inp = some d2 ∧
        d2.triline.numPoints = d1.triline.numPoints + 1 ∧
        d2.triline.points[d1.triline.numPoints.toNat]?
          = some (remapClick dm d1.halfScreen inp.mousePos)) ∧
    thicknessStep (exactDemo Rat.sqrt) false = Fl.fin (4 / 10) ∧
    thicknessStep (exactDemo Rat.sqrt) true = Fl.fin (12 / 10) := by
  have hchain : ∀ e : DemoState α, keyChain dm e inp = firstMatch (keyActions dm inp) e := by
    intro e
    unfold keyChain keyActions
    simp only [firstMatch]
  refine ⟨hchain d, ?_, ?_, ?_, ?_, ?_, ?_⟩
  · unfold processEvents
    simp only [Option.bind_eq_bind, Option.pure_def, hchain]
  · intro hL hR hC
    unfold keyChain
    simp [hL, hR, hC]
  · intro hU hR hC hL hD
    unfold keyChain
    simp [hU, hR, hC, hL, hD]
  · intro hinv hm
    obtain ⟨d1, hk, hi1, -, -⟩ := keyChain_inv dm (resizeStep d inp) inp
      (resizeStep_inv d inp hinv).1
    obtain ⟨d2, ha, -, hn, hget, -⟩ := addPoint_spec dm d1 inp.mousePos inp.fill hi1
    refine ⟨d1, d2, hk, ?_, hn, hget⟩
    unfold processEvents
    simp only [Option.bind_eq_bind, hk, Option.some_bind, Option.pure_def, hm, if_true, ha]
  · simp only [thicknessStep, exactDemo, boolToInt, exactOps, Fl.mul, Fl.add]
    norm_num
  · simp only [thicknessStep, exactDemo, boolToInt, exactOps, Fl.mul, Fl.add]
    norm_num

/-- C18 (counterexample): from `sampleDemo` (`loop = true`, `thickness = 16`), a frame
where the key L is pressed and the Up arrow is held flips `loop` and leaves the thickness
at 16: it is not increased by 0.4. -/
theorem toggle_loop_with_up :
    ∃ d : DemoState (Fl ℚ),
      processEvents (exactDemo Rat.sqrt) sampleDemo toggleUpFrame = some d ∧
      d.triline.loop = false ∧ d.triline.thickness = Fl.fin 16 := by
  refine ⟨{ sampleDemo with triline := { sampleDemo.triline with loop := false },
                              updTriLine := true }, ?_, rfl, rfl⟩
  simp [processEvents, keyChain, resizeStep, toggleUpFrame, sampleDemo]

end Priority

section Binary32

/-- C5 (counterexample): in binary32 arithmetic, the two distinct points `P0 = (0, 0)`,
`P1 = (2^64, 0)` and the thickness 4.  The square of `d.x = 2^64` overflows to `+inf`, so
`|d|` is `+inf`, the scale `2 / |d|` is 0 and both perpendiculars are the centre itself:
the strip is `[P0, P0, P1, P1]` for either `loop`, not the rectangle of width 4
(`P0 - n = (0, -2)`, `P0 + n = (0, 2)`), and no vertex is off the segment. -/
theorem TriangulateLine_two_points_overflow :
    TriangulateLine f32Ops
        [⟨F32.ofInt 0, F32.ofInt 0⟩, ⟨F32.fin false 1 64, F32.ofInt 0⟩] 2 (F32.ofInt 4) false
        (RL_MALLOC F32 4)
      = some [some ⟨F32.ofInt 0, F32.ofInt 0⟩, some ⟨F32.ofInt 0, F32.ofInt 0⟩,
          some ⟨F32.fin false 1 64, F32.ofInt 0⟩, some ⟨F32.fin false 1 64, F32.ofInt 0⟩] ∧
    TriangulateLine f32Ops
        [⟨F32.ofInt 0, F32.ofInt 0⟩, ⟨F32.fin false 1 64, F32.ofInt 0⟩] 2 (F32.ofInt 4) true
        (RL_MALLOC F32 4)
      = some [some ⟨F32.ofInt 0, F32.ofInt 0⟩, some ⟨F32.ofInt 0, F32.ofInt 0⟩,
          some ⟨F32.fin false 1 64, F32.ofInt 0⟩, some ⟨F32.fin false 1 64, F32.ofInt 0⟩] ∧
    f32Ops.mul (F32.fin false 1 64) (F32.fin false 1 64) = F32.inf false ∧
    Vector2Length f32Ops ⟨F32.fin false 1 64, F32.ofInt 0⟩ = F32.inf false ∧
    f32Ops.div (F32.ofInt 2) (F32.inf false) = F32.ofInt 0 := by
  decide!

/-- C19 (counterexample): in binary32 arithmetic, the open line `tinyA`, `tinyO`, `tinyB`
of thickness `0.00001f`, at the visited vertex `i = 1` (`A = tinyA`, `O = tinyO`).  The
candidates `p1 = O + s` and `p2 = O - s` are symmetric about `O` (`p1 - O = O - p2`, both
subtractions exact), `CrossProduct(O - A, p1 - O)` is `> 0`, so `p1` is off the line
through `A` and `O`; the tie-break writes `p2` to `strip[2]`, and
`DoLinesIntersect(A, O, strip[0], strip[2])` is true: the cross products of `O - A` with
`strip[0] - A` and with `strip[2] - A` are rounded and the rounding decides the signs. -/
theorem TriangulateLine_tieBreak_rounding :
    Vector2Add f32Ops tinyO
        (joinVector f32Ops (f32Ops.div (F32.lit 1 100000) f32Ops.two) tinyA tinyO tinyB)
      = ⟨F32.fin false 3119445 (-12), F32.fin false 3407159 (-13)⟩ ∧
    Vector2Subtract f32Ops tinyO
        (joinVector f32Ops (f32Ops.div (F32.lit 1 100000) f32Ops.two) tinyA tinyO tinyB)
      = ⟨F32.fin false 6238891 (-13), F32.fin false 6814319 (-14)⟩ ∧
    Vector2Subtract f32Ops ⟨F32.fin false 3119445 (-12), F32.fin false 3407159 (-13)⟩ tinyO
      = Vector2Subtract f32Ops tinyO ⟨F32.fin false 6238891 (-13), F32.fin false 6814319 (-14)⟩ ∧
    f32Ops.lt f32Ops.zero
        (CrossProduct f32Ops (Vector2Subtract f32Ops tinyO tinyA)
          (Vector2Subtract f32Ops ⟨F32.fin false 3119445 (-12), F32.fin false 3407159 (-13)⟩
            tinyO)) = true ∧
    TriangulateLine f32Ops [tinyA, tinyO, tinyB] 3 (F32.lit 1 100000) false (RL_MALLOC F32 6)
      = some [some ⟨F32.fin false 2599463 (-13), F32.fin false 11438777 (-17)⟩,
          some ⟨F32.fin false 2599463 (-13), F32.fin false 11438779 (-17)⟩,
          some ⟨F32.fin false 6238891 (-13), F32.fin false 6814319 (-14)⟩,
          some ⟨F32.fin false 3119445 (-12), F32.fin false 3407159 (-13)⟩,
          some ⟨F32.fin false 12175251 (-15), F32.fin false 843705 (-12)⟩,
          some ⟨F32.fin false 12175251 (-15), F32.fin false 843705 (-12)⟩] ∧
    DoLinesIntersect f32Ops tinyA tinyO
        ⟨F32.fin false 2599463 (-13), F32.fin false 11438777 (-17)⟩
        ⟨F32.fin false 6238891 (-13), F32.fin false 6814319 (-14)⟩ = true := by
  decide!

end Binary32

end LineTriangulator
